import Mathlib

/-!
Verification of the Monkey-language toolchain (lexer, Pratt parser,
tree-walking evaluator, bytecode VM, symbol table) against its
natural-language specification.

The Go sources are shallowly embedded: strings are lists of characters,
Go maps are association lists (newest binding first), Go `int64`
arithmetic is `Int` with explicit two's-complement wrapping, the pair
`(object.Object, error)` becomes an explicit result type in which a Go
`nil` interface value is `Option.none`, and Go runtime panics
(nil dereference, division by zero, negative shift counts, slice index
out of range) are an explicit `panicked` outcome.  Unbounded recursion
(the evaluator, the parser, the VM loop) is driven by an explicit fuel
parameter that every function decrements on entry.
-/

namespace Monkey

/-! ## Token (package token)

Modelled from the spec: the `token` package itself is not among the
sources (only its uses in `lexer.go` and `parser.go` are).  Following
the spec's token list and the lexer's `doubleCharMatch` table, whose
keys coincide with the two-character token type values, `TokenType` is
a string and each constant names its canonical spelling. -/

abbrev TokenType := String

def ILLEGAL : TokenType := "ILLEGAL"
def EOF : TokenType := "EOF"
def IDENT : TokenType := "IDENT"
def INT : TokenType := "INT"
def STRING : TokenType := "STRING"
def ASSIGN : TokenType := "="
def PLUS : TokenType := "+"
def MINUS : TokenType := "-"
def BANG : TokenType := "!"
def ASTERISK : TokenType := "*"
def SLASH : TokenType := "/"
def PERCENT : TokenType := "%"
def LANG : TokenType := "<"
def RANG : TokenType := ">"
def EQ : TokenType := "=="
def NEQ : TokenType := "!="
def GEQ : TokenType := ">="
def LEQ : TokenType := "<="
def XOR_EQ : TokenType := "^="
def OR_EQ : TokenType := "|="
def AND_EQ : TokenType := "&="
def MIN_EQ : TokenType := "-="
def MUL_EQ : TokenType := "*="
def DIV_EQ : TokenType := "/="
def PERC_EQ : TokenType := "%="
def ANDAND : TokenType := "&&"
def OROR : TokenType := "||"
def SHOVL : TokenType := "<<"
def SHOVR : TokenType := ">>"
def COMMA : TokenType := ","
def SEMICOLON : TokenType := ";"
def COLON : TokenType := ":"
def LPAREN : TokenType := "("
def RPAREN : TokenType := ")"
def LBRACE : TokenType := "\x7b"
def RBRACE : TokenType := "\x7d"
def LBRACKET : TokenType := "["
def RBRACKET : TokenType := "]"
def CARET : TokenType := "^"
def PIPE : TokenType := "|"
def AMPERSAND : TokenType := "&"
def FUNCTION : TokenType := "FUNCTION"
def LET : TokenType := "LET"
def IF : TokenType := "IF"
def ELSE : TokenType := "ELSE"
def RETURN : TokenType := "RETURN"
def TRUETOK : TokenType := "TRUE"
def FALSETOK : TokenType := "FALSE"

structure Token where
  ttype : TokenType
  literal : String
deriving DecidableEq, Repr

/-- token.New -/
def Token.new (t : TokenType) (lit : String) : Token := ⟨t, lit⟩

/-! ## Lexer (src/lexer/lexer.go)

The input string is a list of characters; `position`/`readPosition` are
indices into it (the Go byte/rune distinction collapses because every
input considered is ASCII, where one rune is one byte).  The zero rune
that Go uses as the end-of-input sentinel is the character `\x00`. -/

def nulChar : Char := Char.ofNat 0

/-- lexer.singleCharMatch -/
def singleCharMatch (c : Char) : Option TokenType :=
  if c = '=' then some ASSIGN
  else if c = ';' then some SEMICOLON
  else if c = '(' then some LPAREN
  else if c = ')' then some RPAREN
  else if c = ',' then some COMMA
  else if c = '+' then some PLUS
  else if c = '-' then some MINUS
  else if c = '*' then some ASTERISK
  else if c = '/' then some SLASH
  else if c = '{' then some LBRACE
  else if c = '}' then some RBRACE
  else if c = '^' then some CARET
  else if c = '|' then some PIPE
  else if c = '&' then some AMPERSAND
  else if c = '%' then some PERCENT
  else if c = '<' then some LANG
  else if c = '>' then some RANG
  else if c = '[' then some LBRACKET
  else if c = ']' then some RBRACKET
  else if c = ':' then some COLON
  else none

/-- lexer.doubleCharMatch: keyed by the two-character strings, which equal
the token-type values themselves. -/
def doubleCharMatch (s : String) : Option TokenType :=
  if s = EQ then some EQ
  else if s = NEQ then some NEQ
  else if s = GEQ then some GEQ
  else if s = LEQ then some LEQ
  else if s = XOR_EQ then some XOR_EQ
  else if s = OR_EQ then some OR_EQ
  else if s = AND_EQ then some AND_EQ
  else if s = MIN_EQ then some MIN_EQ
  else if s = MUL_EQ then some MUL_EQ
  else if s = DIV_EQ then some DIV_EQ
  else if s = PERC_EQ then some PERC_EQ
  else if s = ANDAND then some ANDAND
  else if s = OROR then some OROR
  else if s = SHOVL then some SHOVL
  else if s = SHOVR then some SHOVR
  else none

/-- lexer.keywordMatch (the bang is in this table in the source). -/
def keywordMatch (s : String) : Option TokenType :=
  if s = "fn" then some FUNCTION
  else if s = "let" then some LET
  else if s = "if" then some IF
  else if s = "else" then some ELSE
  else if s = "return" then some RETURN
  else if s = "true" then some TRUETOK
  else if s = "false" then some FALSETOK
  else if s = "!" then some BANG
  else none

/-- lexer.isLetter -/
def isLetter (r : Char) : Bool :=
  ('a' ≤ r && r ≤ 'z') || r = '_' || r = '?' || r = '!' || ('A' ≤ r && r ≤ 'Z')

/-- lexer.isDigit -/
def isDigit (c : Char) : Bool := '0' ≤ c && c ≤ '9'

structure Lexer where
  input : List Char
  position : Nat
  readPosition : Nat
  ch : Char
deriving DecidableEq, Repr

/-- lexer.readChar (every character has width 1 in the character model). -/
def Lexer.readChar (l : Lexer) : Lexer :=
  let c := if l.readPosition ≥ l.input.length then nulChar
           else l.input.getD l.readPosition nulChar
  { l with ch := c, position := l.readPosition, readPosition := l.readPosition + 1 }

/-- lexer.New -/
def Lexer.new (input : List Char) : Lexer :=
  Lexer.readChar { input := input, position := 0, readPosition := 0, ch := nulChar }

/-- lexer.peekChar -/
def Lexer.peekChar (l : Lexer) : Char :=
  if l.readPosition ≥ l.input.length then nulChar
  else l.input.getD l.readPosition nulChar

def isWhitespaceChar (c : Char) : Bool :=
  c = ' ' || c = '\t' || c = '\n' || c = '\r'

/-- Fueled loop body of lexer.eatWhitespace; each `readChar` advances
`readPosition`, so `input.length + 2` steps always suffice. -/
def eatWhitespaceGo : Nat → Lexer → Lexer
  | 0, l => l
  | f + 1, l => if isWhitespaceChar l.ch then eatWhitespaceGo f (l.readChar) else l

/-- lexer.eatWhitespace -/
def Lexer.eatWhitespace (l : Lexer) : Lexer :=
  eatWhitespaceGo (l.input.length + 2) l

/-- Fueled loop body of lexer.readNumber. -/
def readNumberGo : Nat → Lexer → Lexer
  | 0, l => l
  | f + 1, l => if isDigit l.ch then readNumberGo f (l.readChar) else l

/-- Go slice l.input[a:b] as a string. -/
def sliceStr (input : List Char) (a b : Nat) : String :=
  String.mk ((input.drop a).take (b - a))

/-- lexer.readNumber -/
def Lexer.readNumber (l : Lexer) : String × Lexer :=
  let pos := l.position
  let l2 := readNumberGo (l.input.length + 2) l
  (sliceStr l2.input pos l2.position, l2)

/-- Fueled loop body of lexer.readIdentifier. -/
def readIdentifierGo : Nat → Lexer → Lexer
  | 0, l => l
  | f + 1, l => if isLetter l.ch then readIdentifierGo f (l.readChar) else l

/-- lexer.readIdentifier -/
def Lexer.readIdentifier (l : Lexer) : String × Lexer :=
  let pos := l.position
  let l2 := readIdentifierGo (l.input.length + 2) l
  (sliceStr l2.input pos l2.position, l2)

/-- lexer.handleIdentifier -/
def Lexer.handleIdentifier (l : Lexer) : (TokenType × String) × Lexer :=
  let (val, l2) := l.readIdentifier
  match keywordMatch val with
  | some match1 => ((match1, val), l2)
  | none => ((IDENT, val), l2)

/-- Fueled loop body of lexer.readString: advance until a closing quote
or end of input. -/
def readStringGo : Nat → Lexer → Lexer
  | 0, l => l
  | f + 1, l =>
    let l2 := l.readChar
    if l2.ch = '"' || l2.ch = nulChar then l2 else readStringGo f l2

/-- lexer.readString -/
def Lexer.readString (l : Lexer) : String × Lexer :=
  let position := l.position + 1
  let l2 := readStringGo (l.input.length + 2) l
  (sliceStr l2.input position l2.position, l2)

/-- lexer.NextToken -/
def Lexer.nextToken (l0 : Lexer) : Token × Lexer :=
  let l := l0.eatWhitespace
  if l.ch = nulChar then (Token.new EOF "", l)
  else
    match doubleCharMatch (String.mk [l.ch, l.peekChar]) with
    | some val => (Token.new val (String.mk [l.ch, l.peekChar]), l.readChar.readChar)
    | none =>
      if isLetter l.ch then
        let ((t, lit), l2) := l.handleIdentifier
        (Token.new t lit, l2)
      else if isDigit l.ch then
        let (num, l2) := l.readNumber
        (Token.new INT num, l2)
      else
        match singleCharMatch l.ch with
        | some val => (Token.new val (String.mk [l.ch]), l.readChar)
        | none =>
          if l.ch = '"' then
            let (s, l2) := l.readString
            (Token.new STRING s, l2.readChar)
          else (Token.new ILLEGAL (String.mk [l.ch]), l)

/-! ## AST (package ast)

Modelled from the spec: `src/ast/ast.go` holds only an early fragment of
the AST (Program, Let, Return, Identifier), while the parser and the
tree walker use the full node set; the remaining nodes follow the spec's
node list (§3).  Each node's originating `Token` field is dropped: it
feeds only error messages and the pretty printer, and its observable
content (the operator literal, the identifier text, the literal value)
is kept as the corresponding field.  `BlockStatement` and `Program` are
statement lists. -/

mutual

inductive Expr where
  | identifier (value : String)
  | integerLiteral (value : Int)
  | booleanLiteral (value : Bool)
  | stringLiteral (value : String)
  | arrayLiteral (elements : List Expr)
  | hashLiteral (pairs : List (Expr × Expr))
  | prefixExpression (operator : String) (right : Expr)
  | infixExpression (operator : String) (left : Expr) (right : Expr)
  | ifExpression (condition : Expr) (consequence : List Stmt)
      (alternative : Option (List Stmt))
  | functionLiteral (parameters : List String) (body : List Stmt)
  | callExpression (function : Expr) (arguments : List Expr)
  | indexExpression (left : Expr) (index : Expr)
deriving Repr

inductive Stmt where
  | letStatement (name : String) (value : Expr)
  | returnStatement (returnValue : Expr)
  | expressionStatement (expression : Expr)
deriving Repr

end

abbrev Program := List Stmt

/-! ## Object model (package object)

The live revision of `object.go` is not among the sources; the old
revisions present there define Integer, Boolean, Null, ReturnValue and
Error, and the remaining kinds (String, Array, Hash, Function, Builtin,
HashKey, the Hashable facet, ErrorPair) are modelled from the spec (§3)
and from their uses in `tree_walker.go` and `builtins.go`.  A Go
`object.Object` interface value that may be nil is `Option Obj`;
`none` is the nil interface.  The NULL/TRUE/FALSE singletons are the
corresponding constructor values, so the runtime's pointer equality on
them is value equality. -/

structure HashKey where
  ttype : String
  value : Nat
deriving DecidableEq, Repr

inductive Obj where
  | integer (value : Int)
  | boolean (value : Bool)
  | null
  | str (value : String)
  | array (elements : List (Option Obj))
  | hash (pairs : List (HashKey × Obj × Option Obj))
  | returnValue (value : Option Obj)
  | error (message : String)
  | function (parameters : List String) (body : List Stmt) (env : Nat)
  | builtin (name : String)
deriving Repr

def NULLOBJ : Obj := Obj.null
def TRUEOBJ : Obj := Obj.boolean true
def FALSEOBJ : Obj := Obj.boolean false

def INTEGER_OBJ : String := "INTEGER"
def BOOLEAN_OBJ : String := "BOOLEAN"
def NULL_OBJ : String := "NULL"
def STRING_OBJ : String := "STRING"
def ARRAY_OBJ : String := "ARRAY"
def HASH_OBJ : String := "HASH"
def RETURN_VALUE_OBJ : String := "RETURN_VALUE"
def ERROR_OBJ : String := "ERROR"
def FUNCTION_OBJ : String := "FUNCTION"
def BUILTIN_OBJ : String := "BUILTIN"

/-- Object.Type() -/
def Obj.typeString : Obj → String
  | .integer _ => INTEGER_OBJ
  | .boolean _ => BOOLEAN_OBJ
  | .null => NULL_OBJ
  | .str _ => STRING_OBJ
  | .array _ => ARRAY_OBJ
  | .hash _ => HASH_OBJ
  | .returnValue _ => RETURN_VALUE_OBJ
  | .error _ => ERROR_OBJ
  | .function _ _ _ => FUNCTION_OBJ
  | .builtin _ => BUILTIN_OBJ

/-- object.NativeToBooleanObject -/
def nativeToBooleanObject (input : Bool) : Obj :=
  if input then TRUEOBJ else FALSEOBJ

mutual

/-- Object.Inspect(); `none` is a Go panic (Inspect on a nil object held
inside a container).  Function bodies print as in the book, which no
claim observes. -/
def Obj.inspect : Obj → Option String
  | .integer v => some (toString v)
  | .boolean v => some (if v then "true" else "false")
  | .null => some "null"
  | .str v => some v
  | .array elems =>
      match inspectElems elems with
      | some strs => some ("[" ++ String.intercalate ", " strs ++ "]")
      | none => none
  | .hash pairs =>
      match inspectPairs pairs with
      | some strs => some ("\x7b" ++ String.intercalate ", " strs ++ "\x7d")
      | none => none
  | .returnValue (some v) => v.inspect
  | .returnValue none => none
  | .error m => some ("ERROR: " ++ m)
  | .function _ _ _ => some "fn"
  | .builtin _ => some "builtin function"

def inspectElems : List (Option Obj) → Option (List String)
  | [] => some []
  | none :: _ => none
  | some o :: rest =>
      match o.inspect, inspectElems rest with
      | some s, some strs => some (s :: strs)
      | _, _ => none

def inspectPairs : List (HashKey × Obj × Option Obj) → Option (List String)
  | [] => some []
  | (_, _, none) :: _ => none
  | (_, k, some v) :: rest =>
      match k.inspect, v.inspect, inspectPairs rest with
      | some ks, some vs, some strs => some ((ks ++ ": " ++ vs) :: strs)
      | _, _, _ => none

end

/-! ### Go int64 arithmetic

Values of `object.Integer` are Go `int64`; arithmetic wraps in
two's complement.  Division and modulo truncate toward zero and panic
on a zero divisor; shifts panic on a negative count. -/

def wrap64 (z : Int) : Int := (z + 2 ^ 63) % 2 ^ 64 - 2 ^ 63

def u64ofInt (z : Int) : Nat := (z % 2 ^ 64).toNat

/-- FNV-1a 64-bit hash of the string bytes (hash/fnv New64a). -/
def fnv1a64 (s : List Char) : Nat :=
  s.foldl (fun h c => (h ^^^ c.toNat) * 1099511628211 % 2 ^ 64)
    14695981039346656037

/-- The Hashable facet: HashKey() for Integer, Boolean, String; `none`
for every other kind (the type assertion to Hashable fails). -/
def Obj.hashKeyOf : Obj → Option HashKey
  | .integer v => some ⟨INTEGER_OBJ, u64ofInt v⟩
  | .boolean v => some ⟨BOOLEAN_OBJ, if v then 1 else 0⟩
  | .str v => some ⟨STRING_OBJ, fnv1a64 v.toList⟩
  | _ => none

/-! ## Environment (src/object/environment.go)

Environments are mutable and shared (closures keep pointers), so they
live in an explicit heap: an environment value is an index into a list
of frames, and `NewEnclosedEnvironment` appends a frame whose `outer`
points at an existing (hence smaller) index.  A frame's store is an
association list; `Set` conses, so the newest binding shadows. -/

structure Frame where
  store : List (String × Option Obj)
  outer : Option Nat
deriving Repr

abbrev Heap := List Frame

def lookupStore : List (String × Option Obj) → String → Option (Option Obj)
  | [], _ => none
  | (k, v) :: rest, name => if k = name then some v else lookupStore rest name

/-- Environment.Get: search the local store, then walk outward.  The
outer index of a frame created through the API is strictly smaller than
the frame's own index, so a fuel of `id + 1` always covers the chain
and the guard never fires on API-built heaps; a malformed chain (never
constructed here) answers `none`. -/
def envGetGo (h : Heap) : Nat → Nat → String → Option (Option Obj)
  | 0, _, _ => none
  | fuel + 1, id, name =>
    match h.get? id with
    | none => none
    | some fr =>
      match lookupStore fr.store name with
      | some v => some v
      | none =>
        match fr.outer with
        | some o => if o < id then envGetGo h fuel o name else none
        | none => none

def envGet (h : Heap) (id : Nat) (name : String) : Option (Option Obj) :=
  envGetGo h (id + 1) id name

/-- Environment.Set: always writes into the local frame. -/
def envSet (h : Heap) (id : Nat) (name : String) (v : Option Obj) : Heap :=
  match h.get? id with
  | some fr => h.set id { fr with store := (name, v) :: fr.store }
  | none => h

/-- object.NewEnvironemnt (sic) -/
def newEnvironment (h : Heap) : Heap × Nat :=
  (h ++ [⟨[], none⟩], h.length)

/-- object.NewEnclosedEnvironment -/
def newEnclosedEnvironment (h : Heap) (outer : Nat) : Heap × Nat :=
  (h ++ [⟨[], some outer⟩], h.length)

/-! ## Evaluator helpers (src/evaluator/tree_walker.go, src/unnamed/part_000)

A Go `(object.Object, error)` pair is `GoRes.ret obj err` with the error
represented by its message; a Go runtime panic is `GoRes.panicked`. -/

inductive GoRes where
  | ret (obj : Option Obj) (err : Option String)
  | panicked
deriving Repr

/-- evaluator.isError -/
def isError (obj : Option Obj) : Bool :=
  match obj with
  | some o => o.typeString == ERROR_OBJ
  | none => false

/-- The message of an Error object, for the source's
`right.(*object.Error).Message` casts (they only run after `isError`). -/
def errMsgOf : Option Obj → Option String
  | some (.error m) => some m
  | _ => none

/-- object.ErrorPair: `(&Error{err}, err)`. -/
def errorPair (msg : String) : GoRes := .ret (some (.error msg)) (some msg)

/-- TreeWalker.evalBangOperator.  The switch compares the operand
against the TRUE/FALSE/NULL singletons; the default case formats
`right.Type()`, which panics on a nil interface. -/
def evalBangOperator (right : Option Obj) : GoRes :=
  match right with
  | some (.boolean true) => .ret (some FALSEOBJ) none
  | some (.boolean false) => .ret (some TRUEOBJ) none
  | some .null => .ret (some TRUEOBJ) none
  | some o => errorPair ("cannot apply ! operator to " ++ o.typeString)
  | none => .panicked

/-- TreeWalker.evalNegOperator -/
def evalNegOperator (right : Option Obj) : GoRes :=
  match right with
  | none => .panicked
  | some (.integer v) => .ret (some (.integer (wrap64 (-v)))) none
  | some o => errorPair ("cannot apply - operator to " ++ o.typeString)

/-- TreeWalker.evalPrefix -/
def evalPrefixOp (op : String) (right : Option Obj) : GoRes :=
  if op = "!" then evalBangOperator right
  else if op = "-" then evalNegOperator right
  else
    match right with
    | none => .panicked
    | some o => errorPair ("unknown operator: " ++ op ++ o.typeString)

/-- TreeWalker.evalIntegerInfix.  Division and modulo truncate toward
zero and panic on a zero divisor; shifts panic on a negative count and
the left shift wraps; `|`, `&`, `^` are two's-complement bitwise. -/
def evalIntegerInfixOp (op : String) (left right : Obj) : GoRes :=
  match left, right with
  | .integer leftVal, .integer rightVal =>
    if op = "+" then .ret (some (.integer (wrap64 (leftVal + rightVal)))) none
    else if op = "-" then .ret (some (.integer (wrap64 (leftVal - rightVal)))) none
    else if op = "*" then .ret (some (.integer (wrap64 (leftVal * rightVal)))) none
    else if op = "/" then
      if rightVal = 0 then .panicked
      else .ret (some (.integer (wrap64 (Int.tdiv leftVal rightVal)))) none
    else if op = "%" then
      if rightVal = 0 then .panicked
      else .ret (some (.integer (wrap64 (Int.tmod leftVal rightVal)))) none
    else if op = "|" then .ret (some (.integer (Int.lor leftVal rightVal))) none
    else if op = "&" then .ret (some (.integer (Int.land leftVal rightVal))) none
    else if op = "^" then .ret (some (.integer (Int.xor leftVal rightVal))) none
    else if op = "<<" then
      if rightVal < 0 then .panicked
      else .ret (some (.integer (wrap64 (leftVal * 2 ^ rightVal.toNat)))) none
    else if op = ">>" then
      if rightVal < 0 then .panicked
      else .ret (some (.integer (Int.fdiv leftVal (2 ^ rightVal.toNat)))) none
    else if op = "<" then .ret (some (nativeToBooleanObject (leftVal < rightVal))) none
    else if op = ">" then .ret (some (nativeToBooleanObject (leftVal > rightVal))) none
    else if op = "==" then .ret (some (nativeToBooleanObject (leftVal = rightVal))) none
    else if op = "!=" then .ret (some (nativeToBooleanObject (leftVal ≠ rightVal))) none
    else errorPair ("operator " ++ op ++ " cannot operate with a " ++
      left.typeString ++ " and " ++ right.typeString)
  | _, _ => .panicked

/-- TreeWalker.evalStringInfix -/
def evalStringInfixOp (op : String) (left right : Obj) : GoRes :=
  match left, right with
  | .str leftVal, .str rightVal =>
    if op = "+" ∨ op = "<<" then .ret (some (.str (leftVal ++ rightVal))) none
    else errorPair ("operator " ++ op ++ " cannot operate with a " ++
      left.typeString ++ " and " ++ right.typeString)
  | _, _ => .panicked

/-- TreeWalker.evalArrayInfix.  For `<<` the source calls
`builtins["push"].Fn`, but the evaluator's builtins map
(src/unnamed/part_000) has no "push" entry, so the lookup yields a nil
`*Builtin` and the field access panics. -/
def evalArrayInfixOp (op : String) (left right : Obj) : GoRes :=
  if op = "<<" then .panicked
  else errorPair ("operator " ++ op ++ " cannot operate with a " ++
    left.typeString ++ " and " ++ right.typeString)

/-- Go interface equality `left == right` as used by `==`/`!=` on
operand pairs that are not both integers.  The runtime's booleans and
null are shared singletons, so pointer equality on them is value
equality; every other object reaching this comparison in the programs
this development evaluates is freshly allocated, so distinct operands
compare unequal.  (Aliasing one allocation through two references,
e.g. `let s = "a"; s == s`, is outside the modelled programs.) -/
def goPtrEq : Option Obj → Option Obj → Bool
  | some (.boolean a), some (.boolean b) => a == b
  | some .null, some .null => true
  | none, none => true
  | _, _ => false

/-- The cases of TreeWalker.evalInfix after the both-integers case: the
`==`/`!=` identity comparisons, the type-mismatch guard (which forces
`right.Type()`), strings, arrays, and the default error. -/
def evalInfixRest (op : String) (lo : Obj) (right : Option Obj) : GoRes :=
  if op = "==" then .ret (some (nativeToBooleanObject (goPtrEq (some lo) right))) none
  else if op = "!=" then .ret (some (nativeToBooleanObject (!goPtrEq (some lo) right))) none
  else
    match right with
    | none => .panicked
    | some ro =>
      if lo.typeString ≠ ro.typeString then
        errorPair ("type mismatch: " ++ lo.typeString ++ " " ++ op ++ " " ++ ro.typeString)
      else if lo.typeString = STRING_OBJ then evalStringInfixOp op lo ro
      else if lo.typeString = ARRAY_OBJ then evalArrayInfixOp op lo ro
      else errorPair ("operator " ++ op ++ " cannot operate with a " ++
        lo.typeString ++ " and " ++ ro.typeString)

/-- TreeWalker.evalInfix.  `left.Type()` is forced first (panics on
nil); `right.Type()` is forced by the first case only when the left
operand is an integer, by Go's `&&` short-circuit. -/
def evalInfixOp (op : String) (left right : Option Obj) : GoRes :=
  match left with
  | none => .panicked
  | some lo =>
    if lo.typeString = INTEGER_OBJ then
      match right with
      | none => .panicked
      | some ro =>
        if ro.typeString = INTEGER_OBJ then evalIntegerInfixOp op lo ro
        else evalInfixRest op lo (some ro)
    else evalInfixRest op lo right

/-- TreeWalker.isTruthy: the type switch's default (which a nil
interface also reaches) is true. -/
def isTruthy (obj : Option Obj) : Bool :=
  match obj with
  | some .null => false
  | some (.boolean b) => b
  | _ => true

/-- TreeWalker.unwrapReturnValue -/
def unwrapReturnValue (obj : Option Obj) : Option Obj :=
  match obj with
  | some (.returnValue v) => v
  | o => o

/-- The evaluator package's builtins map (src/unnamed/part_000): its
only entry is "len". -/
def evaluatorBuiltinsLookup (name : String) : Option Obj :=
  if name = "len" then some (.builtin "len") else none

/-- TreeWalker.evalIdentifier -/
def evalIdentifier (name : String) (env : Nat) (h : Heap) : GoRes :=
  match envGet h env name with
  | some val => .ret val none
  | none =>
    match evaluatorBuiltinsLookup name with
    | some b => .ret (some b) none
    | none => errorPair ("identifier not found: " ++ name)

/-- TreeWalker.evalArrayIndexExpression -/
def evalArrayIndexExpression (array index : Obj) : GoRes :=
  match array, index with
  | .array elements, .integer idx =>
    let mx : Int := (elements.length : Int) - 1
    if idx < 0 ∨ idx > mx then errorPair "index out of bounds"
    else .ret (elements.getD idx.toNat none) none
  | _, _ => .panicked

/-- TreeWalker.evalIndexExpression: only `Array[Integer]` is dispatched;
every other combination falls to the default error, whose message
formats `left.Type()`. -/
def evalIndexExpression (left index : Option Obj) : GoRes :=
  match left with
  | none => .panicked
  | some lo =>
    if lo.typeString = ARRAY_OBJ then
      match index with
      | none => .panicked
      | some io =>
        if io.typeString = INTEGER_OBJ then evalArrayIndexExpression lo io
        else errorPair ("Cannot index array with type " ++ lo.typeString)
    else errorPair ("Cannot index array with type " ++ lo.typeString)

/-- Result of a Go builtin's `Fn` (it returns a bare Object, possibly
nil; a panic inside the builtin is explicit). -/
inductive BRes where
  | ret (obj : Option Obj)
  | panicked
deriving Repr

/-- The `Fn` of the evaluator map's "len" builtin
(src/unnamed/part_000): strings only; the type switch's default formats
`args[0].Type()`, panicking when the argument is nil. -/
def evaluatorLenFn (args : List (Option Obj)) : BRes :=
  if args.length ≠ 1 then
    .ret (some (.error ("wrong number of arguments to \x27len\x27: " ++ toString args.length)))
  else
    match args.getD 0 none with
    | some (.str s) => .ret (some (.integer (s.length : Int)))
    | some o => .ret (some (.error ("cannot take the length of " ++ o.typeString)))
    | none => .panicked

/-- Dispatch of `fn.Fn(args...)` for a Builtin object held by the tree
walker; the evaluator map holds only "len", so no other name can occur
here (modelled as a panic). -/
def evaluatorBuiltinFn (name : String) (args : List (Option Obj)) : BRes :=
  if name = "len" then evaluatorLenFn args else .panicked

/-- TreeWalker.extendFunctionEnv: an enclosed frame over the function's
captured environment, parameters bound positionally from
`args[paramIndex]`; a call with fewer arguments than parameters indexes
past the slice's end and panics (`none`). -/
def extendFunctionEnv (params : List String) (fnEnv : Nat)
    (args : List (Option Obj)) (h : Heap) : Option (Heap × Nat) :=
  if params.length > args.length then none
  else
    let (h2, id) := newEnclosedEnvironment h fnEnv
    some ((params.zip (args.take params.length)).foldl
      (fun hAcc p => envSet hAcc id p.1 p.2) h2, id)

/-- Go map overwrite `pairs[hashed] = HashPair{key, value}` on the
insertion-ordered association list. -/
def hashSet : List (HashKey × Obj × Option Obj) → HashKey → Obj → Option Obj →
    List (HashKey × Obj × Option Obj)
  | [], hk, k, v => [(hk, k, v)]
  | (hk0, k0, v0) :: rest, hk, k, v =>
    if hk0 = hk then (hk, k, v) :: rest else (hk0, k0, v0) :: hashSet rest hk k v

/-! ## The tree-walking evaluator (src/evaluator/tree_walker.go)

`TreeWalker.Eval` is one switch over `ast.Node`; here it is split by
syntactic class into `evalExpr`/`evalStmt`, with `evalProgram`,
`evalBlock`, `evalExpressions`, `applyFunction`, `evalIfExpression` and
`evalHashLiteral` as in the source.  Every function consumes one unit of
fuel on entry and passes the remainder to each call it makes;
`EOut.fuelOut` reports exhaustion and arises for no theorem hypothesis
below. -/

inductive EOut where
  | ret (obj : Option Obj) (err : Option String)
  | panicked
  | fuelOut
deriving Repr

abbrev EvalResult := EOut × Heap

def liftGo : GoRes → EOut
  | .ret o e => .ret o e
  | .panicked => .panicked

def liftB : BRes → EOut
  | .ret o => .ret o none
  | .panicked => .panicked

inductive ELOut where
  | ret (objs : List (Option Obj)) (err : Option String)
  | panicked
  | fuelOut
deriving Repr

mutual

def evalExpr : Nat → Expr → Nat → Heap → EvalResult
  | 0, _, _, h => (.fuelOut, h)
  | f + 1, e, env, h =>
    match e with
    | .integerLiteral v => (.ret (some (.integer v)) none, h)
    | .booleanLiteral v => (.ret (some (nativeToBooleanObject v)) none, h)
    | .stringLiteral v => (.ret (some (.str v)) none, h)
    | .identifier name => (liftGo (evalIdentifier name env h), h)
    | .functionLiteral params body => (.ret (some (.function params body env)) none, h)
    | .prefixExpression op right =>
      match evalExpr f right env h with
      | (.ret r none, h2) =>
        if isError r then (.ret r (errMsgOf r), h2)
        else (liftGo (evalPrefixOp op r), h2)
      | (.ret _ (some e1), h2) => (.ret (some (.error e1)) (some e1), h2)
      | other => other
    | .infixExpression op l r =>
      match evalExpr f l env h with
      | (.ret left none, h2) =>
        if isError left then (.ret left (errMsgOf left), h2)
        else
          match evalExpr f r env h2 with
          | (.ret right none, h3) =>
            if isError right then (.ret right (errMsgOf right), h3)
            else (liftGo (evalInfixOp op left right), h3)
          | (.ret _ (some e1), h3) => (.ret (some (.error e1)) (some e1), h3)
          | other => other
      | (.ret _ (some e1), h2) => (.ret (some (.error e1)) (some e1), h2)
      | other => other
    | .ifExpression cond cons alt => evalIfExpression f cond cons alt env h
    | .callExpression fnExpr argExprs =>
      match evalExpr f fnExpr env h with
      | (.ret fn none, h2) =>
        match evalExpressions f argExprs env h2 with
        | (.ret args none, h3) =>
          if args.length = 1 ∧ isError (args.getD 0 none) then
            (.ret (args.getD 0 none) none, h3)
          else applyFunction f fn args h3
        | (.ret _ (some e1), h3) => (.ret (some (.error e1)) (some e1), h3)
        | (.panicked, h3) => (.panicked, h3)
        | (.fuelOut, h3) => (.fuelOut, h3)
      | (.ret fn (some e1), h2) => (.ret fn (some e1), h2)
      | other => other
    | .arrayLiteral exprs =>
      match evalExpressions f exprs env h with
      | (.ret elements (some e1), h2) =>
        if elements.length = 1 then (.ret (elements.getD 0 none) (some e1), h2)
        else (.ret (some (.array elements)) none, h2)
      | (.ret elements none, h2) => (.ret (some (.array elements)) none, h2)
      | (.panicked, h2) => (.panicked, h2)
      | (.fuelOut, h2) => (.fuelOut, h2)
    | .indexExpression l i =>
      match evalExpr f l env h with
      | (.ret left none, h2) =>
        match evalExpr f i env h2 with
        | (.ret index none, h3) => (liftGo (evalIndexExpression left index), h3)
        | (.ret index (some e1), h3) => (.ret index (some e1), h3)
        | other => other
      | (.ret left (some e1), h2) => (.ret left (some e1), h2)
      | other => other
    | .hashLiteral pairs => evalHashGo f pairs env h []
termination_by structural fuel _ _ _ => fuel

def evalStmt : Nat → Stmt → Nat → Heap → EvalResult
  | 0, _, _, h => (.fuelOut, h)
  | f + 1, s, env, h =>
    match s with
    | .expressionStatement e => evalExpr f e env h
    | .returnStatement e =>
      match evalExpr f e env h with
      | (.ret val none, h2) => (.ret (some (.returnValue val)) none, h2)
      | (.ret _ (some e1), h2) => (.ret (some (.error e1)) (some e1), h2)
      | other => other
    | .letStatement name e =>
      match evalExpr f e env h with
      | (.ret val none, h2) => (.ret val none, envSet h2 env name val)
      | (.ret _ (some e1), h2) => (.ret (some (.error e1)) (some e1), h2)
      | other => other
termination_by structural fuel _ _ _ => fuel

def evalProgram : Nat → List Stmt → Nat → Heap → EvalResult
  | 0, _, _, h => (.fuelOut, h)
  | f + 1, stmts, env, h =>
    match stmts with
    | [] => (.ret none none, h)
    | s :: rest =>
      match evalStmt f s env h with
      | (.ret result none, h2) =>
        match result with
        | some (.returnValue v) => (.ret v none, h2)
        | some (.error m) => (.ret (some (.error m)) (some m), h2)
        | _ =>
          match rest with
          | [] => (.ret result none, h2)
          | _ => evalProgram f rest env h2
      | (.ret _ (some e1), h2) => (.ret (some (.error e1)) (some e1), h2)
      | other => other
termination_by structural fuel _ _ _ => fuel

def evalBlock : Nat → List Stmt → Nat → Heap → EvalResult
  | 0, _, _, h => (.fuelOut, h)
  | f + 1, stmts, env, h =>
    match stmts with
    | [] => (.ret none none, h)
    | s :: rest =>
      match evalStmt f s env h with
      | (.ret result none, h2) =>
        match result with
        | none => (.panicked, h2)
        | some o =>
          if o.typeString = RETURN_VALUE_OBJ ∨ o.typeString = ERROR_OBJ then
            (.ret (some o) none, h2)
          else
            match rest with
            | [] => (.ret (some o) none, h2)
            | _ => evalBlock f rest env h2
      | (.ret _ (some e1), h2) => (.ret (some (.error e1)) (some e1), h2)
      | other => other
termination_by structural fuel _ _ _ => fuel

def evalExpressions : Nat → List Expr → Nat → Heap → ELOut × Heap
  | 0, _, _, h => (.fuelOut, h)
  | f + 1, exprs, env, h =>
    match exprs with
    | [] => (.ret [] none, h)
    | e :: rest =>
      match evalExpr f e env h with
      | (.ret evaluated none, h2) =>
        match evalExpressions f rest env h2 with
        | (.ret objs none, h3) => (.ret (evaluated :: objs) none, h3)
        | (.ret objs (some e1), h3) => (.ret objs (some e1), h3)
        | (.panicked, h3) => (.panicked, h3)
        | (.fuelOut, h3) => (.fuelOut, h3)
      | (.ret evaluated (some e1), h2) => (.ret [evaluated] (some e1), h2)
      | (.panicked, h2) => (.panicked, h2)
      | (.fuelOut, h2) => (.fuelOut, h2)
termination_by structural fuel _ _ _ => fuel

def applyFunction : Nat → Option Obj → List (Option Obj) → Heap → EvalResult
  | 0, _, _, h => (.fuelOut, h)
  | f + 1, fn, args, h =>
    match fn with
    | some (.function params body fnEnv) =>
      match extendFunctionEnv params fnEnv args h with
      | none => (.panicked, h)
      | some (h2, extendedEnv) =>
        match evalBlock f body extendedEnv h2 with
        | (.ret evaluated none, h3) => (.ret (unwrapReturnValue evaluated) none, h3)
        | (.ret _ (some e1), h3) => (.ret (some (.error e1)) (some e1), h3)
        | other => other
    | some (.builtin name) => (liftB (evaluatorBuiltinFn name args), h)
    | some o =>
      let m := "not a function: " ++ o.typeString
      (.ret (some (.error m)) (some m), h)
    | none => (.panicked, h)
termination_by structural fuel _ _ _ => fuel

def evalIfExpression : Nat → Expr → List Stmt → Option (List Stmt) → Nat → Heap → EvalResult
  | 0, _, _, _, _, h => (.fuelOut, h)
  | f + 1, cond, cons, alt, env, h =>
    match evalExpr f cond env h with
    | (.ret condition none, h2) =>
      if isError condition then (.ret condition (errMsgOf condition), h2)
      else if isTruthy condition then evalBlock f cons env h2
      else
        match alt with
        | some altB => evalBlock f altB env h2
        | none => (.ret (some NULLOBJ) none, h2)
    | (.ret _ (some e1), h2) => (.ret (some (.error e1)) (some e1), h2)
    | other => other
termination_by structural fuel _ _ _ _ _ => fuel

def evalHashGo : Nat → List (Expr × Expr) → Nat → Heap →
    List (HashKey × Obj × Option Obj) → EvalResult
  | 0, _, _, h, _ => (.fuelOut, h)
  | f + 1, pairList, env, h, acc =>
    match pairList with
    | [] => (.ret (some (.hash acc)) none, h)
    | (kExpr, vExpr) :: rest =>
      match evalExpr f kExpr env h with
      | (.ret key none, h2) =>
        match key with
        | some ko =>
          match ko.hashKeyOf with
          | none => (liftGo (errorPair ("unusable as hash key: " ++ ko.typeString)), h2)
          | some hk =>
            match evalExpr f vExpr env h2 with
            | (.ret value none, h3) => evalHashGo f rest env h3 (hashSet acc hk ko value)
            | (.ret value (some e1), h3) => (.ret value (some e1), h3)
            | other => other
        | none => (.panicked, h2)
      | (.ret key (some e1), h2) => (.ret key (some e1), h2)
      | other => other
termination_by structural fuel _ _ _ _ => fuel

end

/-! ## object.Builtins (src/object/builtins.go)

The object package's builtin table (distinct from the evaluator
package's map above).  Each entry's `Fn`; a `BRes.ret none` is the Go
`return nil` of the empty-array cases, and formatting `args[0].Type()`
on a nil argument panics.  `puts` prints via Println, a side effect a
pure value cannot carry; its value behavior (NULL) is kept and printing
is dropped. -/

/-- Builtins "len" entry's Fn. -/
def builtinsLenFn (args : List (Option Obj)) : BRes :=
  if args.length ≠ 1 then
    .ret (some (.error ("wrong number of arguments. got=" ++ toString args.length ++ ", want=1")))
  else
    match args.getD 0 none with
    | some (.str s) => .ret (some (.integer (s.length : Int)))
    | some (.array elements) => .ret (some (.integer (elements.length : Int)))
    | some o => .ret (some (.error ("argument to `len` not supported, got " ++ o.typeString)))
    | none => .panicked

/-- Builtins "puts" entry's Fn. -/
def builtinsPutsFn (args : List (Option Obj)) : BRes :=
  if args.any (fun a => a.isNone) then .panicked else .ret (some NULLOBJ)

/-- Builtins "first" entry's Fn. -/
def builtinsFirstFn (args : List (Option Obj)) : BRes :=
  if args.length ≠ 1 then
    .ret (some (.error ("wrong number of arguments. got=" ++ toString args.length ++ ", want=1")))
  else
    match args.getD 0 none with
    | none => .panicked
    | some o =>
      if o.typeString ≠ ARRAY_OBJ then
        .ret (some (.error ("argument to `first` must be ARRAY, got " ++ o.typeString)))
      else
        match o with
        | .array elements =>
          if elements.length > 0 then .ret (elements.getD 0 none) else .ret none
        | _ => .panicked

/-- Builtins "last" entry's Fn. -/
def builtinsLastFn (args : List (Option Obj)) : BRes :=
  if args.length ≠ 1 then
    .ret (some (.error ("wrong number of arguments. got=" ++ toString args.length ++ ", want=1")))
  else
    match args.getD 0 none with
    | none => .panicked
    | some o =>
      if o.typeString ≠ ARRAY_OBJ then
        .ret (some (.error ("argument to `last` must be ARRAY, got " ++ o.typeString)))
      else
        match o with
        | .array elements =>
          if elements.length > 0 then .ret (elements.getD (elements.length - 1) none)
          else .ret none
        | _ => .panicked

/-- Builtins "rest" entry's Fn: a fresh array of the elements from
index 1 on, or Go nil when the array is empty. -/
def builtinsRestFn (args : List (Option Obj)) : BRes :=
  if args.length ≠ 1 then
    .ret (some (.error ("wrong number of arguments. got=" ++ toString args.length ++ ", want=1")))
  else
    match args.getD 0 none with
    | none => .panicked
    | some o =>
      if o.typeString ≠ ARRAY_OBJ then
        .ret (some (.error ("argument to `rest` must be ARRAY, got " ++ o.typeString)))
      else
        match o with
        | .array elements =>
          if elements.length > 0 then .ret (some (.array (elements.drop 1)))
          else .ret none
        | _ => .panicked

/-- Builtins "push" entry's Fn: copies the elements into a fresh
backing array of length+1 and sets the appended value — the argument
array object keeps its own element list. -/
def builtinsPushFn (args : List (Option Obj)) : BRes :=
  if args.length ≠ 2 then
    .ret (some (.error ("wrong number of arguments. got=" ++ toString args.length ++ ", want=2")))
  else
    match args.getD 0 none with
    | none => .panicked
    | some o =>
      if o.typeString ≠ ARRAY_OBJ then
        .ret (some (.error ("argument to `push` must be ARRAY, got " ++ o.typeString)))
      else
        match o with
        | .array elements => .ret (some (.array (elements ++ [args.getD 1 none])))
        | _ => .panicked

/-! ## SymbolTable (src/compiler/symbol_table.go, second revision)

`Resolve` mutates both the current table (`defineFree`) and, through
the `Outer` pointer, enclosing tables, so each operation returns the
updated table alongside its result. -/

def GLOBALSCOPE : String := "GLOBAL"
def LOCALSCOPE : String := "LOCAL"
def BUILTINSCOPE : String := "BUILTIN"
def FREESCOPE : String := "FREE"
def FUNCTIONSCOPE : String := "FUNCTION"

structure Symbol where
  name : String
  scope : String
  index : Nat
deriving DecidableEq, Repr

inductive SymbolTable where
  | mk (store : List (String × Symbol)) (numDefinitions : Nat)
      (freeSymbols : List Symbol) (outer : Option SymbolTable)
deriving Repr

def SymbolTable.store : SymbolTable → List (String × Symbol)
  | .mk s _ _ _ => s

def SymbolTable.numDefinitions : SymbolTable → Nat
  | .mk _ n _ _ => n

def SymbolTable.freeSymbols : SymbolTable → List Symbol
  | .mk _ _ f _ => f

def SymbolTable.outer : SymbolTable → Option SymbolTable
  | .mk _ _ _ o => o

def lookupSym : List (String × Symbol) → String → Option Symbol
  | [], _ => none
  | (k, v) :: rest, name => if k = name then some v else lookupSym rest name

/-- compiler.NewSymbolTable -/
def SymbolTable.new : SymbolTable := .mk [] 0 [] none

/-- compiler.NewEnclosedSymbolTable -/
def SymbolTable.newEnclosed (outer : SymbolTable) : SymbolTable :=
  .mk [] 0 [] (some outer)

/-- SymbolTable.Define -/
def SymbolTable.define (s : SymbolTable) (name : String) : Symbol × SymbolTable :=
  match s with
  | .mk store numDefs free outer =>
    let scope := match outer with
      | none => GLOBALSCOPE
      | some _ => LOCALSCOPE
    let symbol : Symbol := ⟨name, scope, numDefs⟩
    (symbol, .mk ((name, symbol) :: store) (numDefs + 1) free outer)

/-- SymbolTable.DefineBuiltin -/
def SymbolTable.defineBuiltin (s : SymbolTable) (index : Nat) (name : String) :
    Symbol × SymbolTable :=
  match s with
  | .mk store numDefs free outer =>
    let symbol : Symbol := ⟨name, BUILTINSCOPE, index⟩
    (symbol, .mk ((name, symbol) :: store) numDefs free outer)

/-- SymbolTable.DefineFunctionName -/
def SymbolTable.defineFunctionName (s : SymbolTable) (name : String) :
    Symbol × SymbolTable :=
  match s with
  | .mk store numDefs free outer =>
    let symbol : Symbol := ⟨name, FUNCTIONSCOPE, 0⟩
    (symbol, .mk ((name, symbol) :: store) numDefs free outer)

/-- SymbolTable.defineFree: append the original to FreeSymbols; the new
symbol's index is `len(FreeSymbols) - 1` after the append, and it is
stored in the current scope with scope FREE. -/
def SymbolTable.defineFree (s : SymbolTable) (original : Symbol) :
    Symbol × SymbolTable :=
  match s with
  | .mk store numDefs free outer =>
    let free2 := free ++ [original]
    let symbol : Symbol := ⟨original.name, FREESCOPE, free2.length - 1⟩
    (symbol, .mk ((original.name, symbol) :: store) numDefs free2 outer)

/-- SymbolTable.Resolve.  With no outer table the zero-value miss or
the store hit is returned as is; otherwise a store miss recurses into
the outer table (whose updates are kept: `Outer` is a pointer), passes
a GLOBAL or BUILTIN hit through, and lifts any other hit via
`defineFree`. -/
def SymbolTable.resolve : SymbolTable → String → Option Symbol × SymbolTable
  | .mk store numDefs free none, name =>
    (lookupSym store name, .mk store numDefs free none)
  | .mk store numDefs free (some o), name =>
    match lookupSym store name with
    | some obj => (some obj, .mk store numDefs free (some o))
    | none =>
      match o.resolve name with
      | (none, o2) => (none, .mk store numDefs free (some o2))
      | (some obj, o2) =>
        if obj.scope = GLOBALSCOPE ∨ obj.scope = BUILTINSCOPE then
          (some obj, .mk store numDefs free (some o2))
        else
          let fr := SymbolTable.defineFree (.mk store numDefs free (some o2)) obj
          (some fr.1, fr.2)
termination_by structural s _ => s

/-! ## Bytecode and opcodes (package code, second document of
src/evaluator/evaluator.go)

Instructions are flat byte sequences (bytes as `Nat < 256`); operands
are big-endian. -/

def OpConstant : Nat := 0
def OpPop : Nat := 1
def OpJumpNotTruthy : Nat := 2
def OpJump : Nat := 3
def OpCall : Nat := 4
def OpReturn : Nat := 5
def OpReturnValue : Nat := 6
def OpTrue : Nat := 7
def OpFalse : Nat := 8
def OpNull : Nat := 9
def OpArray : Nat := 10
def OpHash : Nat := 11
def OpEqual : Nat := 12
def OpNotEqual : Nat := 13
def OpGreaterThan : Nat := 14
def OpMinus : Nat := 15
def OpBang : Nat := 16
def OpAdd : Nat := 17
def OpSub : Nat := 18
def OpMul : Nat := 19
def OpDiv : Nat := 20
def OpMod : Nat := 21
def OpGetGlobal : Nat := 22
def OpSetGlobal : Nat := 23
def OpGetLocal : Nat := 24
def OpSetLocal : Nat := 25
def OpGetBuiltin : Nat := 26
def OpIndex : Nat := 27

/-- The operand widths of code.definitions. -/
def operandWidths (op : Nat) : Option (List Nat) :=
  if op = OpConstant then some [2]
  else if op = OpPop then some []
  else if op = OpJumpNotTruthy then some [2]
  else if op = OpJump then some [2]
  else if op = OpCall then some [1]
  else if op = OpReturn then some []
  else if op = OpReturnValue then some []
  else if op = OpTrue then some []
  else if op = OpFalse then some []
  else if op = OpNull then some []
  else if op = OpArray then some [2]
  else if op = OpHash then some [2]
  else if op = OpEqual then some []
  else if op = OpNotEqual then some []
  else if op = OpGreaterThan then some []
  else if op = OpMinus then some []
  else if op = OpBang then some []
  else if op = OpAdd then some []
  else if op = OpSub then some []
  else if op = OpMul then some []
  else if op = OpDiv then some []
  else if op = OpMod then some []
  else if op = OpGetGlobal then some [2]
  else if op = OpSetGlobal then some [2]
  else if op = OpGetLocal then some [1]
  else if op = OpSetLocal then some [1]
  else if op = OpGetBuiltin then some [1]
  else if op = OpIndex then some []
  else none

/-- code.Make: opcode byte followed by the operands, each written
big-endian at its table width; operands beyond the table would panic
(never constructed here) and missing operands leave zero bytes. -/
def makeIns (op : Nat) (operands : List Nat) : List Nat :=
  match operandWidths op with
  | none => []
  | some widths =>
    let body := (widths.zip operands).foldl
      (fun acc wo =>
        acc ++ (if wo.1 = 2 then [wo.2 / 256 % 256, wo.2 % 256] else [wo.2 % 256])) []
    let total := widths.foldl (· + ·) 0
    op % 256 :: (body ++ List.replicate (total - body.length) 0)

/-- code.ReadUint16 (binary.BigEndian.Uint16 panics on fewer than two
bytes). -/
def readUint16 : List Nat → Option Nat
  | b1 :: b2 :: _ => some (b1 * 256 + b2)
  | _ => none

/-- compiler.Bytecode.  Modelled from the spec: the compiler package's
`Bytecode` carrier (instructions plus constants pool) is described in
§4.6/§4.8 and used by `vm.New`; the compiler sources are absent. -/
structure Bytecode where
  instructions : List Nat
  constants : List Obj
deriving Repr

/-! ## Virtual machine (package vm, first document of src/unnamed/part_006)

The data stack is the fixed 2048-slot array (a map from slot index to
its content, all slots initially the nil interface) with a stack
pointer; `pop` does not clear the slot, so `LastPoppedStackElem`
(`stack[sp]`) reads the value left behind.  The run loop fetches the
byte at `ip`; `OpConstant` advances `ip` by its two operand bytes, and
an opcode without a case in the switch (everything beyond constants,
integer arithmetic, pop, the boolean singletons and comparisons) falls
through and only `ip++` happens. -/

def STACKSIZE : Nat := 2048

/-- The vm package's own True/False singletons. -/
def vmTrue : Obj := .boolean true
def vmFalse : Obj := .boolean false

/-- vm.nativeBoolToBooleanObject -/
def nativeBoolToBooleanObjectVM (input : Bool) : Obj :=
  if input then vmTrue else vmFalse

structure VMState where
  stack : Nat → Option Obj
  sp : Nat

def initialVMState : VMState := ⟨fun _ => none, 0⟩

/-- VM.push: `Sum.inr` is the "stack overflow" error return. -/
def vmPush (st : VMState) (o : Option Obj) : VMState ⊕ String :=
  if st.sp ≥ STACKSIZE then .inr "stack overflow"
  else .inl ⟨fun i => if i = st.sp then o else st.stack i, st.sp + 1⟩

/-- VM.pop: reading `stack[sp-1]` with `sp = 0` indexes out of range
and panics (`none`). -/
def vmPop (st : VMState) : Option (Option Obj × VMState) :=
  match st.sp with
  | 0 => none
  | sp1 + 1 => some (st.stack sp1, ⟨st.stack, sp1⟩)

/-- VM.LastPoppedStackElem -/
def lastPopped (st : VMState) : Option Obj := st.stack st.sp

/-- Outcome of a VM step or run: a next state, an aborting error
(`vm.Run` returns it), a Go panic, or fuel exhaustion of the model. -/
inductive VMOut where
  | ok (st : VMState)
  | errored (msg : String)
  | panicked
  | fuelOut

/-- VM.executeBinaryIntegerOp -/
def executeBinaryIntegerOp (op : Nat) (l r : Obj) : (Option Obj) ⊕ String :=
  match l, r with
  | .integer lv, .integer rv =>
    if op = OpAdd then .inl (some (.integer (wrap64 (lv + rv))))
    else if op = OpSub then .inl (some (.integer (wrap64 (lv - rv))))
    else if op = OpMul then .inl (some (.integer (wrap64 (lv * rv))))
    else if op = OpDiv then
      if rv = 0 then .inl none else .inl (some (.integer (wrap64 (Int.tdiv lv rv))))
    else if op = OpMod then
      if rv = 0 then .inl none else .inl (some (.integer (wrap64 (Int.tmod lv rv))))
    else .inr ("unknown integer operator: " ++ toString op)
  | _, _ => .inl none

/-- VM.executeBinOp; in `executeBinaryIntegerOp` the `.inl none` of the
division cases is the divide-by-zero panic and of the type assertions a
failed cast panic.  Pops right then left. -/
def executeBinOp (op : Nat) (st : VMState) : VMOut :=
  match vmPop st with
  | none => .panicked
  | some (r, st1) =>
    match vmPop st1 with
    | none => .panicked
    | some (l, st2) =>
      match l, r with
      | some lo, some ro =>
        if lo.typeString = INTEGER_OBJ ∧ ro.typeString = INTEGER_OBJ then
          match executeBinaryIntegerOp op lo ro with
          | .inl (some v) =>
            match vmPush st2 (some v) with
            | .inl st3 => .ok st3
            | .inr msg => .errored msg
          | .inl none => .panicked
          | .inr msg => .errored msg
        else
          .errored ("unsupported types for binary operation: " ++
            lo.typeString ++ " " ++ ro.typeString)
      | _, _ => .panicked

/-- VM.executeIntegerComparison -/
def executeIntegerComparison (op : Nat) (lv rv : Int) : Obj ⊕ String :=
  if op = OpEqual then .inl (nativeBoolToBooleanObjectVM (lv = rv))
  else if op = OpNotEqual then .inl (nativeBoolToBooleanObjectVM (lv ≠ rv))
  else if op = OpGreaterThan then .inl (nativeBoolToBooleanObjectVM (lv > rv))
  else .inr ("unknown integer operator: " ++ toString op)

/-- VM.executeComparison; the non-integer cases compare interface
identity (`r == l`). -/
def executeComparison (op : Nat) (st : VMState) : VMOut :=
  match vmPop st with
  | none => .panicked
  | some (r, st1) =>
    match vmPop st1 with
    | none => .panicked
    | some (l, st2) =>
      match l, r with
      | some lo, some ro =>
        if lo.typeString = INTEGER_OBJ ∧ ro.typeString = INTEGER_OBJ then
          match lo, ro with
          | .integer lv, .integer rv =>
            match executeIntegerComparison op lv rv with
            | .inl v =>
              match vmPush st2 (some v) with
              | .inl st3 => .ok st3
              | .inr msg => .errored msg
            | .inr msg => .errored msg
          | _, _ => .panicked
        else if op = OpEqual then
          match vmPush st2 (some (nativeBoolToBooleanObjectVM (goPtrEq r l))) with
          | .inl st3 => .ok st3
          | .inr msg => .errored msg
        else if op = OpNotEqual then
          match vmPush st2 (some (nativeBoolToBooleanObjectVM (!goPtrEq r l))) with
          | .inl st3 => .ok st3
          | .inr msg => .errored msg
        else
          .errored ("unknown operator: " ++ toString op ++ " (" ++
            lo.typeString ++ " " ++ ro.typeString ++ ")")
      | _, _ => .panicked

/-- The body of VM.Run: one iteration per unit of fuel. -/
def vmLoop (instructions : List Nat) (constants : List Obj) :
    Nat → Nat → VMState → VMOut
  | 0, _, _ => .fuelOut
  | f + 1, ip, st =>
    if ip < instructions.length then
      let op := instructions.getD ip 0
      if op = OpConstant then
        match readUint16 (instructions.drop (ip + 1)) with
        | none => .panicked
        | some constIndex =>
          match constants.get? constIndex with
          | none => .panicked
          | some c =>
            match vmPush st (some c) with
            | .inl st2 => vmLoop instructions constants f (ip + 3) st2
            | .inr msg => .errored msg
      else if op = OpAdd ∨ op = OpSub ∨ op = OpMul ∨ op = OpDiv ∨ op = OpMod then
        match executeBinOp op st with
        | .ok st2 => vmLoop instructions constants f (ip + 1) st2
        | other => other
      else if op = OpPop then
        match vmPop st with
        | none => .panicked
        | some (_, st2) => vmLoop instructions constants f (ip + 1) st2
      else if op = OpTrue then
        match vmPush st (some vmTrue) with
        | .inl st2 => vmLoop instructions constants f (ip + 1) st2
        | .inr msg => .errored msg
      else if op = OpFalse then
        match vmPush st (some vmFalse) with
        | .inl st2 => vmLoop instructions constants f (ip + 1) st2
        | .inr msg => .errored msg
      else if op = OpEqual ∨ op = OpNotEqual ∨ op = OpGreaterThan then
        match executeComparison op st with
        | .ok st2 => vmLoop instructions constants f (ip + 1) st2
        | other => other
      else vmLoop instructions constants f (ip + 1) st
    else .ok st

/-- VM.New + VM.Run from a bytecode, starting at `ip = 0` on the empty
stack. -/
def vmRun (bc : Bytecode) (fuel : Nat) : VMOut :=
  vmLoop bc.instructions bc.constants fuel 0 initialVMState

/-! ## Compiler

Modelled from the spec: the compiler package's `Compile` is absent from
the sources (only `symbol_table.go` exists there).  Following §4.6 and
§4.8, expressions compile to straight-line code — literals through the
constants pool or the singleton opcodes, prefix `!`/`-` to
`OpBang`/`OpMinus` after the operand, infix operators to the matching
opcode after left-then-right operands except `<`, which swaps the
operand order and emits `OpGreaterThan` — and an expression statement
appends `OpPop`.  Constructs whose compilation the claims never reach
(jumps, lets, functions, …) are left out and reported as errors. -/

def compileExpr : Expr → List Nat → List Obj → Except String (List Nat × List Obj)
  | .integerLiteral v, ins, consts =>
    let consts2 := consts ++ [Obj.integer v]
    .ok (ins ++ makeIns OpConstant [consts2.length - 1], consts2)
  | .stringLiteral s, ins, consts =>
    let consts2 := consts ++ [Obj.str s]
    .ok (ins ++ makeIns OpConstant [consts2.length - 1], consts2)
  | .booleanLiteral true, ins, consts => .ok (ins ++ makeIns OpTrue [], consts)
  | .booleanLiteral false, ins, consts => .ok (ins ++ makeIns OpFalse [], consts)
  | .prefixExpression op right, ins, consts => do
    let (i2, c2) ← compileExpr right ins consts
    if op = "!" then .ok (i2 ++ makeIns OpBang [], c2)
    else if op = "-" then .ok (i2 ++ makeIns OpMinus [], c2)
    else .error ("unknown operator " ++ op)
  | .infixExpression op l r, ins, consts =>
    if op = "<" then do
      let (i2, c2) ← compileExpr r ins consts
      let (i3, c3) ← compileExpr l i2 c2
      .ok (i3 ++ makeIns OpGreaterThan [], c3)
    else do
      let (i2, c2) ← compileExpr l ins consts
      let (i3, c3) ← compileExpr r i2 c2
      if op = "+" then .ok (i3 ++ makeIns OpAdd [], c3)
      else if op = "-" then .ok (i3 ++ makeIns OpSub [], c3)
      else if op = "*" then .ok (i3 ++ makeIns OpMul [], c3)
      else if op = "/" then .ok (i3 ++ makeIns OpDiv [], c3)
      else if op = "%" then .ok (i3 ++ makeIns OpMod [], c3)
      else if op = ">" then .ok (i3 ++ makeIns OpGreaterThan [], c3)
      else if op = "==" then .ok (i3 ++ makeIns OpEqual [], c3)
      else if op = "!=" then .ok (i3 ++ makeIns OpNotEqual [], c3)
      else .error ("unknown operator " ++ op)
  | _, _, _ => .error "construct outside the modelled compiler subset"

def compileStmt : Stmt → List Nat → List Obj → Except String (List Nat × List Obj)
  | .expressionStatement e, ins, consts => do
    let (i2, c2) ← compileExpr e ins consts
    .ok (i2 ++ makeIns OpPop [], c2)
  | _, _, _ => .error "construct outside the modelled compiler subset"

def compileProgramGo : List Stmt → List Nat → List Obj → Except String (List Nat × List Obj)
  | [], ins, consts => .ok (ins, consts)
  | s :: rest, ins, consts => do
    let (i2, c2) ← compileStmt s ins consts
    compileProgramGo rest i2 c2

/-- Compiler.Compile + Compiler.Bytecode on a program. -/
def compile (prog : Program) : Except String Bytecode := do
  let (ins, consts) ← compileProgramGo prog [] []
  .ok ⟨ins, consts⟩

/-! ## Parser (src/parser/parser.go)

The parser owns the lexer and the `(cur, peek)` window.  The two
dispatch maps filled by `parser.New` (lines 75–99) become a match over
exactly the registered token kinds: prefix parselets for IDENT, INT,
BANG, MINUS, TRUE, FALSE, LPAREN, IF, FUNCTION, STRING and LBRACKET
(none for LBRACE — hash literals are never registered), infix parselets
for every precedence-table key, with LPAREN and LBRACKET overridden by
the call and index parselets.  Fuel as in the evaluator. -/

def LOWEST : Nat := 1
def EQUALS : Nat := 2
def LESSGREATER : Nat := 3
def SUM : Nat := 4
def PRODUCT : Nat := 5
def PREFIXLEVEL : Nat := 6
def SPECIAL : Nat := 7
def CALL : Nat := 8
def INDEX : Nat := 9

/-- parser.precedences -/
def precedencesMap (t : TokenType) : Option Nat :=
  if t = EQ then some EQUALS
  else if t = NEQ then some EQUALS
  else if t = LANG then some LESSGREATER
  else if t = RANG then some LESSGREATER
  else if t = PLUS then some SUM
  else if t = MINUS then some SUM
  else if t = SLASH then some PRODUCT
  else if t = ASTERISK then some PRODUCT
  else if t = PERCENT then some PRODUCT
  else if t = PIPE then some SPECIAL
  else if t = AMPERSAND then some SPECIAL
  else if t = CARET then some SPECIAL
  else if t = SHOVL then some SPECIAL
  else if t = SHOVR then some SPECIAL
  else if t = LPAREN then some CALL
  else if t = LBRACKET then some INDEX
  else none

/-- Go's %q on the plain names and punctuation that reach error
messages. -/
def quoteGo (s : String) : String := "\"" ++ s ++ "\""

structure Parser where
  l : Lexer
  curToken : Token
  peekToken : Token
deriving Repr

def Parser.nextToken (p : Parser) : Parser :=
  let (tok, l2) := p.l.nextToken
  ⟨l2, p.peekToken, tok⟩

/-- parser.New (the dispatch registration is the match in
`parseExpression`/`parseExpressionLoop` below). -/
def Parser.new (l : Lexer) : Parser :=
  (Parser.nextToken (Parser.nextToken ⟨l, ⟨"", ""⟩, ⟨"", ""⟩⟩))

def Parser.peekTokenIs (p : Parser) (t : TokenType) : Bool := p.peekToken.ttype = t

def Parser.curTokenIs (p : Parser) (t : TokenType) : Bool := p.curToken.ttype = t

def Parser.peekPrecedence (p : Parser) : Nat :=
  (precedencesMap p.peekToken.ttype).getD LOWEST

def Parser.curPrecedence (p : Parser) : Nat :=
  (precedencesMap p.curToken.ttype).getD LOWEST

/-- Parser.expect: `(ok, err)` plus the possibly advanced parser. -/
def Parser.expect (p : Parser) (t : TokenType) : (Bool × Option String) × Parser :=
  if p.peekTokenIs t then ((true, none), p.nextToken)
  else ((false, some ("Expected token type " ++ quoteGo t ++ ", got " ++
    quoteGo p.peekToken.ttype ++ " instead")), p)

/-- strconv.ParseInt(lit, 0, 64) on the lexer's digit runs: base 10, or
base 8 after a leading zero (failing on the digits 8 and 9), failing
outside the int64 range. -/
def goParseIntLit (lit : String) : Option Int :=
  let digitsVal : List Char → Nat → Option Nat := fun ds base =>
    ds.foldlM (fun acc c =>
      let d := c.toNat - '0'.toNat
      if d < base then some (acc * base + d) else none) 0
  let ranged : Option Nat → Option Int := fun n =>
    match n with
    | some v => if v ≤ 2 ^ 63 - 1 then some (v : Int) else none
    | none => none
  match lit.toList with
  | [] => none
  | ['0'] => some 0
  | '0' :: rest => ranged (digitsVal rest 8)
  | ds => ranged (digitsVal ds 10)

inductive PRes (α : Type) where
  | ok (a : α) (p : Parser)
  | err (msg : String)
  | fuelOut

mutual

/-- Parser.parseExpression: prefix dispatch, then the climbing loop. -/
def parseExpression : Nat → Nat → Parser → PRes Expr
  | 0, _, _ => .fuelOut
  | f + 1, precedence, p =>
    let t := p.curToken.ttype
    let afterPrefix : PRes Expr :=
      if t = IDENT then .ok (.identifier p.curToken.literal) p
      else if t = INT then
        match goParseIntLit p.curToken.literal with
        | some v => .ok (.integerLiteral v) p
        | none => .err ("Expected integer literal, got unparseable " ++
            quoteGo p.curToken.literal ++ " instead")
      else if t = BANG ∨ t = MINUS then parsePrefixExpression f p
      else if t = TRUETOK ∨ t = FALSETOK then .ok (.booleanLiteral (p.curTokenIs TRUETOK)) p
      else if t = LPAREN then parseGrouped f p
      else if t = IF then parseIfExpression f p
      else if t = FUNCTION then parseFunctionLiteral f p
      else if t = STRING then .ok (.stringLiteral p.curToken.literal) p
      else if t = LBRACKET then parseArrayLiteral f p
      else .err ("No prefix expression found for " ++ quoteGo t ++ " (" ++
        quoteGo p.curToken.literal ++ ").")
    match afterPrefix with
    | .ok lhs p2 => parseExpressionLoop f precedence lhs p2
    | other => other

/-- The `for` loop of Parser.parseExpression, with the infix dispatch
map inlined. -/
def parseExpressionLoop : Nat → Nat → Expr → Parser → PRes Expr
  | 0, _, _, _ => .fuelOut
  | f + 1, precedence, lhs, p =>
    if ¬ p.peekTokenIs SEMICOLON ∧ precedence < p.peekPrecedence then
      let t := p.peekToken.ttype
      match precedencesMap t with
      | none => .ok lhs p
      | some _ =>
        let p2 := p.nextToken
        let step : PRes Expr :=
          if t = LPAREN then parseCallExpression f lhs p2
          else if t = LBRACKET then parseIndexExpr f lhs p2
          else parseInfixExpression f lhs p2
        match step with
        | .ok lhs2 p3 => parseExpressionLoop f precedence lhs2 p3
        | other => other
    else .ok lhs p

/-- Parser.parsePrefixExpression -/
def parsePrefixExpression : Nat → Parser → PRes Expr
  | 0, _ => .fuelOut
  | f + 1, p =>
    let operator := p.curToken.literal
    let p2 := p.nextToken
    match parseExpression f PREFIXLEVEL p2 with
    | .ok rhs p3 => .ok (.prefixExpression operator rhs) p3
    | other => other

/-- Parser.parseInfixExpression -/
def parseInfixExpression : Nat → Expr → Parser → PRes Expr
  | 0, _, _ => .fuelOut
  | f + 1, left, p =>
    let operator := p.curToken.literal
    let precedence := p.curPrecedence
    let p2 := p.nextToken
    match parseExpression f precedence p2 with
    | .ok rhs p3 => .ok (.infixExpression operator left rhs) p3
    | other => other

/-- Parser.parseGrouped -/
def parseGrouped : Nat → Parser → PRes Expr
  | 0, _ => .fuelOut
  | f + 1, p =>
    let p2 := p.nextToken
    match parseExpression f LOWEST p2 with
    | .ok exp p3 =>
      match p3.expect RPAREN with
      | ((true, _), p4) => .ok exp p4
      | ((false, _), _) => .err "Expected closing parenthesis."
    | other => other

/-- Parser.parseIfExpression -/
def parseIfExpression : Nat → Parser → PRes Expr
  | 0, _ => .fuelOut
  | f + 1, p =>
    match p.expect LPAREN with
    | ((false, e), _) => .err (e.getD "")
    | ((true, _), p2) =>
      let p3 := p2.nextToken
      match parseExpression f LOWEST p3 with
      | .ok cond p4 =>
        match p4.expect RPAREN with
        | ((false, e), _) => .err (e.getD "")
        | ((true, _), p5) =>
          match p5.expect LBRACE with
          | ((false, e), _) => .err (e.getD "")
          | ((true, _), p6) =>
            match parseBlockStatement f p6 with
            | .ok cons p7 =>
              if p7.peekTokenIs ELSE then
                let p8 := p7.nextToken
                match p8.expect LBRACE with
                | ((false, e), _) => .err (e.getD "")
                | ((true, _), p9) =>
                  match parseBlockStatement f p9 with
                  | .ok alt p10 => .ok (.ifExpression cond cons (some alt)) p10
                  | .err m => .err m
                  | .fuelOut => .fuelOut
              else .ok (.ifExpression cond cons none) p7
            | .err m => .err m
            | .fuelOut => .fuelOut
      | other => other

/-- Parser.parseBlockStatement -/
def parseBlockStatement : Nat → Parser → PRes (List Stmt)
  | 0, _ => .fuelOut
  | f + 1, p => parseBlockGo f [] p.nextToken

/-- The statement loop of parseBlockStatement. -/
def parseBlockGo : Nat → List Stmt → Parser → PRes (List Stmt)
  | 0, _, _ => .fuelOut
  | f + 1, acc, p =>
    if ¬ p.curTokenIs RBRACE ∧ ¬ p.curTokenIs EOF then
      match parseStatement f p with
      | .ok stmt p2 => parseBlockGo f (acc ++ [stmt]) p2.nextToken
      | .err m => .err m
      | .fuelOut => .fuelOut
    else .ok acc p

/-- Parser.parseFunctionLiteral -/
def parseFunctionLiteral : Nat → Parser → PRes Expr
  | 0, _ => .fuelOut
  | f + 1, p =>
    match p.expect LPAREN with
    | ((false, e), _) => .err (e.getD "")
    | ((true, _), p2) =>
      match parseFunctionParameters f p2 with
      | .ok params p3 =>
        match p3.expect LBRACE with
        | ((false, e), _) => .err (e.getD "")
        | ((true, _), p4) =>
          match parseBlockStatement f p4 with
          | .ok body p5 => .ok (.functionLiteral params body) p5
          | .err m => .err m
          | .fuelOut => .fuelOut
      | .err m => .err m
      | .fuelOut => .fuelOut

/-- Parser.parseFunctionParameters -/
def parseFunctionParameters : Nat → Parser → PRes (List String)
  | 0, _ => .fuelOut
  | f + 1, p =>
    if p.peekTokenIs RPAREN then .ok [] p.nextToken
    else
      let p2 := p.nextToken
      parseFunctionParamsGo f [p2.curToken.literal] p2

/-- The comma loop of parseFunctionParameters. -/
def parseFunctionParamsGo : Nat → List String → Parser → PRes (List String)
  | 0, _, _ => .fuelOut
  | f + 1, ids, p =>
    if p.peekTokenIs COMMA then
      let p2 := p.nextToken.nextToken
      parseFunctionParamsGo f (ids ++ [p2.curToken.literal]) p2
    else
      match p.expect RPAREN with
      | ((false, e), _) => .err (e.getD "")
      | ((true, _), p2) => .ok ids p2

/-- Parser.parseCallExpression -/
def parseCallExpression : Nat → Expr → Parser → PRes Expr
  | 0, _, _ => .fuelOut
  | f + 1, function, p =>
    match parseCallArguments f p with
    | .ok args p2 => .ok (.callExpression function args) p2
    | .err m => .err m
    | .fuelOut => .fuelOut

/-- Parser.parseCallArguments -/
def parseCallArguments : Nat → Parser → PRes (List Expr)
  | 0, _ => .fuelOut
  | f + 1, p =>
    if p.peekTokenIs RPAREN then .ok [] p.nextToken
    else
      let p2 := p.nextToken
      match parseExpression f LOWEST p2 with
      | .ok arg p3 => parseCallArgsGo f [arg] p3
      | .err m => .err m
      | .fuelOut => .fuelOut

/-- The comma loop of parseCallArguments. -/
def parseCallArgsGo : Nat → List Expr → Parser → PRes (List Expr)
  | 0, _, _ => .fuelOut
  | f + 1, args, p =>
    if p.peekTokenIs COMMA then
      let p2 := p.nextToken.nextToken
      match parseExpression f LOWEST p2 with
      | .ok arg p3 => parseCallArgsGo f (args ++ [arg]) p3
      | .err m => .err m
      | .fuelOut => .fuelOut
    else
      match p.expect RPAREN with
      | ((false, e), _) => .err (e.getD "")
      | ((true, _), p2) => .ok args p2

/-- Parser.parseArrayLiteral -/
def parseArrayLiteral : Nat → Parser → PRes Expr
  | 0, _ => .fuelOut
  | f + 1, p =>
    match parseExpressionList f RBRACKET p with
    | .ok els p2 => .ok (.arrayLiteral els) p2
    | .err m => .err m
    | .fuelOut => .fuelOut

/-- Parser.parseExpressionList -/
def parseExpressionList : Nat → TokenType → Parser → PRes (List Expr)
  | 0, _, _ => .fuelOut
  | f + 1, tEnd, p =>
    if p.peekTokenIs tEnd then .ok [] p.nextToken
    else
      let p2 := p.nextToken
      match parseExpression f LOWEST p2 with
      | .ok expr p3 => parseExpressionListGo f tEnd [expr] p3
      | .err m => .err m
      | .fuelOut => .fuelOut

/-- The comma loop of parseExpressionList. -/
def parseExpressionListGo : Nat → TokenType → List Expr → Parser → PRes (List Expr)
  | 0, _, _, _ => .fuelOut
  | f + 1, tEnd, list, p =>
    if p.peekTokenIs COMMA then
      let p2 := p.nextToken.nextToken
      match parseExpression f LOWEST p2 with
      | .ok expr p3 => parseExpressionListGo f tEnd (list ++ [expr]) p3
      | .err m => .err m
      | .fuelOut => .fuelOut
    else
      match p.expect tEnd with
      | ((false, e), _) => .err (e.getD "")
      | ((true, _), p2) => .ok list p2

/-- Parser.parseIndexExpression -/
def parseIndexExpr : Nat → Expr → Parser → PRes Expr
  | 0, _, _ => .fuelOut
  | f + 1, left, p =>
    let p2 := p.nextToken
    match parseExpression f LOWEST p2 with
    | .ok i p3 =>
      match p3.expect RBRACKET with
      | ((false, e), _) => .err (e.getD "")
      | ((true, _), p4) => .ok (.indexExpression left i) p4
    | other => other

/-- Parser.parseStatement -/
def parseStatement : Nat → Parser → PRes Stmt
  | 0, _ => .fuelOut
  | f + 1, p =>
    if p.curToken.ttype = LET then parseLetStatement f p
    else if p.curToken.ttype = RETURN then parseReturnStatement f p
    else parseExpressionStatement f p

/-- Parser.parseLetStatement -/
def parseLetStatement : Nat → Parser → PRes Stmt
  | 0, _ => .fuelOut
  | f + 1, p =>
    match p.expect IDENT with
    | ((false, e), _) => .err (e.getD "")
    | ((true, _), p2) =>
      let name := p2.curToken.literal
      match p2.expect ASSIGN with
      | ((false, e), _) => .err (e.getD "")
      | ((true, _), p3) =>
        let p4 := p3.nextToken
        match parseExpression f LOWEST p4 with
        | .ok value p5 =>
          let p6 := if p5.peekTokenIs SEMICOLON then p5.nextToken else p5
          .ok (.letStatement name value) p6
        | .err m => .err m
        | .fuelOut => .fuelOut

/-- Parser.parseReturnStatement -/
def parseReturnStatement : Nat → Parser → PRes Stmt
  | 0, _ => .fuelOut
  | f + 1, p =>
    let p2 := p.nextToken
    match parseExpression f LOWEST p2 with
    | .ok exp p3 => .ok (.returnStatement exp) p3.nextToken
    | .err m => .err m
    | .fuelOut => .fuelOut

/-- Parser.parseExpressionStatement -/
def parseExpressionStatement : Nat → Parser → PRes Stmt
  | 0, _ => .fuelOut
  | f + 1, p =>
    match parseExpression f LOWEST p with
    | .ok exp p2 =>
      let p3 := p2.nextToken
      let p4 := if p3.peekTokenIs SEMICOLON then p3.nextToken else p3
      .ok (.expressionStatement exp) p4
    | .err m => .err m
    | .fuelOut => .fuelOut

end

/-- The statement loop of Parser.ParseProgram. -/
def parseProgramGo : Nat → List Stmt → Parser → PRes (List Stmt)
  | 0, _, _ => .fuelOut
  | f + 1, acc, p =>
    if ¬ p.curTokenIs EOF then
      match parseStatement f p with
      | .ok stmt p2 => parseProgramGo f (acc ++ [stmt]) p2.nextToken
      | .err m => .err m
      | .fuelOut => .fuelOut
    else .ok acc p

/-- Parser.ParseProgram for a parser over the given source text. -/
def parseProgram (fuel : Nat) (source : String) : PRes (List Stmt) :=
  parseProgramGo fuel [] (Parser.new (Lexer.new source.toList))

/-- End-to-end: parse, then evaluate in a fresh environment
(repl-style use of the pipeline). -/
def parseAndEval (fuel : Nat) (source : String) : Option EOut :=
  match parseProgram fuel source with
  | .ok prog _ => some (evalProgram fuel prog 0 [⟨[], none⟩]).1
  | _ => none

/-! ## Pipeline wrappers used by the theorems -/

/-- A fresh top-level environment: one frame, no outer. -/
def initialHeap : Heap := [⟨[], none⟩]

/-- The parsed program, hiding the final parser state. -/
def parsedProgram (fuel : Nat) (source : String) : Option (List Stmt) :=
  match parseProgram fuel source with
  | .ok prog _ => some prog
  | _ => none

/-- Compile and run on the VM, returning the last popped element of a
clean run. -/
def compileAndRun (fuel : Nat) (prog : Program) : Option (Option Obj) :=
  match compile prog with
  | .ok bc =>
    match vmRun bc fuel with
    | .ok st => some (lastPopped st)
    | _ => none
  | .error _ => none

/-- Whether a `(Object, error)` result is a value of kind Integer or
Boolean with no error. -/
def retIsIntOrBool : GoRes → Bool
  | .ret (some (.integer _)) none => true
  | .ret (some (.boolean _)) none => true
  | _ => false

/-- Whether a `(Object, error)` result carries an Error object. -/
def goResIsError : GoRes → Bool
  | .ret (some (.error _)) _ => true
  | _ => false

/-! ## The arithmetic/boolean fragment for the Eval-vs-VM comparison

The straight-line expression sublanguage on which the current VM and
the tree walker can be compared: integer literals and arithmetic,
integer comparisons, boolean literals and boolean (in)equality.
`FragP true e` says `e` is an integer-typed fragment expression,
`FragP false e` a boolean-typed one. -/

inductive FragP : Bool → Expr → Prop
  | intLit (v : Int) : FragP true (.integerLiteral v)
  | boolLit (b : Bool) : FragP false (.booleanLiteral b)
  | arith (op : String) (l r : Expr)
      (hop : op = "+" ∨ op = "-" ∨ op = "*" ∨ op = "/" ∨ op = "%")
      (hl : FragP true l) (hr : FragP true r) : FragP true (.infixExpression op l r)
  | cmp (op : String) (l r : Expr)
      (hop : op = "<" ∨ op = ">" ∨ op = "==" ∨ op = "!=")
      (hl : FragP true l) (hr : FragP true r) : FragP false (.infixExpression op l r)
  | beq (op : String) (l r : Expr)
      (hop : op = "==" ∨ op = "!=")
      (hl : FragP false l) (hr : FragP false r) : FragP false (.infixExpression op l r)

/-- A fragment value: an int64 or a boolean. -/
inductive FragVal where
  | VInt (v : Int)
  | VBool (b : Bool)
deriving DecidableEq, Repr

def fragObj : FragVal → Obj
  | .VInt v => .integer v
  | .VBool b => .boolean b

/-- The integer operations of the fragment denotation; `none` is the
divide-by-zero panic. -/
def fragOpInt (op : String) (lv rv : Int) : Option FragVal :=
  if op = "+" then some (.VInt (wrap64 (lv + rv)))
  else if op = "-" then some (.VInt (wrap64 (lv - rv)))
  else if op = "*" then some (.VInt (wrap64 (lv * rv)))
  else if op = "/" then
    if rv = 0 then none else some (.VInt (wrap64 (Int.tdiv lv rv)))
  else if op = "%" then
    if rv = 0 then none else some (.VInt (wrap64 (Int.tmod lv rv)))
  else if op = "<" then some (.VBool (decide (lv < rv)))
  else if op = ">" then some (.VBool (decide (lv > rv)))
  else if op = "==" then some (.VBool (decide (lv = rv)))
  else if op = "!=" then some (.VBool (decide (lv ≠ rv)))
  else none

/-- The boolean operations of the fragment denotation. -/
def fragOpBool (op : String) (lb rb : Bool) : Option FragVal :=
  if op = "==" then some (.VBool (lb == rb))
  else if op = "!=" then some (.VBool (!(lb == rb)))
  else none

def fragOpApply : String → Option FragVal → Option FragVal → Option FragVal
  | op, some (.VInt lv), some (.VInt rv) => fragOpInt op lv rv
  | op, some (.VBool lb), some (.VBool rb) => fragOpBool op lb rb
  | _, _, _ => none

/-- The reference denotation of a fragment expression; `none` is the
divide-by-zero panic propagated from either operand. -/
def denoteFrag : Expr → Option FragVal
  | .integerLiteral v => some (.VInt v)
  | .booleanLiteral b => some (.VBool b)
  | .infixExpression op l r => fragOpApply op (denoteFrag l) (denoteFrag r)
  | _ => none

/-- The denotation as the evaluator's `(Object, error)` outcome. -/
def fragEOut : Option FragVal → EOut
  | some (.VInt v) => .ret (some (.integer v)) none
  | some (.VBool b) => .ret (some (nativeToBooleanObject b)) none
  | none => .panicked

/-- Exact fuel needed by `evalExpr` on a fragment expression. -/
def exprFuel : Expr → Nat
  | .infixExpression _ l r => 1 + max (exprFuel l) (exprFuel r)
  | _ => 1

/-- Number of VM instructions the compiled fragment executes. -/
def instrNum : Expr → Nat
  | .infixExpression _ l r => instrNum l + instrNum r + 1
  | _ => 1

/-- Peak data-stack need of the compiled fragment (`<` compiles its
operands in swapped order). -/
def maxStack : Expr → Nat
  | .infixExpression op l r =>
    if op = "<" then max (maxStack r) (1 + maxStack l)
    else max (maxStack l) (1 + maxStack r)
  | _ => 1

/-- The constants the compiler appends for a fragment expression, in
emission order. -/
def constsOf : Expr → List Obj
  | .integerLiteral v => [.integer v]
  | .infixExpression op l r =>
    if op = "<" then constsOf r ++ constsOf l else constsOf l ++ constsOf r
  | _ => []

/-- The bytecode the modelled compiler emits for a fragment expression
when the constants pool already holds `base` entries. -/
def codeOf : Expr → Nat → List Nat
  | .integerLiteral _, base => makeIns OpConstant [base]
  | .booleanLiteral true, _ => makeIns OpTrue []
  | .booleanLiteral false, _ => makeIns OpFalse []
  | .infixExpression op l r, base =>
    if op = "<" then
      codeOf r base ++ codeOf l (base + (constsOf r).length) ++ makeIns OpGreaterThan []
    else
      codeOf l base ++ codeOf r (base + (constsOf l).length) ++
        (if op = "+" then makeIns OpAdd []
         else if op = "-" then makeIns OpSub []
         else if op = "*" then makeIns OpMul []
         else if op = "/" then makeIns OpDiv []
         else if op = "%" then makeIns OpMod []
         else if op = ">" then makeIns OpGreaterThan []
         else if op = "==" then makeIns OpEqual []
         else if op = "!=" then makeIns OpNotEqual []
         else [])
  | _, _ => []

/-- The lexer state at byte offset `k` of input `I`: `position = k`,
one-character lookahead consumed, current character `I[k]` (the zero
rune at end of input) — the state every `readChar` produces. -/
def lexStateAt (I : List Char) (k : Nat) : Lexer := ⟨I, k, k + 1, I.getD k nulChar⟩

/-- The state `vmPush` produces on success. -/
def pushedSt (st : VMState) (o : Option Obj) : VMState :=
  ⟨fun i => if i = st.sp then o else st.stack i, st.sp + 1⟩

/-- The if-chain `codeOf` appends for a non-`<` infix operator. -/
def opTail (op : String) : List Nat :=
  if op = "+" then makeIns OpAdd []
  else if op = "-" then makeIns OpSub []
  else if op = "*" then makeIns OpMul []
  else if op = "/" then makeIns OpDiv []
  else if op = "%" then makeIns OpMod []
  else if op = ">" then makeIns OpGreaterThan []
  else if op = "==" then makeIns OpEqual []
  else if op = "!=" then makeIns OpNotEqual []
  else []

/-- The per-expression statement of the fragment-compilation correctness
induction: executing the compiled code of `e` placed after `pre` (with
the constants pool offset by `cpre`) either pushes the denoted value and
continues after the code, or panics exactly when the denotation panics. -/
def FragVMGoal (e : Expr) (pre suffix : List Nat) (cpre csuf : List Obj)
    (f : Nat) (st : VMState) : Prop :=
  match denoteFrag e with
  | some v => ∃ g : Nat → Option Obj,
      vmLoop (pre ++ codeOf e cpre.length ++ suffix) (cpre ++ constsOf e ++ csuf)
          (f + instrNum e) pre.length st =
        vmLoop (pre ++ codeOf e cpre.length ++ suffix) (cpre ++ constsOf e ++ csuf)
          f (pre.length + (codeOf e cpre.length).length) ⟨g, st.sp + 1⟩ ∧
      (∀ i, i < st.sp → g i = st.stack i) ∧ g st.sp = some (fragObj v)
  | none =>
      vmLoop (pre ++ codeOf e cpre.length ++ suffix) (cpre ++ constsOf e ++ csuf)
          (f + instrNum e) pre.length st = .panicked


/-! ## Claim C2 — the prefix bang operator -/

/-- Claim C2 counterexample: the claim says `!v` on an Integer operand
evaluates to FALSE (truthy operand); the code returns an Error object
"cannot apply ! operator to INTEGER" instead. -/
theorem C2_counterexample :
    evalBangOperator (some (Obj.integer 5)) =
      GoRes.ret (some (Obj.error "cannot apply ! operator to INTEGER"))
        (some "cannot apply ! operator to INTEGER") ∧
    evalBangOperator (some (Obj.integer 5)) ≠ GoRes.ret (some FALSEOBJ) none := by
  refine ⟨rfl, fun h => ?_⟩
  rw [show evalBangOperator (some (Obj.integer 5)) =
    GoRes.ret (some (Obj.error "cannot apply ! operator to INTEGER"))
      (some "cannot apply ! operator to INTEGER") from rfl] at h
  simp [FALSEOBJ] at h

/-- Claim C2 as amended: `!TRUE → FALSE`, `!FALSE → TRUE`,
`!NULL → TRUE`, and every other operand yields the Error object
`cannot apply ! operator to KIND` (not FALSE). -/
theorem C2_bang_operator :
    evalBangOperator (some TRUEOBJ) = GoRes.ret (some FALSEOBJ) none ∧
    evalBangOperator (some FALSEOBJ) = GoRes.ret (some TRUEOBJ) none ∧
    evalBangOperator (some NULLOBJ) = GoRes.ret (some TRUEOBJ) none ∧
    ∀ o : Obj, o ≠ TRUEOBJ → o ≠ FALSEOBJ → o ≠ NULLOBJ →
      evalBangOperator (some o) =
        errorPair ("cannot apply ! operator to " ++ o.typeString) := by
  refine ⟨rfl, rfl, rfl, fun o h1 h2 h3 => ?_⟩
  match o with
  | .integer _ => rfl
  | .boolean true => exact absurd rfl h1
  | .boolean false => exact absurd rfl h2
  | .null => exact absurd rfl h3
  | .str _ => rfl
  | .array _ => rfl
  | .hash _ => rfl
  | .returnValue _ => rfl
  | .error _ => rfl
  | .function _ _ _ => rfl
  | .builtin _ => rfl

/-- Witness for C2_bang_operator at the Integer 5 and String "x"
operands. -/
theorem C2_bang_operator_witness :
    evalBangOperator (some (Obj.integer 5)) =
      errorPair ("cannot apply ! operator to " ++ (Obj.integer 5).typeString) ∧
    evalBangOperator (some (Obj.str "x")) =
      errorPair ("cannot apply ! operator to " ++ (Obj.str "x").typeString) :=
  ⟨C2_bang_operator.2.2.2 (Obj.integer 5) (fun h => Obj.noConfusion h)
      (fun h => Obj.noConfusion h) (fun h => Obj.noConfusion h),
   C2_bang_operator.2.2.2 (Obj.str "x") (fun h => Obj.noConfusion h)
      (fun h => Obj.noConfusion h) (fun h => Obj.noConfusion h)⟩

/-! ## Claim C3 — hash indexing -/

/-- Claim C3 counterexample: `{ "a": 1 }["a"]` does not even parse (the
parser registers no parselet for `{`), and indexing a Hash object in
the evaluator yields the Error "Cannot index array with type HASH"
rather than the stored value 1. -/
theorem C3_counterexample :
    parseProgram 99 "\x7b \"a\": 1 \x7d[\"a\"]" =
      PRes.err "No prefix expression found for \"\x7b\" (\"\x7b\")." ∧
    evalIndexExpression
      (some (Obj.hash [(⟨STRING_OBJ, fnv1a64 "a".toList⟩, Obj.str "a", some (Obj.integer 1))]))
      (some (Obj.str "a")) =
      GoRes.ret (some (Obj.error "Cannot index array with type HASH"))
        (some "Cannot index array with type HASH") := by
  exact ⟨rfl, rfl⟩

/-- Claim C3 as amended: the evaluator's index expression supports only
`Array[Integer]`; indexing a Hash with any index returns the Error
"Cannot index array with type HASH", and the example source
`{ "a": 1 }["a"]` is rejected by the parser (no `{` parselet), so it
never evaluates. -/
theorem C3_hash_indexing :
    (∀ (pairs : List (HashKey × Obj × Option Obj)) (k : Option Obj),
      evalIndexExpression (some (Obj.hash pairs)) k =
        errorPair "Cannot index array with type HASH") ∧
    parseProgram 99 "\x7b \"a\": 1 \x7d[\"a\"]" =
      PRes.err "No prefix expression found for \"\x7b\" (\"\x7b\")." :=
  ⟨fun _ _ => rfl, rfl⟩

/-! ## Claim C4 — first/last/rest on an empty array -/

/-- Claim C4 counterexample: `first([])` returns the Go nil interface
(`return nil`), which is not the Null object. -/
theorem C4_counterexample :
    builtinsFirstFn [some (Obj.array [])] = BRes.ret none ∧
    BRes.ret none ≠ BRes.ret (some NULLOBJ) := by
  refine ⟨rfl, fun h => ?_⟩
  simp at h

/-- Claim C4 as amended: on an empty Array, `first`, `last` and `rest`
return the Go nil interface (the callers would have to map it to Null;
nothing in this code path does), and on a non-array argument each
returns the corresponding Error object. -/
theorem C4_empty_array_builtins :
    builtinsFirstFn [some (Obj.array [])] = BRes.ret none ∧
    builtinsLastFn [some (Obj.array [])] = BRes.ret none ∧
    builtinsRestFn [some (Obj.array [])] = BRes.ret none ∧
    ∀ o : Obj, o.typeString ≠ ARRAY_OBJ →
      builtinsFirstFn [some o] =
        BRes.ret (some (.error ("argument to `first` must be ARRAY, got " ++ o.typeString))) ∧
      builtinsLastFn [some o] =
        BRes.ret (some (.error ("argument to `last` must be ARRAY, got " ++ o.typeString))) ∧
      builtinsRestFn [some o] =
        BRes.ret (some (.error ("argument to `rest` must be ARRAY, got " ++ o.typeString))) := by
  refine ⟨rfl, rfl, rfl, fun o ho => ?_⟩
  refine ⟨?_, ?_, ?_⟩ <;>
    simp [builtinsFirstFn, builtinsLastFn, builtinsRestFn, ho]

/-- Witness for C4_empty_array_builtins at the Integer 7 argument. -/
theorem C4_empty_array_builtins_witness :
    builtinsFirstFn [some (Obj.integer 7)] =
      BRes.ret (some (.error ("argument to `first` must be ARRAY, got " ++
        (Obj.integer 7).typeString))) :=
  (C4_empty_array_builtins.2.2.2 (Obj.integer 7) (by decide)).1

/-! ## Claim C5 — the len builtin -/

/-- Claim C5 counterexample: the tree walker resolves `len` in the
evaluator package's own builtins map, whose `len` supports only
strings, so `len([1, 2, 3])` evaluates to the Error
"cannot take the length of ARRAY" rather than the Integer 3 — both at
the builtin itself and end to end through parse-then-eval. -/
theorem C5_counterexample :
    evaluatorLenFn [some (Obj.array [some (.integer 1), some (.integer 2), some (.integer 3)])] =
      BRes.ret (some (Obj.error "cannot take the length of ARRAY")) ∧
    parseAndEval 99 "len([1, 2, 3])" =
      some (EOut.ret (some (Obj.error "cannot take the length of ARRAY"))
        (some "cannot take the length of ARRAY")) ∧
    BRes.ret (some (Obj.error "cannot take the length of ARRAY")) ≠
      BRes.ret (some (Obj.integer 3)) := by
  refine ⟨rfl, rfl, fun h => ?_⟩
  simp at h

/-- Claim C5 as amended: the `len` reachable from evaluated source (the
evaluator package's map) returns the length only for a String argument
and an Error for every other kind, including Array; the object
package's `Builtins` table's `len` would also accept an Array, but the
tree walker never consults it. -/
theorem C5_len_builtin :
    (∀ s : String, evaluatorLenFn [some (Obj.str s)] =
      BRes.ret (some (Obj.integer (s.length : Int)))) ∧
    (∀ o : Obj, o.typeString ≠ STRING_OBJ →
      evaluatorLenFn [some o] =
        BRes.ret (some (Obj.error ("cannot take the length of " ++ o.typeString)))) ∧
    (∀ elements : List (Option Obj), builtinsLenFn [some (Obj.array elements)] =
      BRes.ret (some (Obj.integer (elements.length : Int)))) ∧
    (∀ s : String, builtinsLenFn [some (Obj.str s)] =
      BRes.ret (some (Obj.integer (s.length : Int)))) := by
  refine ⟨fun s => rfl, fun o ho => ?_, fun elements => rfl, fun s => rfl⟩
  match o with
  | .integer _ => rfl
  | .boolean _ => rfl
  | .null => rfl
  | .str _ => exact absurd rfl ho
  | .array _ => rfl
  | .hash _ => rfl
  | .returnValue _ => rfl
  | .error _ => rfl
  | .function _ _ _ => rfl
  | .builtin _ => rfl

/-- Witness for C5_len_builtin at an Array argument. -/
theorem C5_len_builtin_witness :
    evaluatorLenFn [some (Obj.array [some (.integer 1)])] =
      BRes.ret (some (Obj.error ("cannot take the length of " ++
        (Obj.array [some (.integer 1)]).typeString))) :=
  C5_len_builtin.2.1 (Obj.array [some (.integer 1)]) (by decide)

/-! ## Claim C8 — push and the shared-array scenario -/

/-- Claim C8 counterexample: the example program does not evaluate to
`[1, 2, 3]`; `push` is not in the evaluator's builtins map, so the
program evaluates to the Error "identifier not found: push". -/
theorem C8_counterexample :
    parseAndEval 99 "let arr = [1, 2, 3]; push(arr, 4); arr" =
      some (EOut.ret (some (Obj.error "identifier not found: push"))
        (some "identifier not found: push")) ∧
    EOut.ret (some (Obj.error "identifier not found: push"))
        (some "identifier not found: push") ≠
      EOut.ret (some (Obj.array [some (.integer 1), some (.integer 2), some (.integer 3)]))
        none := by
  refine ⟨rfl, fun h => ?_⟩
  simp at h

/-- Claim C8 as amended: the object package's `push` builds a fresh
Array whose elements are the argument's elements followed by the pushed
value (the argument object's own list is copied, not written to), but
the scenario program `let arr = [1, 2, 3]; push(arr, 4); arr` evaluates
to the Error "identifier not found: push", because the tree walker's
builtin lookup knows only `len`. -/
theorem C8_push_builtin :
    (∀ (elements : List (Option Obj)) (x : Option Obj),
      builtinsPushFn [some (Obj.array elements), x] =
        BRes.ret (some (Obj.array (elements ++ [x])))) ∧
    parseAndEval 99 "let arr = [1, 2, 3]; push(arr, 4); arr" =
      some (EOut.ret (some (Obj.error "identifier not found: push"))
        (some "identifier not found: push")) :=
  ⟨fun _ _ => rfl, rfl⟩

/-! ## Claim C10 — integer infix safety -/

/-- Claim C10 counterexample: with the nonzero right operand -1 the
`<<` case does not return an Integer or Boolean — Go panics on a
negative shift count. -/
theorem C10_counterexample :
    ((-1 : Int) ≠ 0) ∧
    evalIntegerInfixOp "<<" (Obj.integer 1) (Obj.integer (-1)) = GoRes.panicked ∧
    retIsIntOrBool (evalIntegerInfixOp "<<" (Obj.integer 1) (Obj.integer (-1))) = false := by
  exact ⟨by decide, rfl, rfl⟩

/-- Claim C10 as amended: `/` and `%` are computed directly on the
int64 values with no zero-divisor guard.  With a nonzero right operand
— and, for `<<`/`>>`, a nonnegative one, since Go panics on negative
shift counts — every listed operator case returns an Integer or Boolean
object and never an Error; a zero right operand makes `/` and `%` panic,
and no operator with a zero right operand produces an Error object. -/
theorem C10_integer_infix_safety :
    (∀ (op : String) (lv rv : Int),
      (op = "+" ∨ op = "-" ∨ op = "*" ∨ op = "/" ∨ op = "%" ∨ op = "|" ∨ op = "&" ∨
        op = "^" ∨ op = "<<" ∨ op = ">>" ∨ op = "<" ∨ op = ">" ∨ op = "==" ∨ op = "!=") →
      rv ≠ 0 → ((op = "<<" ∨ op = ">>") → 0 ≤ rv) →
      retIsIntOrBool (evalIntegerInfixOp op (.integer lv) (.integer rv)) = true) ∧
    (∀ lv : Int, evalIntegerInfixOp "/" (.integer lv) (.integer 0) = GoRes.panicked) ∧
    (∀ lv : Int, evalIntegerInfixOp "%" (.integer lv) (.integer 0) = GoRes.panicked) ∧
    (∀ (op : String) (lv : Int),
      (op = "+" ∨ op = "-" ∨ op = "*" ∨ op = "/" ∨ op = "%" ∨ op = "|" ∨ op = "&" ∨
        op = "^" ∨ op = "<<" ∨ op = ">>" ∨ op = "<" ∨ op = ">" ∨ op = "==" ∨ op = "!=") →
      goResIsError (evalIntegerInfixOp op (.integer lv) (.integer 0)) = false) := by
  have hnat : ∀ b : Bool,
      retIsIntOrBool (GoRes.ret (some (nativeToBooleanObject b)) none) = true := by
    intro b; cases b <;> rfl
  have hnerr : ∀ b : Bool,
      goResIsError (GoRes.ret (some (nativeToBooleanObject b)) none) = false := by
    intro b; cases b <;> rfl
  refine ⟨fun op lv rv hop hrv hsh => ?_, fun lv => rfl, fun lv => rfl,
    fun op lv hop => ?_⟩
  · rcases hop with h | h | h | h | h | h | h | h | h | h | h | h | h | h <;> subst h
    · rfl
    · rfl
    · rfl
    · simp [evalIntegerInfixOp, hrv, retIsIntOrBool]
    · simp [evalIntegerInfixOp, hrv, retIsIntOrBool]
    · rfl
    · rfl
    · rfl
    · have : ¬ rv < 0 := not_lt.mpr (hsh (Or.inl rfl))
      simp [evalIntegerInfixOp, this, retIsIntOrBool]
    · have : ¬ rv < 0 := not_lt.mpr (hsh (Or.inr rfl))
      simp [evalIntegerInfixOp, this, retIsIntOrBool]
    · simp [evalIntegerInfixOp, hnat]
    · simp [evalIntegerInfixOp, hnat]
    · simp [evalIntegerInfixOp, hnat]
    · simp [evalIntegerInfixOp, hnat]
  · rcases hop with h | h | h | h | h | h | h | h | h | h | h | h | h | h <;> subst h
    · rfl
    · rfl
    · rfl
    · rfl
    · rfl
    · rfl
    · rfl
    · rfl
    · rfl
    · rfl
    · simp [evalIntegerInfixOp, hnerr]
    · simp [evalIntegerInfixOp, hnerr]
    · simp [evalIntegerInfixOp, hnerr]
    · simp [evalIntegerInfixOp, hnerr]

/-- Witness for C10_integer_infix_safety: division by 2, shift by 0,
and the panic cases at concrete operands. -/
theorem C10_integer_infix_safety_witness :
    retIsIntOrBool (evalIntegerInfixOp "/" (.integer 7) (.integer 2)) = true ∧
    retIsIntOrBool (evalIntegerInfixOp "<<" (.integer 7) (.integer 1)) = true ∧
    evalIntegerInfixOp "/" (.integer 7) (.integer 0) = GoRes.panicked ∧
    evalIntegerInfixOp "%" (.integer 7) (.integer 0) = GoRes.panicked ∧
    goResIsError (evalIntegerInfixOp "/" (.integer 7) (.integer 0)) = false :=
  ⟨C10_integer_infix_safety.1 "/" 7 2 (by simp) (by decide) (by simp),
   C10_integer_infix_safety.1 "<<" 7 1 (by simp) (by decide) (fun _ => by decide),
   C10_integer_infix_safety.2.1 7,
   C10_integer_infix_safety.2.2.1 7,
   C10_integer_infix_safety.2.2.2 "/" 7 (by simp)⟩

/-! ## Claim C7 — SymbolTable.Resolve -/

/-- Claim C7: Resolve returns a hit in the current store unchanged;
otherwise it recurses into the outer table; an outer hit with scope
GLOBAL or BUILTIN passes through unchanged; an outer hit with scope
LOCAL or FREE is lifted — the original is appended to FreeSymbols and a
fresh symbol with scope FREE and index equal to the original's position
(the pre-append length of FreeSymbols) is stored and returned; an outer
miss propagates the miss. -/
theorem C7_symbol_resolve :
    (∀ (st : SymbolTable) (name : String) (sym : Symbol),
      lookupSym st.store name = some sym → st.resolve name = (some sym, st)) ∧
    (∀ (store : List (String × Symbol)) (nd : Nat) (free : List Symbol)
        (o : SymbolTable) (name : String) (sym : Symbol) (o2 : SymbolTable),
      lookupSym store name = none →
      o.resolve name = (some sym, o2) →
      (sym.scope = GLOBALSCOPE ∨ sym.scope = BUILTINSCOPE) →
      (SymbolTable.mk store nd free (some o)).resolve name =
        (some sym, .mk store nd free (some o2))) ∧
    (∀ (store : List (String × Symbol)) (nd : Nat) (free : List Symbol)
        (o : SymbolTable) (name : String) (sym : Symbol) (o2 : SymbolTable),
      lookupSym store name = none →
      o.resolve name = (some sym, o2) →
      (sym.scope = LOCALSCOPE ∨ sym.scope = FREESCOPE) →
      (SymbolTable.mk store nd free (some o)).resolve name =
        (some (⟨sym.name, FREESCOPE, free.length⟩ : Symbol),
         .mk ((sym.name, (⟨sym.name, FREESCOPE, free.length⟩ : Symbol)) :: store) nd
           (free ++ [sym]) (some o2))) ∧
    (∀ (store : List (String × Symbol)) (nd : Nat) (free : List Symbol)
        (o : SymbolTable) (name : String) (o2 : SymbolTable),
      lookupSym store name = none →
      o.resolve name = (none, o2) →
      (SymbolTable.mk store nd free (some o)).resolve name =
        (none, .mk store nd free (some o2))) ∧
    (∀ (store : List (String × Symbol)) (nd : Nat) (free : List Symbol) (name : String),
      lookupSym store name = none →
      (SymbolTable.mk store nd free none).resolve name = (none, .mk store nd free none)) := by
  refine ⟨fun st name sym h => ?_, fun store nd free o name sym o2 h1 h2 h3 => ?_,
    fun store nd free o name sym o2 h1 h2 h3 => ?_,
    fun store nd free o name o2 h1 h2 => ?_, fun store nd free name h1 => ?_⟩
  · obtain ⟨store, nd, free, outer⟩ := st
    simp only [SymbolTable.store] at h
    cases outer <;> simp [SymbolTable.resolve, h]
  · simp only [SymbolTable.resolve, h1, h2]
    rw [if_pos h3]
  · have hneg : ¬ (sym.scope = GLOBALSCOPE ∨ sym.scope = BUILTINSCOPE) := by
      rcases h3 with h | h <;>
        simp [h, LOCALSCOPE, FREESCOPE, GLOBALSCOPE, BUILTINSCOPE]
    simp only [SymbolTable.resolve, h1, h2]
    rw [if_neg hneg]
    simp [SymbolTable.defineFree]
  · simp [SymbolTable.resolve, h1, h2]
  · simp [SymbolTable.resolve, h1]

/-- Witness for C7_symbol_resolve: a global `g`, a local `x` one level
out, and an empty innermost scope; resolving `g` passes the global
through, resolving `x` lifts it to a FREE symbol with index 0. -/
theorem C7_symbol_resolve_witness :
    (SymbolTable.mk [] 0 []
        (some (.mk [("x", ⟨"x", LOCALSCOPE, 0⟩)] 1 []
          (some (.mk [("g", ⟨"g", GLOBALSCOPE, 0⟩)] 1 [] none))))).resolve "x" =
      (some (⟨"x", FREESCOPE, 0⟩ : Symbol),
       .mk [("x", (⟨"x", FREESCOPE, 0⟩ : Symbol))] 0 [⟨"x", LOCALSCOPE, 0⟩]
         (some (.mk [("x", ⟨"x", LOCALSCOPE, 0⟩)] 1 []
           (some (.mk [("g", ⟨"g", GLOBALSCOPE, 0⟩)] 1 [] none))))) ∧
    (SymbolTable.mk [] 0 []
        (some (.mk [("g", ⟨"g", GLOBALSCOPE, 0⟩)] 1 [] none))).resolve "g" =
      (some (⟨"g", GLOBALSCOPE, 0⟩ : Symbol),
       .mk [] 0 [] (some (.mk [("g", ⟨"g", GLOBALSCOPE, 0⟩)] 1 [] none))) :=
  ⟨C7_symbol_resolve.2.2.1 [] 0 []
      (.mk [("x", ⟨"x", LOCALSCOPE, 0⟩)] 1 []
        (some (.mk [("g", ⟨"g", GLOBALSCOPE, 0⟩)] 1 [] none)))
      "x" ⟨"x", LOCALSCOPE, 0⟩
      (.mk [("x", ⟨"x", LOCALSCOPE, 0⟩)] 1 []
        (some (.mk [("g", ⟨"g", GLOBALSCOPE, 0⟩)] 1 [] none)))
      rfl (C7_symbol_resolve.1 _ "x" _ rfl) (Or.inl rfl),
   C7_symbol_resolve.2.1 [] 0 []
      (.mk [("g", ⟨"g", GLOBALSCOPE, 0⟩)] 1 [] none) "g" ⟨"g", GLOBALSCOPE, 0⟩
      (.mk [("g", ⟨"g", GLOBALSCOPE, 0⟩)] 1 [] none)
      rfl (C7_symbol_resolve.1 _ "g" _ rfl) (Or.inl rfl)⟩

/-! ## Claim C6 — ReturnValue and Error propagation -/

/-- Claim C6: at program root a statement's ReturnValue is unwrapped
and its inner value returned; inside a block a ReturnValue is returned
still wrapped; an Error object (or a Go-level error) produced by a
statement ends statement execution of both a program and a block right
there and is propagated outward; any other value lets execution
continue with the remaining statements. -/
theorem C6_return_error_propagation :
    (∀ (f : Nat) (s : Stmt) (rest : List Stmt) (env : Nat) (h : Heap) (v : Option Obj) (h2 : Heap),
      evalStmt f s env h = (.ret (some (.returnValue v)) none, h2) →
      evalProgram (f + 1) (s :: rest) env h = (.ret v none, h2)) ∧
    (∀ (f : Nat) (s : Stmt) (rest : List Stmt) (env : Nat) (h : Heap) (m : String) (h2 : Heap),
      evalStmt f s env h = (.ret (some (.error m)) none, h2) →
      evalProgram (f + 1) (s :: rest) env h = (.ret (some (.error m)) (some m), h2)) ∧
    (∀ (f : Nat) (s : Stmt) (rest : List Stmt) (env : Nat) (h : Heap) (o : Option Obj)
        (e1 : String) (h2 : Heap),
      evalStmt f s env h = (.ret o (some e1), h2) →
      evalProgram (f + 1) (s :: rest) env h = (.ret (some (.error e1)) (some e1), h2)) ∧
    (∀ (f : Nat) (s : Stmt) (rest : List Stmt) (env : Nat) (h : Heap) (o : Obj) (h2 : Heap),
      evalStmt f s env h = (.ret (some o) none, h2) →
      o.typeString ≠ RETURN_VALUE_OBJ → o.typeString ≠ ERROR_OBJ → rest ≠ [] →
      evalProgram (f + 1) (s :: rest) env h = evalProgram f rest env h2) ∧
    (∀ (f : Nat) (s : Stmt) (rest : List Stmt) (env : Nat) (h : Heap) (v : Option Obj) (h2 : Heap),
      evalStmt f s env h = (.ret (some (.returnValue v)) none, h2) →
      evalBlock (f + 1) (s :: rest) env h = (.ret (some (.returnValue v)) none, h2)) ∧
    (∀ (f : Nat) (s : Stmt) (rest : List Stmt) (env : Nat) (h : Heap) (m : String) (h2 : Heap),
      evalStmt f s env h = (.ret (some (.error m)) none, h2) →
      evalBlock (f + 1) (s :: rest) env h = (.ret (some (.error m)) none, h2)) ∧
    (∀ (f : Nat) (s : Stmt) (rest : List Stmt) (env : Nat) (h : Heap) (o : Option Obj)
        (e1 : String) (h2 : Heap),
      evalStmt f s env h = (.ret o (some e1), h2) →
      evalBlock (f + 1) (s :: rest) env h = (.ret (some (.error e1)) (some e1), h2)) ∧
    (∀ (f : Nat) (s : Stmt) (rest : List Stmt) (env : Nat) (h : Heap) (o : Obj) (h2 : Heap),
      evalStmt f s env h = (.ret (some o) none, h2) →
      o.typeString ≠ RETURN_VALUE_OBJ → o.typeString ≠ ERROR_OBJ → rest ≠ [] →
      evalBlock (f + 1) (s :: rest) env h = evalBlock f rest env h2) := by
  refine ⟨fun f s rest env h v h2 hs => ?_, fun f s rest env h m h2 hs => ?_,
    fun f s rest env h o e1 h2 hs => ?_, fun f s rest env h o h2 hs hnr hne hrest => ?_,
    fun f s rest env h v h2 hs => ?_, fun f s rest env h m h2 hs => ?_,
    fun f s rest env h o e1 h2 hs => ?_, fun f s rest env h o h2 hs hnr hne hrest => ?_⟩
  · simp [evalProgram, hs]
  · simp [evalProgram, hs]
  · simp [evalProgram, hs]
  · obtain ⟨r, rs⟩ : ∃ r rs, rest = r :: rs := by
      cases rest with
      | nil => exact absurd rfl hrest
      | cons r rs => exact ⟨r, ⟨rs, rfl⟩⟩
    obtain ⟨rs, hr⟩ := rs
    subst hr
    match o with
    | .returnValue v => exact absurd rfl hnr
    | .error m => exact absurd rfl hne
    | .integer v => simp [evalProgram, hs]
    | .boolean v => simp [evalProgram, hs]
    | .null => simp [evalProgram, hs]
    | .str v => simp [evalProgram, hs]
    | .array v => simp [evalProgram, hs]
    | .hash v => simp [evalProgram, hs]
    | .function a b c => simp [evalProgram, hs]
    | .builtin v => simp [evalProgram, hs]
  · simp [evalBlock, hs, Obj.typeString, RETURN_VALUE_OBJ, ERROR_OBJ]
  · simp [evalBlock, hs, Obj.typeString, RETURN_VALUE_OBJ, ERROR_OBJ]
  · simp [evalBlock, hs]
  · obtain ⟨r, rs⟩ : ∃ r rs, rest = r :: rs := by
      cases rest with
      | nil => exact absurd rfl hrest
      | cons r rs => exact ⟨r, ⟨rs, rfl⟩⟩
    obtain ⟨rs, hr⟩ := rs
    subst hr
    simp [evalBlock, hs, hnr, hne]

/-- Witness for C6_return_error_propagation: `return 7` unwraps at
program root and stays wrapped in a block; an undefined identifier's
error stops both lists before the following statement; and a plain
integer statement lets evaluation continue. -/
theorem C6_return_error_propagation_witness :
    evalProgram 6 [.returnStatement (.integerLiteral 7),
        .expressionStatement (.integerLiteral 9)] 0 initialHeap =
      (.ret (some (.integer 7)) none, initialHeap) ∧
    evalBlock 6 [.returnStatement (.integerLiteral 7),
        .expressionStatement (.integerLiteral 9)] 0 initialHeap =
      (.ret (some (.returnValue (some (.integer 7)))) none, initialHeap) ∧
    evalProgram 6 [.expressionStatement (.identifier "boom"),
        .expressionStatement (.integerLiteral 9)] 0 initialHeap =
      (.ret (some (.error "identifier not found: boom"))
        (some "identifier not found: boom"), initialHeap) ∧
    evalBlock 6 [.expressionStatement (.identifier "boom"),
        .expressionStatement (.integerLiteral 9)] 0 initialHeap =
      (.ret (some (.error "identifier not found: boom"))
        (some "identifier not found: boom"), initialHeap) ∧
    evalProgram 6 [.expressionStatement (.integerLiteral 1),
        .expressionStatement (.integerLiteral 9)] 0 initialHeap =
      evalProgram 5 [.expressionStatement (.integerLiteral 9)] 0 initialHeap ∧
    evalBlock 6 [.expressionStatement (.integerLiteral 1),
        .expressionStatement (.integerLiteral 9)] 0 initialHeap =
      evalBlock 5 [.expressionStatement (.integerLiteral 9)] 0 initialHeap :=
  ⟨C6_return_error_propagation.1 5 _ _ 0 initialHeap (some (.integer 7)) initialHeap rfl,
   C6_return_error_propagation.2.2.2.2.1 5 _ _ 0 initialHeap (some (.integer 7)) initialHeap rfl,
   C6_return_error_propagation.2.2.1 5 _ _ 0 initialHeap
     (some (.error "identifier not found: boom")) "identifier not found: boom" initialHeap rfl,
   C6_return_error_propagation.2.2.2.2.2.2.1 5 _ _ 0 initialHeap
     (some (.error "identifier not found: boom")) "identifier not found: boom" initialHeap rfl,
   C6_return_error_propagation.2.2.2.1 5 _ _ 0 initialHeap (.integer 1) initialHeap rfl
     (by decide) (by decide) (by simp),
   C6_return_error_propagation.2.2.2.2.2.2.2 5 _ _ 0 initialHeap (.integer 1) initialHeap rfl
     (by decide) (by decide) (by simp)⟩

/-! ## Claim C9 — `!` glued to identifiers in the lexer -/

lemma getD_of_drop_cons : ∀ (I : List Char) (k : Nat) (c : Char) (cs : List Char),
    I.drop k = c :: cs → I.getD k nulChar = c := by
  intro I k
  induction k generalizing I with
  | zero =>
    intro c cs h
    cases I with
    | nil => simp at h
    | cons a as => simp at h ⊢; exact h.1
  | succ n ih =>
    intro c cs h
    cases I with
    | nil => simp at h
    | cons a as =>
      simp only [List.drop_succ_cons] at h
      simpa [List.getD_cons_succ] using ih as c cs h

lemma drop_succ_of_drop_cons : ∀ (I : List Char) (k : Nat) (c : Char) (cs : List Char),
    I.drop k = c :: cs → I.drop (k + 1) = cs := by
  intro I k c cs h
  have : I.drop (k + 1) = (I.drop k).drop 1 := by
    rw [List.drop_drop]
  rw [this, h]
  rfl

lemma readChar_lexStateAt (I : List Char) (k : Nat) :
    (lexStateAt I k).readChar = lexStateAt I (k + 1) := by
  have hch : (if k + 1 ≥ I.length then nulChar else I.getD (k + 1) nulChar) =
      I.getD (k + 1) nulChar := by
    split
    · rename_i hge
      rw [List.getD_eq_default _ _ hge]
    · rfl
  show Lexer.mk I (k + 1) (k + 1 + 1)
      (if k + 1 ≥ I.length then nulChar else I.getD (k + 1) nulChar) = _
  rw [hch]
  rfl

lemma readIdentifierGo_spec : ∀ (n : Nat) (I : List Char) (k fuel : Nat),
    ((I.drop k).takeWhile isLetter).length = n → n + 1 ≤ fuel →
    readIdentifierGo fuel (lexStateAt I k) = lexStateAt I (k + n) := by
  intro n
  induction n with
  | zero =>
    intro I k fuel hn hf
    obtain ⟨f, rfl⟩ : ∃ f, fuel = f + 1 := ⟨fuel - 1, by omega⟩
    have hch : isLetter (lexStateAt I k).ch = false := by
      cases hd : I.drop k with
      | nil =>
        have hlen : I.length ≤ k := by
          have := List.drop_eq_nil_iff.mp hd
          exact this
        show isLetter (I.getD k nulChar) = false
        rw [List.getD_eq_default _ _ hlen]
        decide
      | cons c cs =>
        show isLetter (I.getD k nulChar) = false
        rw [getD_of_drop_cons I k c cs hd]
        rw [hd] at hn
        by_contra hb
        simp only [Bool.not_eq_false] at hb
        simp [List.takeWhile_cons, hb] at hn
    show readIdentifierGo (f + 1) (lexStateAt I k) = _
    unfold readIdentifierGo
    rw [hch]
    simp
  | succ m ih =>
    intro I k fuel hn hf
    obtain ⟨f, rfl⟩ : ∃ f, fuel = f + 1 := ⟨fuel - 1, by omega⟩
    cases hd : I.drop k with
    | nil => rw [hd] at hn; simp at hn
    | cons c cs =>
      rw [hd] at hn
      have hc : isLetter c = true := by
        by_contra hb
        simp only [Bool.not_eq_true] at hb
        simp [List.takeWhile_cons, hb] at hn
      have hm : ((I.drop (k + 1)).takeWhile isLetter).length = m := by
        rw [drop_succ_of_drop_cons I k c cs hd]
        simp [List.takeWhile_cons, hc] at hn
        omega
      have hch : isLetter (lexStateAt I k).ch = true := by
        show isLetter (I.getD k nulChar) = true
        rw [getD_of_drop_cons I k c cs hd]; exact hc
      show readIdentifierGo (f + 1) (lexStateAt I k) = _
      unfold readIdentifierGo
      rw [hch]
      simp only [if_true]
      rw [readChar_lexStateAt]
      rw [ih I (k + 1) f hm (by omega)]
      congr 1
      omega

lemma readIdentifier_spec (I : List Char) (k : Nat) :
    (lexStateAt I k).readIdentifier =
      (String.mk ((I.drop k).takeWhile isLetter),
       lexStateAt I (k + ((I.drop k).takeWhile isLetter).length)) := by
  have hlen : ((I.drop k).takeWhile isLetter).length + 1 ≤ I.length + 2 := by
    have h1 : ((I.drop k).takeWhile isLetter).length ≤ (I.drop k).length :=
      (List.takeWhile_prefix _).length_le
    have h2 : (I.drop k).length ≤ I.length := by
      rw [List.length_drop]; omega
    omega
  unfold Lexer.readIdentifier
  rw [show (lexStateAt I k).input.length = I.length from rfl]
  rw [readIdentifierGo_spec ((I.drop k).takeWhile isLetter).length I k (I.length + 2) rfl hlen]
  have hslice : sliceStr I k (k + ((I.drop k).takeWhile isLetter).length) =
      String.mk ((I.drop k).takeWhile isLetter) := by
    unfold sliceStr
    congr 1
    rw [show k + ((I.drop k).takeWhile isLetter).length - k =
      ((I.drop k).takeWhile isLetter).length from by omega]
    exact (List.prefix_iff_eq_take.mp (List.takeWhile_prefix _)).symm
  exact congrArg (fun s => (s, lexStateAt I (k + ((I.drop k).takeWhile isLetter).length))) hslice

lemma dcm_bang (c : Char) (hne : c ≠ '=') :
    doubleCharMatch (String.mk ['!', c]) = none := by
  simp [doubleCharMatch, EQ, NEQ, GEQ, LEQ, XOR_EQ, OR_EQ, AND_EQ, MIN_EQ, MUL_EQ,
    DIV_EQ, PERC_EQ, ANDAND, OROR, SHOVL, SHOVR, String.ext_iff, hne]

lemma kw_bang (c : Char) (cs : List Char) :
    keywordMatch (String.mk ('!' :: c :: cs)) = none := by
  simp [keywordMatch, String.ext_iff]

/-- Claim C9: when `!` is immediately followed by an identifier
character (so the pair is not `!=`), NextToken returns one IDENT token
whose literal is the `!` together with the following identifier run. -/
theorem C9_bang_identifier (c : Char) (rest : List Char)
    (hc : isLetter c = true) (hne : c ≠ '=') :
    ((Lexer.new ('!' :: c :: rest)).nextToken).1 =
      Token.new IDENT (String.mk ('!' :: c :: rest.takeWhile isLetter)) := by
  have hnew : Lexer.new ('!' :: c :: rest) = lexStateAt ('!' :: c :: rest) 0 := rfl
  have hws : (lexStateAt ('!' :: c :: rest) 0).eatWhitespace =
      lexStateAt ('!' :: c :: rest) 0 := rfl
  have hch : (lexStateAt ('!' :: c :: rest) 0).ch = '!' := rfl
  have hpeek : (lexStateAt ('!' :: c :: rest) 0).peekChar = c := rfl
  have htw : (('!' :: c :: rest).drop 0).takeWhile isLetter =
      '!' :: c :: rest.takeWhile isLetter := by
    simp [List.takeWhile_cons, hc, (by decide : isLetter '!' = true)]
  have hhandle : (lexStateAt ('!' :: c :: rest) 0).handleIdentifier =
      ((IDENT, String.mk ('!' :: c :: rest.takeWhile isLetter)),
       lexStateAt ('!' :: c :: rest)
         (0 + (('!' :: c :: rest.takeWhile isLetter).length))) := by
    unfold Lexer.handleIdentifier
    rw [readIdentifier_spec, htw]
    simp [kw_bang]
  rw [hnew]
  simp only [Lexer.nextToken, hws]
  rw [hch, hpeek]
  rw [if_neg (show ¬ ('!' : Char) = nulChar from by decide)]
  rw [dcm_bang c hne]
  rw [if_pos (show isLetter '!' = true from by decide)]
  rw [hhandle]

/-- Witness for C9_bang_identifier: `!true` lexes as the single
identifier token `!true`, not as BANG followed by TRUE. -/
theorem C9_bang_identifier_witness :
    ((Lexer.new "!true".toList).nextToken).1 = Token.new IDENT "!true" :=
  C9_bang_identifier 't' "rue".toList (by decide) (by decide)

/-! ## Claim C1: the Eval-vs-VM equivalence -/


/-! Step lemmas: the catch-all patterns in the fragment helpers make
their auto-generated equations awkward for simp, so each constructor
case is exposed as an `rfl` lemma. -/

lemma denoteFrag_intLit (v : Int) : denoteFrag (.integerLiteral v) = some (.VInt v) := rfl

lemma denoteFrag_boolLit (b : Bool) : denoteFrag (.booleanLiteral b) = some (.VBool b) := rfl

lemma denoteFrag_infixStep (op : String) (l r : Expr) :
    denoteFrag (.infixExpression op l r) = fragOpApply op (denoteFrag l) (denoteFrag r) := rfl

lemma fragOpApply_none_left (op : String) (x : Option FragVal) :
    fragOpApply op none x = none := by
  cases x with
  | none => rfl
  | some v => cases v <;> rfl

lemma fragOpApply_none_right (op : String) (x : Option FragVal) :
    fragOpApply op x none = none := by
  cases x with
  | none => rfl
  | some v => cases v <;> rfl

lemma fragOpApply_int (op : String) (lv rv : Int) :
    fragOpApply op (some (.VInt lv)) (some (.VInt rv)) = fragOpInt op lv rv := rfl

lemma fragOpApply_bool (op : String) (lb rb : Bool) :
    fragOpApply op (some (.VBool lb)) (some (.VBool rb)) = fragOpBool op lb rb := rfl

lemma codeOf_intLit (v : Int) (base : Nat) :
    codeOf (.integerLiteral v) base = makeIns OpConstant [base] := rfl

lemma codeOf_boolLit (b : Bool) (base : Nat) :
    codeOf (.booleanLiteral b) base = makeIns (if b then OpTrue else OpFalse) [] := by
  cases b <;> rfl

lemma codeOf_infixStep (op : String) (l r : Expr) (base : Nat) :
    codeOf (.infixExpression op l r) base =
      (if op = "<" then
        codeOf r base ++ codeOf l (base + (constsOf r).length) ++ makeIns OpGreaterThan []
      else
        codeOf l base ++ codeOf r (base + (constsOf l).length) ++
          (if op = "+" then makeIns OpAdd []
           else if op = "-" then makeIns OpSub []
           else if op = "*" then makeIns OpMul []
           else if op = "/" then makeIns OpDiv []
           else if op = "%" then makeIns OpMod []
           else if op = ">" then makeIns OpGreaterThan []
           else if op = "==" then makeIns OpEqual []
           else if op = "!=" then makeIns OpNotEqual []
           else [])) := rfl

lemma constsOf_intLit (v : Int) : constsOf (.integerLiteral v) = [Obj.integer v] := rfl

lemma constsOf_boolLit (b : Bool) : constsOf (.booleanLiteral b) = [] := rfl

lemma constsOf_infixStep (op : String) (l r : Expr) :
    constsOf (.infixExpression op l r) =
      (if op = "<" then constsOf r ++ constsOf l else constsOf l ++ constsOf r) := rfl

lemma exprFuel_infixStep (op : String) (l r : Expr) :
    exprFuel (.infixExpression op l r) = 1 + max (exprFuel l) (exprFuel r) := rfl

lemma instrNum_infixStep (op : String) (l r : Expr) :
    instrNum (.infixExpression op l r) = instrNum l + instrNum r + 1 := rfl

lemma maxStack_infixStep (op : String) (l r : Expr) :
    maxStack (.infixExpression op l r) =
      (if op = "<" then max (maxStack r) (1 + maxStack l)
       else max (maxStack l) (1 + maxStack r)) := rfl

lemma compileExpr_intLit (v : Int) (ins : List Nat) (consts : List Obj) :
    compileExpr (.integerLiteral v) ins consts =
      .ok (ins ++ makeIns OpConstant [(consts ++ [Obj.integer v]).length - 1],
        consts ++ [Obj.integer v]) := rfl

lemma compileExpr_boolLit (b : Bool) (ins : List Nat) (consts : List Obj) :
    compileExpr (.booleanLiteral b) ins consts =
      .ok (ins ++ makeIns (if b then OpTrue else OpFalse) [], consts) := by
  cases b <;> rfl

lemma compileExpr_infixStep (op : String) (l r : Expr) (ins : List Nat) (consts : List Obj) :
    compileExpr (.infixExpression op l r) ins consts =
      (if op = "<" then do
        let (i2, c2) ← compileExpr r ins consts
        let (i3, c3) ← compileExpr l i2 c2
        Except.ok (i3 ++ makeIns OpGreaterThan [], c3)
      else do
        let (i2, c2) ← compileExpr l ins consts
        let (i3, c3) ← compileExpr r i2 c2
        if op = "+" then Except.ok (i3 ++ makeIns OpAdd [], c3)
        else if op = "-" then Except.ok (i3 ++ makeIns OpSub [], c3)
        else if op = "*" then Except.ok (i3 ++ makeIns OpMul [], c3)
        else if op = "/" then Except.ok (i3 ++ makeIns OpDiv [], c3)
        else if op = "%" then Except.ok (i3 ++ makeIns OpMod [], c3)
        else if op = ">" then Except.ok (i3 ++ makeIns OpGreaterThan [], c3)
        else if op = "==" then Except.ok (i3 ++ makeIns OpEqual [], c3)
        else if op = "!=" then Except.ok (i3 ++ makeIns OpNotEqual [], c3)
        else Except.error ("unknown operator " ++ op)) := rfl

lemma compileExpr_frag : ∀ (t : Bool) (e : Expr), FragP t e →
    ∀ (ins : List Nat) (consts : List Obj),
      compileExpr e ins consts =
        .ok (ins ++ codeOf e consts.length, consts ++ constsOf e) := by
  intro t e h
  induction h with
  | intLit v =>
    intro ins consts
    rw [compileExpr_intLit, codeOf_intLit, constsOf_intLit]
    simp
  | boolLit b =>
    intro ins consts
    rw [compileExpr_boolLit, codeOf_boolLit, constsOf_boolLit]
    simp
  | arith op l r hop hl hr ihl ihr =>
    intro ins consts
    rw [compileExpr_infixStep, codeOf_infixStep, constsOf_infixStep]
    rcases hop with h | h | h | h | h <;> subst h <;>
      simp [ihl, ihr, Bind.bind, Except.bind, List.append_assoc, List.length_append]
  | cmp op l r hop hl hr ihl ihr =>
    intro ins consts
    rw [compileExpr_infixStep, codeOf_infixStep, constsOf_infixStep]
    rcases hop with h | h | h | h <;> subst h <;>
      simp [ihl, ihr, Bind.bind, Except.bind, List.append_assoc, List.length_append]
  | beq op l r hop hl hr ihl ihr =>
    intro ins consts
    rw [compileExpr_infixStep, codeOf_infixStep, constsOf_infixStep]
    rcases hop with h | h <;> subst h <;>
      simp [ihl, ihr, Bind.bind, Except.bind, List.append_assoc, List.length_append]

lemma fragEOut_none : fragEOut none = EOut.panicked := rfl

lemma fragEOut_int (v : Int) : fragEOut (some (.VInt v)) = .ret (some (.integer v)) none := rfl

lemma fragEOut_bool (b : Bool) :
    fragEOut (some (.VBool b)) = .ret (some (nativeToBooleanObject b)) none := rfl

lemma denoteFrag_typed : ∀ (t : Bool) (e : Expr), FragP t e →
    denoteFrag e = none ∨
      (∃ v, t = true ∧ denoteFrag e = some (.VInt v)) ∨
      (∃ b, t = false ∧ denoteFrag e = some (.VBool b)) := by
  intro t e h
  induction h with
  | intLit v => exact Or.inr (Or.inl ⟨v, rfl, rfl⟩)
  | boolLit b => exact Or.inr (Or.inr ⟨b, rfl, rfl⟩)
  | arith op l r hop hl hr ihl ihr =>
    rcases ihl with hnl | ⟨lv, _, hvl⟩ | ⟨lb, hfl, _⟩
    · exact Or.inl (by rw [denoteFrag_infixStep, hnl, fragOpApply_none_left])
    · rcases ihr with hnr | ⟨rv, _, hvr⟩ | ⟨rb, hfr, _⟩
      · exact Or.inl (by rw [denoteFrag_infixStep, hnr, fragOpApply_none_right])
      · rw [denoteFrag_infixStep, hvl, hvr, fragOpApply_int]
        rcases hop with h | h | h | h | h <;> subst h
        · exact Or.inr (Or.inl ⟨_, rfl, rfl⟩)
        · exact Or.inr (Or.inl ⟨_, rfl, rfl⟩)
        · exact Or.inr (Or.inl ⟨_, rfl, rfl⟩)
        · by_cases hz : rv = 0
          · exact Or.inl (by simp [fragOpInt, hz])
          · exact Or.inr (Or.inl ⟨wrap64 (Int.tdiv lv rv), rfl, by simp [fragOpInt, hz]⟩)
        · by_cases hz : rv = 0
          · exact Or.inl (by simp [fragOpInt, hz])
          · exact Or.inr (Or.inl ⟨wrap64 (Int.tmod lv rv), rfl, by simp [fragOpInt, hz]⟩)
      · exact absurd hfr (by simp)
    · exact absurd hfl (by simp)
  | cmp op l r hop hl hr ihl ihr =>
    rcases ihl with hnl | ⟨lv, _, hvl⟩ | ⟨lb, hfl, _⟩
    · exact Or.inl (by rw [denoteFrag_infixStep, hnl, fragOpApply_none_left])
    · rcases ihr with hnr | ⟨rv, _, hvr⟩ | ⟨rb, hfr, _⟩
      · exact Or.inl (by rw [denoteFrag_infixStep, hnr, fragOpApply_none_right])
      · rw [denoteFrag_infixStep, hvl, hvr, fragOpApply_int]
        rcases hop with h | h | h | h <;> subst h <;>
          exact Or.inr (Or.inr ⟨_, rfl, rfl⟩)
      · exact absurd hfr (by simp)
    · exact absurd hfl (by simp)
  | beq op l r hop hl hr ihl ihr =>
    rcases ihl with hnl | ⟨lv, hfl, _⟩ | ⟨lb, _, hvl⟩
    · exact Or.inl (by rw [denoteFrag_infixStep, hnl, fragOpApply_none_left])
    · exact absurd hfl (by simp)
    · rcases ihr with hnr | ⟨rv, hfr, _⟩ | ⟨rb, _, hvr⟩
      · exact Or.inl (by rw [denoteFrag_infixStep, hnr, fragOpApply_none_right])
      · exact absurd hfr (by simp)
      · rw [denoteFrag_infixStep, hvl, hvr, fragOpApply_bool]
        rcases hop with h | h <;> subst h
        · exact Or.inr (Or.inr ⟨_, rfl, rfl⟩)
        · exact Or.inr (Or.inr ⟨_, rfl, rfl⟩)

lemma evalExpr_intLit (f env : Nat) (h : Heap) (v : Int) :
    evalExpr (f + 1) (.integerLiteral v) env h = (.ret (some (.integer v)) none, h) := rfl

lemma evalExpr_boolLit (f env : Nat) (h : Heap) (b : Bool) :
    evalExpr (f + 1) (.booleanLiteral b) env h =
      (.ret (some (nativeToBooleanObject b)) none, h) := rfl

lemma evalExpr_infixStep (f : Nat) (op : String) (l r : Expr) (env : Nat) (h : Heap) :
    evalExpr (f + 1) (.infixExpression op l r) env h =
      (match evalExpr f l env h with
      | (.ret left none, h2) =>
        if isError left then (.ret left (errMsgOf left), h2)
        else
          match evalExpr f r env h2 with
          | (.ret right none, h3) =>
            if isError right then (.ret right (errMsgOf right), h3)
            else (liftGo (evalInfixOp op left right), h3)
          | (.ret _ (some e1), h3) => (.ret (some (.error e1)) (some e1), h3)
          | other => other
      | (.ret _ (some e1), h2) => (.ret (some (.error e1)) (some e1), h2)
      | other => other) := rfl

lemma isError_int (v : Int) : isError (some (Obj.integer v)) = false := rfl

lemma isError_natBool (b : Bool) : isError (some (nativeToBooleanObject b)) = false := by
  cases b <;> rfl

lemma evalExpr_frag : ∀ (t : Bool) (e : Expr), FragP t e →
    ∀ (f env : Nat) (h : Heap), exprFuel e ≤ f →
      evalExpr f e env h = (fragEOut (denoteFrag e), h) := by
  intro t e hfrag
  induction hfrag with
  | intLit v =>
    intro f env h hf
    have h1 : 1 ≤ f := hf
    obtain ⟨g, rfl⟩ : ∃ g, f = g + 1 := ⟨f - 1, by omega⟩
    rw [evalExpr_intLit, denoteFrag_intLit, fragEOut_int]
  | boolLit b =>
    intro f env h hf
    have h1 : 1 ≤ f := hf
    obtain ⟨g, rfl⟩ : ∃ g, f = g + 1 := ⟨f - 1, by omega⟩
    rw [evalExpr_boolLit, denoteFrag_boolLit, fragEOut_bool]
  | arith op l r hop hl hr ihl ihr =>
    intro f env h hf
    have hf1 : 1 + max (exprFuel l) (exprFuel r) ≤ f := by
      rw [← exprFuel_infixStep op l r]; exact hf
    obtain ⟨g, rfl⟩ : ∃ g, f = g + 1 := ⟨f - 1, by omega⟩
    have hgl : exprFuel l ≤ g := by omega
    have hgr : exprFuel r ≤ g := by omega
    rw [evalExpr_infixStep, denoteFrag_infixStep]
    rcases denoteFrag_typed true l hl with hnl | ⟨lv, _, hvl⟩ | ⟨lb, hfl2, _⟩
    · have hL : evalExpr g l env h = (EOut.panicked, h) := by
        rw [ihl g env h hgl, hnl, fragEOut_none]
      rw [hnl, fragOpApply_none_left, fragEOut_none]
      simp [hL]
    · have hL : evalExpr g l env h = (.ret (some (Obj.integer lv)) none, h) := by
        rw [ihl g env h hgl, hvl, fragEOut_int]
      rw [hvl]
      rcases denoteFrag_typed true r hr with hnr | ⟨rv, _, hvr⟩ | ⟨rb, hfr2, _⟩
      · have hR : evalExpr g r env h = (EOut.panicked, h) := by
          rw [ihr g env h hgr, hnr, fragEOut_none]
        rw [hnr, fragOpApply_none_right, fragEOut_none]
        simp [hL, hR, isError_int]
      · have hR : evalExpr g r env h = (.ret (some (Obj.integer rv)) none, h) := by
          rw [ihr g env h hgr, hvr, fragEOut_int]
        rw [hvr, fragOpApply_int]
        simp only [hL, hR, isError_int, Bool.false_eq_true, if_false]
        rcases hop with hx | hx | hx | hx | hx <;> subst hx
        · rfl
        · rfl
        · rfl
        · by_cases hz : rv = 0 <;>
            simp [evalInfixOp, Obj.typeString, evalIntegerInfixOp, fragOpInt, hz,
              liftGo, fragEOut, INTEGER_OBJ]
        · by_cases hz : rv = 0 <;>
            simp [evalInfixOp, Obj.typeString, evalIntegerInfixOp, fragOpInt, hz,
              liftGo, fragEOut, INTEGER_OBJ]
      · exact absurd hfr2 (by simp)
    · exact absurd hfl2 (by simp)
  | cmp op l r hop hl hr ihl ihr =>
    intro f env h hf
    have hf1 : 1 + max (exprFuel l) (exprFuel r) ≤ f := by
      rw [← exprFuel_infixStep op l r]; exact hf
    obtain ⟨g, rfl⟩ : ∃ g, f = g + 1 := ⟨f - 1, by omega⟩
    have hgl : exprFuel l ≤ g := by omega
    have hgr : exprFuel r ≤ g := by omega
    rw [evalExpr_infixStep, denoteFrag_infixStep]
    rcases denoteFrag_typed true l hl with hnl | ⟨lv, _, hvl⟩ | ⟨lb, hfl2, _⟩
    · have hL : evalExpr g l env h = (EOut.panicked, h) := by
        rw [ihl g env h hgl, hnl, fragEOut_none]
      rw [hnl, fragOpApply_none_left, fragEOut_none]
      simp [hL]
    · have hL : evalExpr g l env h = (.ret (some (Obj.integer lv)) none, h) := by
        rw [ihl g env h hgl, hvl, fragEOut_int]
      rw [hvl]
      rcases denoteFrag_typed true r hr with hnr | ⟨rv, _, hvr⟩ | ⟨rb, hfr2, _⟩
      · have hR : evalExpr g r env h = (EOut.panicked, h) := by
          rw [ihr g env h hgr, hnr, fragEOut_none]
        rw [hnr, fragOpApply_none_right, fragEOut_none]
        simp [hL, hR, isError_int]
      · have hR : evalExpr g r env h = (.ret (some (Obj.integer rv)) none, h) := by
          rw [ihr g env h hgr, hvr, fragEOut_int]
        rw [hvr, fragOpApply_int]
        simp only [hL, hR, isError_int, Bool.false_eq_true, if_false]
        rcases hop with hx | hx | hx | hx <;> subst hx
        · rfl
        · rfl
        · rfl
        · rfl
      · exact absurd hfr2 (by simp)
    · exact absurd hfl2 (by simp)
  | beq op l r hop hl hr ihl ihr =>
    intro f env h hf
    have hf1 : 1 + max (exprFuel l) (exprFuel r) ≤ f := by
      rw [← exprFuel_infixStep op l r]; exact hf
    obtain ⟨g, rfl⟩ : ∃ g, f = g + 1 := ⟨f - 1, by omega⟩
    have hgl : exprFuel l ≤ g := by omega
    have hgr : exprFuel r ≤ g := by omega
    rw [evalExpr_infixStep, denoteFrag_infixStep]
    rcases denoteFrag_typed false l hl with hnl | ⟨lv, hfl2, _⟩ | ⟨lb, _, hvl⟩
    · have hL : evalExpr g l env h = (EOut.panicked, h) := by
        rw [ihl g env h hgl, hnl, fragEOut_none]
      rw [hnl, fragOpApply_none_left, fragEOut_none]
      simp [hL]
    · exact absurd hfl2 (by simp)
    · have hL : evalExpr g l env h = (.ret (some (nativeToBooleanObject lb)) none, h) := by
        rw [ihl g env h hgl, hvl, fragEOut_bool]
      rw [hvl]
      rcases denoteFrag_typed false r hr with hnr | ⟨rv, hfr2, _⟩ | ⟨rb, _, hvr⟩
      · have hR : evalExpr g r env h = (EOut.panicked, h) := by
          rw [ihr g env h hgr, hnr, fragEOut_none]
        rw [hnr, fragOpApply_none_right, fragEOut_none]
        simp [hL, hR, isError_natBool]
      · exact absurd hfr2 (by simp)
      · have hR : evalExpr g r env h = (.ret (some (nativeToBooleanObject rb)) none, h) := by
          rw [ihr g env h hgr, hvr, fragEOut_bool]
        rw [hvr, fragOpApply_bool]
        simp only [hL, hR, isError_natBool, Bool.false_eq_true, if_false]
        rcases hop with hx | hx <;> subst hx <;> cases lb <;> cases rb <;> rfl

/-! VM step lemmas -/

lemma vmLoop_succ (ins : List Nat) (c : List Obj) (f ip : Nat) (st : VMState) :
    vmLoop ins c (f + 1) ip st =
      (if ip < ins.length then
        let op := ins.getD ip 0
        if op = OpConstant then
          match readUint16 (ins.drop (ip + 1)) with
          | none => .panicked
          | some constIndex =>
            match c.get? constIndex with
            | none => .panicked
            | some cv =>
              match vmPush st (some cv) with
              | .inl st2 => vmLoop ins c f (ip + 3) st2
              | .inr msg => .errored msg
        else if op = OpAdd ∨ op = OpSub ∨ op = OpMul ∨ op = OpDiv ∨ op = OpMod then
          match executeBinOp op st with
          | .ok st2 => vmLoop ins c f (ip + 1) st2
          | other => other
        else if op = OpPop then
          match vmPop st with
          | none => .panicked
          | some (_, st2) => vmLoop ins c f (ip + 1) st2
        else if op = OpTrue then
          match vmPush st (some vmTrue) with
          | .inl st2 => vmLoop ins c f (ip + 1) st2
          | .inr msg => .errored msg
        else if op = OpFalse then
          match vmPush st (some vmFalse) with
          | .inl st2 => vmLoop ins c f (ip + 1) st2
          | .inr msg => .errored msg
        else if op = OpEqual ∨ op = OpNotEqual ∨ op = OpGreaterThan then
          match executeComparison op st with
          | .ok st2 => vmLoop ins c f (ip + 1) st2
          | other => other
        else vmLoop ins c f (ip + 1) st
      else .ok st) := rfl

lemma vmStep_done (ins : List Nat) (c : List Obj) (f ip : Nat) (st : VMState)
    (hip : ins.length ≤ ip) : vmLoop ins c (f + 1) ip st = .ok st := by
  rw [vmLoop_succ, if_neg (not_lt.mpr hip)]


lemma vmPush_ok (st : VMState) (o : Option Obj) (h : st.sp < STACKSIZE) :
    vmPush st o = .inl (pushedSt st o) := by
  unfold vmPush pushedSt
  rw [if_neg (by omega)]

lemma vmStep_true (ins : List Nat) (c : List Obj) (f ip : Nat) (st : VMState)
    (hop : ins.getD ip 0 = OpTrue) (hip : ip < ins.length) (hsp : st.sp < STACKSIZE) :
    vmLoop ins c (f + 1) ip st = vmLoop ins c f (ip + 1) (pushedSt st (some vmTrue)) := by
  rw [vmLoop_succ, if_pos hip]
  simp only [hop]
  rw [if_pos trivial, vmPush_ok st (some vmTrue) hsp,
    if_neg (by decide), if_neg (by decide), if_neg (by decide)]

lemma vmStep_false (ins : List Nat) (c : List Obj) (f ip : Nat) (st : VMState)
    (hop : ins.getD ip 0 = OpFalse) (hip : ip < ins.length) (hsp : st.sp < STACKSIZE) :
    vmLoop ins c (f + 1) ip st = vmLoop ins c f (ip + 1) (pushedSt st (some vmFalse)) := by
  rw [vmLoop_succ, if_pos hip]
  simp only [hop]
  rw [if_pos trivial, vmPush_ok st (some vmFalse) hsp,
    if_neg (by decide), if_neg (by decide), if_neg (by decide), if_neg (by decide)]

lemma vmStep_constant (ins : List Nat) (c : List Obj) (f ip : Nat) (st : VMState)
    (idx : Nat) (obj : Obj)
    (hop : ins.getD ip 0 = OpConstant) (hip : ip < ins.length)
    (hrd : readUint16 (ins.drop (ip + 1)) = some idx)
    (hconst : c.get? idx = some obj) (hsp : st.sp < STACKSIZE) :
    vmLoop ins c (f + 1) ip st = vmLoop ins c f (ip + 3) (pushedSt st (some obj)) := by
  rw [vmLoop_succ, if_pos hip]
  simp only [hop]
  rw [if_pos trivial]
  rw [hrd]
  simp only [hconst]
  rw [vmPush_ok st (some obj) hsp]

lemma vmStep_pop (ins : List Nat) (c : List Obj) (f ip : Nat) (st : VMState) (sp0 : Nat)
    (hop : ins.getD ip 0 = OpPop) (hip : ip < ins.length) (hsp : st.sp = sp0 + 1) :
    vmLoop ins c (f + 1) ip st = vmLoop ins c f (ip + 1) ⟨st.stack, sp0⟩ := by
  rw [vmLoop_succ, if_pos hip]
  simp only [hop]
  rw [if_pos trivial, if_neg (by decide), if_neg (by decide)]
  unfold vmPop
  rw [hsp]

lemma executeBinOp_int (opn : Nat) (st : VMState) (sp0 : Nat) (lv rv : Int)
    (hsp : st.sp = sp0 + 2) (hsp2 : sp0 < STACKSIZE)
    (hl : st.stack sp0 = some (Obj.integer lv)) (hr : st.stack (sp0 + 1) = some (Obj.integer rv)) :
    executeBinOp opn st =
      (match executeBinaryIntegerOp opn (Obj.integer lv) (Obj.integer rv) with
      | .inl (some v) => .ok (pushedSt ⟨st.stack, sp0⟩ (some v))
      | .inl none => .panicked
      | .inr msg => .errored msg) := by
  have hpush : ∀ o : Option Obj, vmPush ⟨st.stack, sp0⟩ o = .inl (pushedSt ⟨st.stack, sp0⟩ o) :=
    fun o => vmPush_ok ⟨st.stack, sp0⟩ o hsp2
  unfold executeBinOp
  rw [show vmPop st = some (st.stack (sp0 + 1), ⟨st.stack, sp0 + 1⟩) from by
    unfold vmPop; rw [hsp]]
  simp only [hl, hr]
  rw [show vmPop ⟨st.stack, sp0 + 1⟩ = some (st.stack sp0, ⟨st.stack, sp0⟩) from rfl]
  simp only [hl]
  rw [if_pos ⟨rfl, rfl⟩]
  simp only [hpush]

lemma executeComparison_int (opn : Nat) (st : VMState) (sp0 : Nat) (lv rv : Int)
    (hsp : st.sp = sp0 + 2) (hsp2 : sp0 < STACKSIZE)
    (hl : st.stack sp0 = some (Obj.integer lv)) (hr : st.stack (sp0 + 1) = some (Obj.integer rv)) :
    executeComparison opn st =
      (match executeIntegerComparison opn lv rv with
      | .inl v => .ok (pushedSt ⟨st.stack, sp0⟩ (some v))
      | .inr msg => .errored msg) := by
  have hpush : ∀ o : Option Obj, vmPush ⟨st.stack, sp0⟩ o = .inl (pushedSt ⟨st.stack, sp0⟩ o) :=
    fun o => vmPush_ok ⟨st.stack, sp0⟩ o hsp2
  unfold executeComparison
  rw [show vmPop st = some (st.stack (sp0 + 1), ⟨st.stack, sp0 + 1⟩) from by
    unfold vmPop; rw [hsp]]
  simp only [hl, hr]
  rw [show vmPop ⟨st.stack, sp0 + 1⟩ = some (st.stack sp0, ⟨st.stack, sp0⟩) from rfl]
  simp only [hl]
  rw [if_pos ⟨rfl, rfl⟩]
  simp only [hpush]

lemma executeComparison_bool (opn : Nat) (st : VMState) (sp0 : Nat) (lb rb : Bool)
    (hopn : opn = OpEqual ∨ opn = OpNotEqual)
    (hsp : st.sp = sp0 + 2) (hsp2 : sp0 < STACKSIZE)
    (hl : st.stack sp0 = some (Obj.boolean lb)) (hr : st.stack (sp0 + 1) = some (Obj.boolean rb)) :
    executeComparison opn st =
      .ok (pushedSt ⟨st.stack, sp0⟩
        (some (nativeBoolToBooleanObjectVM
          (if opn = OpEqual then rb == lb else !(rb == lb))))) := by
  have hpush : ∀ o : Option Obj, vmPush ⟨st.stack, sp0⟩ o = .inl (pushedSt ⟨st.stack, sp0⟩ o) :=
    fun o => vmPush_ok ⟨st.stack, sp0⟩ o hsp2
  unfold executeComparison
  rw [show vmPop st = some (st.stack (sp0 + 1), ⟨st.stack, sp0 + 1⟩) from by
    unfold vmPop; rw [hsp]]
  simp only [hl, hr]
  rw [show vmPop ⟨st.stack, sp0 + 1⟩ = some (st.stack sp0, ⟨st.stack, sp0⟩) from rfl]
  simp only [hl]
  rw [if_neg (by simp [Obj.typeString, INTEGER_OBJ, BOOLEAN_OBJ])]
  rcases hopn with rfl | rfl
  · rw [if_pos rfl, if_pos rfl]
    simp only [hpush, goPtrEq]
  · rw [if_neg (by decide), if_pos rfl, if_neg (by decide)]
    simp only [hpush, goPtrEq]

lemma vmStep_binop (ins : List Nat) (c : List Obj) (f ip : Nat) (st : VMState)
    (opn sp0 : Nat) (lv rv : Int) (res : (Option Obj) ⊕ String)
    (hop : ins.getD ip 0 = opn)
    (hmem : opn = OpAdd ∨ opn = OpSub ∨ opn = OpMul ∨ opn = OpDiv ∨ opn = OpMod)
    (hip : ip < ins.length) (hsp : st.sp = sp0 + 2) (hsp2 : sp0 < STACKSIZE)
    (hl : st.stack sp0 = some (Obj.integer lv)) (hr : st.stack (sp0 + 1) = some (Obj.integer rv))
    (hexec : executeBinaryIntegerOp opn (Obj.integer lv) (Obj.integer rv) = res) :
    vmLoop ins c (f + 1) ip st =
      (match res with
      | .inl (some v) => vmLoop ins c f (ip + 1) (pushedSt ⟨st.stack, sp0⟩ (some v))
      | .inl none => .panicked
      | .inr msg => .errored msg) := by
  rw [vmLoop_succ, if_pos hip]
  simp only [hop]
  have hbo := executeBinOp_int opn st sp0 lv rv hsp hsp2 hl hr
  rw [hexec] at hbo
  rcases res with v | msg
  case inl =>
    rcases v with _ | v <;>
      rcases hmem with rfl | rfl | rfl | rfl | rfl <;>
      rw [if_neg (by decide), if_pos (by decide), hbo]
  case inr =>
    rcases hmem with rfl | rfl | rfl | rfl | rfl <;>
      rw [if_neg (by decide), if_pos (by decide), hbo]

lemma vmStep_cmpInt (ins : List Nat) (c : List Obj) (f ip : Nat) (st : VMState)
    (opn sp0 : Nat) (lv rv : Int) (res : Obj ⊕ String)
    (hop : ins.getD ip 0 = opn)
    (hmem : opn = OpEqual ∨ opn = OpNotEqual ∨ opn = OpGreaterThan)
    (hip : ip < ins.length) (hsp : st.sp = sp0 + 2) (hsp2 : sp0 < STACKSIZE)
    (hl : st.stack sp0 = some (Obj.integer lv)) (hr : st.stack (sp0 + 1) = some (Obj.integer rv))
    (hexec : executeIntegerComparison opn lv rv = res) :
    vmLoop ins c (f + 1) ip st =
      (match res with
      | .inl v => vmLoop ins c f (ip + 1) (pushedSt ⟨st.stack, sp0⟩ (some v))
      | .inr msg => .errored msg) := by
  rw [vmLoop_succ, if_pos hip]
  simp only [hop]
  have hbo := executeComparison_int opn st sp0 lv rv hsp hsp2 hl hr
  rw [hexec] at hbo
  rcases res with v | msg <;>
    rcases hmem with rfl | rfl | rfl <;>
    rw [if_neg (by decide), if_neg (by decide), if_neg (by decide), if_neg (by decide),
      if_neg (by decide), if_pos (by decide), hbo]

lemma vmStep_cmpBool (ins : List Nat) (c : List Obj) (f ip : Nat) (st : VMState)
    (opn sp0 : Nat) (lb rb : Bool)
    (hop : ins.getD ip 0 = opn)
    (hmem : opn = OpEqual ∨ opn = OpNotEqual)
    (hip : ip < ins.length) (hsp : st.sp = sp0 + 2) (hsp2 : sp0 < STACKSIZE)
    (hl : st.stack sp0 = some (Obj.boolean lb)) (hr : st.stack (sp0 + 1) = some (Obj.boolean rb)) :
    vmLoop ins c (f + 1) ip st =
      vmLoop ins c f (ip + 1) (pushedSt ⟨st.stack, sp0⟩
        (some (nativeBoolToBooleanObjectVM
          (if opn = OpEqual then rb == lb else !(rb == lb))))) := by
  rw [vmLoop_succ, if_pos hip]
  simp only [hop]
  have hbo := executeComparison_bool opn st sp0 lb rb hmem hsp hsp2 hl hr
  rcases hmem with rfl | rfl <;>
    rw [if_neg (by decide), if_neg (by decide), if_neg (by decide), if_neg (by decide),
      if_neg (by decide), if_pos (by decide), hbo]

/-! List-access helpers for positions inside concatenated code. -/

lemma getD_concat (A rest : List Nat) (k : Nat) :
    (A ++ rest).getD (A.length + k) 0 = rest.getD k 0 := by
  induction A with
  | nil => simp
  | cons a t ih =>
    rw [List.cons_append, List.length_cons,
      show t.length + 1 + k = (t.length + k) + 1 from by omega,
      List.getD_cons_succ, ih]

lemma drop_concat (A rest : List Nat) (k : Nat) :
    (A ++ rest).drop (A.length + k) = rest.drop k := by
  induction A with
  | nil => simp
  | cons a t ih =>
    rw [List.cons_append, List.length_cons,
      show t.length + 1 + k = (t.length + k) + 1 from by omega,
      List.drop_succ_cons, ih]

lemma get?_mid (c1 : List Obj) (x : Obj) (c2 : List Obj) :
    (c1 ++ x :: c2).get? c1.length = some x := by
  induction c1 with
  | nil => rfl
  | cons a t ih => simpa using ih

lemma one_le_maxStack (e : Expr) : 1 ≤ maxStack e := by
  cases e
  case infixExpression op l r =>
    rw [maxStack_infixStep]
    split <;> exact le_trans (by omega) (le_max_right _ _)
  all_goals exact Nat.le.refl

lemma makeIns_constant (base : Nat) :
    makeIns OpConstant [base] = [OpConstant, base / 256 % 256, base % 256] := rfl


lemma codeOf_arith (op : String) (l r : Expr) (base : Nat) (hne : ¬ op = "<") :
    codeOf (.infixExpression op l r) base =
      codeOf l base ++ codeOf r (base + (constsOf l).length) ++ opTail op := by
  rw [codeOf_infixStep, if_neg hne]
  rfl

lemma codeOf_lt (l r : Expr) (base : Nat) :
    codeOf (.infixExpression "<" l r) base =
      codeOf r base ++ codeOf l (base + (constsOf r).length) ++ makeIns OpGreaterThan [] := by
  rw [codeOf_infixStep, if_pos rfl]

/-- Bridge from the fragment's integer arithmetic denotation to the VM's
`executeBinaryIntegerOp` on the opcode `codeOf` emits. -/
lemma arith_byte_exec (op : String)
    (hop : op = "+" ∨ op = "-" ∨ op = "*" ∨ op = "/" ∨ op = "%") (lv rv : Int) :
    ∃ opb, opTail op = [opb] ∧
      (opb = OpAdd ∨ opb = OpSub ∨ opb = OpMul ∨ opb = OpDiv ∨ opb = OpMod) ∧
      executeBinaryIntegerOp opb (.integer lv) (.integer rv) =
        (match fragOpInt op lv rv with
         | some (.VInt v) => .inl (some (.integer v))
         | some (.VBool b) => .inl (some (nativeBoolToBooleanObjectVM b))
         | none => .inl none) := by
  rcases hop with rfl | rfl | rfl | rfl | rfl
  · exact ⟨OpAdd, rfl, by decide, by simp [executeBinaryIntegerOp, fragOpInt, OpAdd, OpSub, OpMul, OpDiv, OpMod]⟩
  · exact ⟨OpSub, rfl, by decide, by simp [executeBinaryIntegerOp, fragOpInt, OpAdd, OpSub, OpMul, OpDiv, OpMod]⟩
  · exact ⟨OpMul, rfl, by decide, by simp [executeBinaryIntegerOp, fragOpInt, OpAdd, OpSub, OpMul, OpDiv, OpMod]⟩
  · exact ⟨OpDiv, rfl, by decide, by
      by_cases h0 : rv = 0 <;>
        simp [executeBinaryIntegerOp, fragOpInt, OpAdd, OpSub, OpMul, OpDiv, OpMod, h0]⟩
  · exact ⟨OpMod, rfl, by decide, by
      by_cases h0 : rv = 0 <;>
        simp [executeBinaryIntegerOp, fragOpInt, OpAdd, OpSub, OpMul, OpDiv, OpMod, h0]⟩

/-- Bridge from the fragment's non-`<` integer comparisons to the VM's
`executeIntegerComparison` on the opcode `codeOf` emits. -/
lemma cmp_byte_exec (op : String)
    (hop : op = ">" ∨ op = "==" ∨ op = "!=") (lv rv : Int) :
    ∃ opb b, opTail op = [opb] ∧
      (opb = OpEqual ∨ opb = OpNotEqual ∨ opb = OpGreaterThan) ∧
      fragOpInt op lv rv = some (.VBool b) ∧
      executeIntegerComparison opb lv rv = .inl (nativeBoolToBooleanObjectVM b) := by
  rcases hop with rfl | rfl | rfl
  · exact ⟨OpGreaterThan, decide (lv > rv), rfl, by decide, by
      simp [fragOpInt], by
      simp [executeIntegerComparison, OpEqual, OpNotEqual, OpGreaterThan,
        nativeBoolToBooleanObjectVM]⟩
  · exact ⟨OpEqual, decide (lv = rv), rfl, by decide, by
      simp [fragOpInt], by
      simp [executeIntegerComparison, OpEqual, nativeBoolToBooleanObjectVM]⟩
  · exact ⟨OpNotEqual, decide (lv ≠ rv), rfl, by decide, by
      simp [fragOpInt], by
      simp [executeIntegerComparison, OpEqual, OpNotEqual, nativeBoolToBooleanObjectVM]⟩

/-- The `<` comparison after the compiler's operand swap: `OpGreaterThan`
on the swapped operands computes `lv < rv`. -/
lemma lt_byte_exec (lv rv : Int) :
    fragOpInt "<" lv rv = some (.VBool (decide (lv < rv))) ∧
    executeIntegerComparison OpGreaterThan rv lv =
      .inl (nativeBoolToBooleanObjectVM (decide (lv < rv))) := by
  constructor
  · simp [fragOpInt]
  · simp [executeIntegerComparison, OpEqual, OpNotEqual, OpGreaterThan,
      nativeBoolToBooleanObjectVM]

lemma getD_at_len (A : List Nat) (x : Nat) (B : List Nat) :
    (A ++ (x :: B)).getD A.length 0 = x := by
  have h := getD_concat A (x :: B) 0
  simpa using h

lemma nativeVM_eq_fragObj (b : Bool) :
    nativeBoolToBooleanObjectVM b = fragObj (.VBool b) := by
  cases b <;> rfl

lemma fragOpInt_arith_shape (op : String)
    (hop : op = "+" ∨ op = "-" ∨ op = "*" ∨ op = "/" ∨ op = "%") (lv rv : Int) :
    fragOpInt op lv rv = none ∨ ∃ v, fragOpInt op lv rv = some (.VInt v) := by
  rcases hop with rfl | rfl | rfl | rfl | rfl
  · exact Or.inr ⟨wrap64 (lv + rv), by simp [fragOpInt]⟩
  · exact Or.inr ⟨wrap64 (lv - rv), by simp [fragOpInt]⟩
  · exact Or.inr ⟨wrap64 (lv * rv), by simp [fragOpInt]⟩
  · by_cases h0 : rv = 0
    · exact Or.inl (by simp [fragOpInt, h0])
    · exact Or.inr ⟨wrap64 (Int.tdiv lv rv), by simp [fragOpInt, h0]⟩
  · by_cases h0 : rv = 0
    · exact Or.inl (by simp [fragOpInt, h0])
    · exact Or.inr ⟨wrap64 (Int.tmod lv rv), by simp [fragOpInt, h0]⟩

/-- Bridge from the fragment's boolean equality denotation to the VM's
pointer comparison on the swapped pop order. -/
lemma beq_byte_exec (op : String) (hop : op = "==" ∨ op = "!=") (lb rb : Bool) :
    ∃ opb b, opTail op = [opb] ∧ (opb = OpEqual ∨ opb = OpNotEqual) ∧
      fragOpBool op lb rb = some (.VBool b) ∧
      nativeBoolToBooleanObjectVM (if opb = OpEqual then rb == lb else !(rb == lb)) =
        .boolean b := by
  rcases hop with rfl | rfl
  · exact ⟨OpEqual, lb == rb, rfl, by decide, by simp [fragOpBool], by
      rw [if_pos rfl]; cases lb <;> cases rb <;> rfl⟩
  · exact ⟨OpNotEqual, !(lb == rb), rfl, by decide, by simp [fragOpBool], by
      rw [if_neg (by decide)]; cases lb <;> cases rb <;> rfl⟩


lemma vmExec_intLit (v : Int) (pre suffix : List Nat) (cpre csuf : List Obj)
    (f : Nat) (st : VMState)
    (hstack : st.sp + maxStack (.integerLiteral v) ≤ STACKSIZE)
    (hconsts : cpre.length + (constsOf (.integerLiteral v)).length ≤ 65536) :
    FragVMGoal (.integerLiteral v) pre suffix cpre csuf f st := by
  have hms : maxStack (Expr.integerLiteral v) = 1 := rfl
  rw [hms] at hstack
  have hbase : cpre.length < 65536 := by
    have h1 : (constsOf (Expr.integerLiteral v)).length = 1 := rfl
    omega
  simp only [FragVMGoal, denoteFrag_intLit]
  have hcode : codeOf (Expr.integerLiteral v) cpre.length =
      [OpConstant, cpre.length / 256 % 256, cpre.length % 256] := by
    rw [codeOf_intLit, makeIns_constant]
  have hfull : pre ++ codeOf (Expr.integerLiteral v) cpre.length ++ suffix
      = pre ++ (OpConstant :: cpre.length / 256 % 256 :: cpre.length % 256 :: suffix) := by
    rw [hcode]; simp
  have hfullC : cpre ++ constsOf (Expr.integerLiteral v) ++ csuf
      = cpre ++ (Obj.integer v :: csuf) := by
    rw [constsOf_intLit]; simp
  rw [hfull, hfullC]
  have hop : (pre ++ (OpConstant :: cpre.length / 256 % 256 :: cpre.length % 256 :: suffix)).getD
      pre.length 0 = OpConstant := getD_at_len pre OpConstant _
  have hip : pre.length <
      (pre ++ (OpConstant :: cpre.length / 256 % 256 :: cpre.length % 256 :: suffix)).length := by
    simp only [List.length_append, List.length_cons]
    omega
  have hrd : readUint16 ((pre ++ (OpConstant :: cpre.length / 256 % 256 ::
      cpre.length % 256 :: suffix)).drop (pre.length + 1)) = some cpre.length := by
    rw [drop_concat]
    show some (cpre.length / 256 % 256 * 256 + cpre.length % 256) = some cpre.length
    congr 1
    omega
  have hconst : (cpre ++ (Obj.integer v :: csuf)).get? cpre.length = some (Obj.integer v) :=
    get?_mid cpre (Obj.integer v) csuf
  have hstep := vmStep_constant _ _ f pre.length st cpre.length (Obj.integer v)
    hop hip hrd hconst (by omega)
  refine ⟨fun i => if i = st.sp then some (Obj.integer v) else st.stack i, ?_, ?_, ?_⟩
  · exact hstep
  · intro i hi
    exact if_neg (by omega)
  · simp [fragObj]

lemma vmExec_boolLit (b : Bool) (pre suffix : List Nat) (cpre csuf : List Obj)
    (f : Nat) (st : VMState)
    (hstack : st.sp + maxStack (.booleanLiteral b) ≤ STACKSIZE)
    (hconsts : cpre.length + (constsOf (.booleanLiteral b)).length ≤ 65536) :
    FragVMGoal (.booleanLiteral b) pre suffix cpre csuf f st := by
  have hms : maxStack (Expr.booleanLiteral b) = 1 := rfl
  rw [hms] at hstack
  simp only [FragVMGoal, denoteFrag_boolLit]
  cases b
  case false =>
    have hfull : pre ++ codeOf (Expr.booleanLiteral false) cpre.length ++ suffix
        = pre ++ (OpFalse :: suffix) := by
      rw [show codeOf (Expr.booleanLiteral false) cpre.length = [OpFalse] from rfl]
      simp
    rw [hfull]
    have hop : (pre ++ (OpFalse :: suffix)).getD pre.length 0 = OpFalse :=
      getD_at_len pre OpFalse suffix
    have hip : pre.length < (pre ++ (OpFalse :: suffix)).length := by
      simp only [List.length_append, List.length_cons]
      omega
    have hstep := vmStep_false _ (cpre ++ constsOf (Expr.booleanLiteral false) ++ csuf)
      f pre.length st hop hip (by omega)
    refine ⟨fun i => if i = st.sp then some vmFalse else st.stack i, ?_, ?_, ?_⟩
    · exact hstep
    · intro i hi
      exact if_neg (by omega)
    · simp [fragObj, vmFalse]
  case true =>
    have hfull : pre ++ codeOf (Expr.booleanLiteral true) cpre.length ++ suffix
        = pre ++ (OpTrue :: suffix) := by
      rw [show codeOf (Expr.booleanLiteral true) cpre.length = [OpTrue] from rfl]
      simp
    rw [hfull]
    have hop : (pre ++ (OpTrue :: suffix)).getD pre.length 0 = OpTrue :=
      getD_at_len pre OpTrue suffix
    have hip : pre.length < (pre ++ (OpTrue :: suffix)).length := by
      simp only [List.length_append, List.length_cons]
      omega
    have hstep := vmStep_true _ (cpre ++ constsOf (Expr.booleanLiteral true) ++ csuf)
      f pre.length st hop hip (by omega)
    refine ⟨fun i => if i = st.sp then some vmTrue else st.stack i, ?_, ?_, ?_⟩
    · exact hstep
    · intro i hi
      exact if_neg (by omega)
    · simp [fragObj, vmTrue]

lemma vmExec_arith (op : String) (l r : Expr)
    (hop : op = "+" ∨ op = "-" ∨ op = "*" ∨ op = "/" ∨ op = "%")
    (ihl : ∀ (pre suffix : List Nat) (cpre csuf : List Obj) (f : Nat) (st : VMState),
      st.sp + maxStack l ≤ STACKSIZE → cpre.length + (constsOf l).length ≤ 65536 →
      FragVMGoal l pre suffix cpre csuf f st)
    (ihr : ∀ (pre suffix : List Nat) (cpre csuf : List Obj) (f : Nat) (st : VMState),
      st.sp + maxStack r ≤ STACKSIZE → cpre.length + (constsOf r).length ≤ 65536 →
      FragVMGoal r pre suffix cpre csuf f st)
    (hl : FragP true l) (hr : FragP true r)
    (pre suffix : List Nat) (cpre csuf : List Obj) (f : Nat) (st : VMState)
    (hstack : st.sp + maxStack (.infixExpression op l r) ≤ STACKSIZE)
    (hconsts : cpre.length + (constsOf (.infixExpression op l r)).length ≤ 65536) :
    FragVMGoal (.infixExpression op l r) pre suffix cpre csuf f st := by
  have hne : ¬ op = "<" := by rcases hop with rfl | rfl | rfl | rfl | rfl <;> decide
  have hms := maxStack_infixStep op l r
  rw [if_neg hne] at hms
  rw [hms] at hstack
  have hcl : constsOf (Expr.infixExpression op l r) = constsOf l ++ constsOf r := by
    rw [constsOf_infixStep, if_neg hne]
  rw [hcl, List.length_append] at hconsts
  rcases denoteFrag_typed true l hl with hdl | ⟨lv, -, hdl⟩ | ⟨b, habs, -⟩
  · -- left operand panics
    simp only [FragVMGoal, denoteFrag_infixStep, hdl, fragOpApply_none_left]
    have E1h := ihl pre (codeOf r (cpre.length + (constsOf l).length) ++ opTail op ++ suffix)
      cpre (constsOf r ++ csuf) (f + 1 + instrNum r) st (by omega) (by omega)
    simp only [FragVMGoal, hdl] at E1h
    rw [codeOf_arith op l r cpre.length hne, hcl, instrNum_infixStep,
      show f + (instrNum l + instrNum r + 1) = f + 1 + instrNum r + instrNum l from by omega]
    simp only [List.append_assoc] at E1h ⊢
    exact E1h
  · rcases denoteFrag_typed true r hr with hdr | ⟨rv, -, hdr⟩ | ⟨b, habs, -⟩
    · -- right operand panics
      simp only [FragVMGoal, denoteFrag_infixStep, hdl, hdr, fragOpApply_none_right]
      have E1h := ihl pre (codeOf r (cpre.length + (constsOf l).length) ++ opTail op ++ suffix)
        cpre (constsOf r ++ csuf) (f + 1 + instrNum r) st (by omega) (by omega)
      simp only [FragVMGoal, hdl] at E1h
      obtain ⟨g1, E1eq, hg1lt, hg1top⟩ := E1h
      have E2h := ihr (pre ++ codeOf l cpre.length) (opTail op ++ suffix)
        (cpre ++ constsOf l) csuf (f + 1) ⟨g1, st.sp + 1⟩
        (by show st.sp + 1 + maxStack r ≤ STACKSIZE; omega)
        (by simp only [List.length_append]; omega)
      simp only [FragVMGoal, hdr] at E2h
      simp only [List.length_append, List.append_assoc] at E2h
      rw [codeOf_arith op l r cpre.length hne, hcl, instrNum_infixStep,
        show f + (instrNum l + instrNum r + 1) = f + 1 + instrNum r + instrNum l from by omega]
      simp only [List.append_assoc] at E1eq ⊢
      rw [E1eq]
      exact E2h
    · -- both operands evaluate
      obtain ⟨opb, htail, hbmem, hbexec⟩ := arith_byte_exec op hop lv rv
      have happ : fragOpApply op (some (FragVal.VInt lv)) (some (FragVal.VInt rv)) =
          fragOpInt op lv rv := rfl
      have E1h := ihl pre
        (codeOf r (cpre.length + (constsOf l).length) ++ (opb :: suffix))
        cpre (constsOf r ++ csuf) (f + 1 + instrNum r) st (by omega) (by omega)
      simp only [FragVMGoal, hdl] at E1h
      obtain ⟨g1, E1eq, hg1lt, hg1top⟩ := E1h
      have E2h := ihr (pre ++ codeOf l cpre.length) (opb :: suffix)
        (cpre ++ constsOf l) csuf (f + 1) ⟨g1, st.sp + 1⟩
        (by show st.sp + 1 + maxStack r ≤ STACKSIZE; omega)
        (by simp only [List.length_append]; omega)
      simp only [FragVMGoal, hdr] at E2h
      simp only [List.length_append, List.append_assoc] at E2h
      obtain ⟨g2, E2eq, hg2lt, hg2top⟩ := E2h
      have hg2l : g2 st.sp = some (Obj.integer lv) := by
        rw [hg2lt st.sp (by omega)]
        exact hg1top
      have hg2r : g2 (st.sp + 1) = some (Obj.integer rv) := hg2top
      -- the operator instruction
      have hshape : pre ++ (codeOf l cpre.length ++
            (codeOf r (cpre.length + (constsOf l).length) ++ (opb :: suffix)))
          = ((pre ++ codeOf l cpre.length) ++
              codeOf r (cpre.length + (constsOf l).length)) ++ (opb :: suffix) := by
        simp [List.append_assoc]
      have hop3 : (pre ++ (codeOf l cpre.length ++
            (codeOf r (cpre.length + (constsOf l).length) ++ (opb :: suffix)))).getD
          (pre.length + (codeOf l cpre.length).length +
            (codeOf r (cpre.length + (constsOf l).length)).length) 0 = opb := by
        rw [hshape,
          show pre.length + (codeOf l cpre.length).length +
              (codeOf r (cpre.length + (constsOf l).length)).length
            = ((pre ++ codeOf l cpre.length) ++
                codeOf r (cpre.length + (constsOf l).length)).length from by
            simp only [List.length_append]]
        exact getD_at_len _ opb suffix
      have hip3 : pre.length + (codeOf l cpre.length).length +
            (codeOf r (cpre.length + (constsOf l).length)).length <
          (pre ++ (codeOf l cpre.length ++
            (codeOf r (cpre.length + (constsOf l).length) ++ (opb :: suffix)))).length := by
        rw [hshape]
        simp only [List.length_append, List.length_cons]
        omega
      rcases fragOpInt_arith_shape op hop lv rv with hfi | ⟨v, hfi⟩
      · -- division by zero: the operator panics
        rw [hfi] at hbexec
        have hbexec2 : executeBinaryIntegerOp opb (Obj.integer lv) (Obj.integer rv) =
            .inl none := hbexec
        have E3 := vmStep_binop
          (pre ++ (codeOf l cpre.length ++
            (codeOf r (cpre.length + (constsOf l).length) ++ (opb :: suffix))))
          (cpre ++ (constsOf l ++ (constsOf r ++ csuf))) f
          (pre.length + (codeOf l cpre.length).length +
            (codeOf r (cpre.length + (constsOf l).length)).length)
          ⟨g2, st.sp + 1 + 1⟩ opb st.sp lv rv (.inl none)
          hop3 hbmem hip3 (by show st.sp + 1 + 1 = st.sp + 2; omega) (by omega) hg2l hg2r hbexec2
        have E3p : vmLoop
            (pre ++ (codeOf l cpre.length ++
              (codeOf r (cpre.length + (constsOf l).length) ++ (opb :: suffix))))
            (cpre ++ (constsOf l ++ (constsOf r ++ csuf))) (f + 1)
            (pre.length + (codeOf l cpre.length).length +
              (codeOf r (cpre.length + (constsOf l).length)).length)
            ⟨g2, st.sp + 1 + 1⟩ = .panicked := E3
        simp only [FragVMGoal, denoteFrag_infixStep, hdl, hdr, happ, hfi]
        rw [codeOf_arith op l r cpre.length hne, htail, hcl, instrNum_infixStep,
          show f + (instrNum l + instrNum r + 1) = f + 1 + instrNum r + instrNum l from by omega]
        simp only [List.append_assoc, List.singleton_append] at E1eq ⊢
        rw [E1eq, E2eq]
        exact E3p
      · -- the operator computes v
        rw [hfi] at hbexec
        have hbexec2 : executeBinaryIntegerOp opb (Obj.integer lv) (Obj.integer rv) =
            .inl (some (Obj.integer v)) := hbexec
        have E3 := vmStep_binop
          (pre ++ (codeOf l cpre.length ++
            (codeOf r (cpre.length + (constsOf l).length) ++ (opb :: suffix))))
          (cpre ++ (constsOf l ++ (constsOf r ++ csuf))) f
          (pre.length + (codeOf l cpre.length).length +
            (codeOf r (cpre.length + (constsOf l).length)).length)
          ⟨g2, st.sp + 1 + 1⟩ opb st.sp lv rv (.inl (some (Obj.integer v)))
          hop3 hbmem hip3 (by show st.sp + 1 + 1 = st.sp + 2; omega) (by omega) hg2l hg2r hbexec2
        have E3v : vmLoop
            (pre ++ (codeOf l cpre.length ++
              (codeOf r (cpre.length + (constsOf l).length) ++ (opb :: suffix))))
            (cpre ++ (constsOf l ++ (constsOf r ++ csuf))) (f + 1)
            (pre.length + (codeOf l cpre.length).length +
              (codeOf r (cpre.length + (constsOf l).length)).length)
            ⟨g2, st.sp + 1 + 1⟩
          = vmLoop
            (pre ++ (codeOf l cpre.length ++
              (codeOf r (cpre.length + (constsOf l).length) ++ (opb :: suffix))))
            (cpre ++ (constsOf l ++ (constsOf r ++ csuf))) f
            (pre.length + (codeOf l cpre.length).length +
              (codeOf r (cpre.length + (constsOf l).length)).length + 1)
            ⟨fun i => if i = st.sp then some (Obj.integer v) else g2 i, st.sp + 1⟩ := E3
        simp only [FragVMGoal, denoteFrag_infixStep, hdl, hdr, happ, hfi]
        rw [codeOf_arith op l r cpre.length hne, htail, hcl, instrNum_infixStep,
          show f + (instrNum l + instrNum r + 1) = f + 1 + instrNum r + instrNum l from by omega]
        simp only [List.append_assoc, List.singleton_append, List.length_append,
          List.length_cons, List.length_nil, Nat.zero_add] at E1eq ⊢
        rw [show pre.length + ((codeOf l cpre.length).length +
              ((codeOf r (cpre.length + (constsOf l).length)).length + 1))
            = pre.length + (codeOf l cpre.length).length +
              (codeOf r (cpre.length + (constsOf l).length)).length + 1 from by omega]
        refine ⟨fun i => if i = st.sp then some (Obj.integer v) else g2 i, ?_, ?_, ?_⟩
        · rw [E1eq, E2eq, E3v]
        · intro i hi
          show (if i = st.sp then some (Obj.integer v) else g2 i) = st.stack i
          rw [if_neg (by omega), hg2lt i (by omega), hg1lt i hi]
        · show (if st.sp = st.sp then some (Obj.integer v) else g2 st.sp) =
            some (fragObj (.VInt v))
          rw [if_pos rfl]
          rfl
    · exact absurd habs (by decide)
  · exact absurd habs (by decide)

lemma vmExec_cmp (op : String) (l r : Expr)
    (hop : op = ">" ∨ op = "==" ∨ op = "!=")
    (ihl : ∀ (pre suffix : List Nat) (cpre csuf : List Obj) (f : Nat) (st : VMState),
      st.sp + maxStack l ≤ STACKSIZE → cpre.length + (constsOf l).length ≤ 65536 →
      FragVMGoal l pre suffix cpre csuf f st)
    (ihr : ∀ (pre suffix : List Nat) (cpre csuf : List Obj) (f : Nat) (st : VMState),
      st.sp + maxStack r ≤ STACKSIZE → cpre.length + (constsOf r).length ≤ 65536 →
      FragVMGoal r pre suffix cpre csuf f st)
    (hl : FragP true l) (hr : FragP true r)
    (pre suffix : List Nat) (cpre csuf : List Obj) (f : Nat) (st : VMState)
    (hstack : st.sp + maxStack (.infixExpression op l r) ≤ STACKSIZE)
    (hconsts : cpre.length + (constsOf (.infixExpression op l r)).length ≤ 65536) :
    FragVMGoal (.infixExpression op l r) pre suffix cpre csuf f st := by
  have hne : ¬ op = "<" := by rcases hop with rfl | rfl | rfl <;> decide
  have hms := maxStack_infixStep op l r
  rw [if_neg hne] at hms
  rw [hms] at hstack
  have hcl : constsOf (Expr.infixExpression op l r) = constsOf l ++ constsOf r := by
    rw [constsOf_infixStep, if_neg hne]
  rw [hcl, List.length_append] at hconsts
  rcases denoteFrag_typed true l hl with hdl | ⟨lv, -, hdl⟩ | ⟨b, habs, -⟩
  · simp only [FragVMGoal, denoteFrag_infixStep, hdl, fragOpApply_none_left]
    have E1h := ihl pre (codeOf r (cpre.length + (constsOf l).length) ++ opTail op ++ suffix)
      cpre (constsOf r ++ csuf) (f + 1 + instrNum r) st (by omega) (by omega)
    simp only [FragVMGoal, hdl] at E1h
    rw [codeOf_arith op l r cpre.length hne, hcl, instrNum_infixStep,
      show f + (instrNum l + instrNum r + 1) = f + 1 + instrNum r + instrNum l from by omega]
    simp only [List.append_assoc] at E1h ⊢
    exact E1h
  · rcases denoteFrag_typed true r hr with hdr | ⟨rv, -, hdr⟩ | ⟨b, habs, -⟩
    · simp only [FragVMGoal, denoteFrag_infixStep, hdl, hdr, fragOpApply_none_right]
      have E1h := ihl pre (codeOf r (cpre.length + (constsOf l).length) ++ opTail op ++ suffix)
        cpre (constsOf r ++ csuf) (f + 1 + instrNum r) st (by omega) (by omega)
      simp only [FragVMGoal, hdl] at E1h
      obtain ⟨g1, E1eq, hg1lt, hg1top⟩ := E1h
      have E2h := ihr (pre ++ codeOf l cpre.length) (opTail op ++ suffix)
        (cpre ++ constsOf l) csuf (f + 1) ⟨g1, st.sp + 1⟩
        (by show st.sp + 1 + maxStack r ≤ STACKSIZE; omega)
        (by simp only [List.length_append]; omega)
      simp only [FragVMGoal, hdr] at E2h
      simp only [List.length_append, List.append_assoc] at E2h
      rw [codeOf_arith op l r cpre.length hne, hcl, instrNum_infixStep,
        show f + (instrNum l + instrNum r + 1) = f + 1 + instrNum r + instrNum l from by omega]
      simp only [List.append_assoc] at E1eq ⊢
      rw [E1eq]
      exact E2h
    · obtain ⟨opb, b, htail, hbmem, hfi, hexec⟩ := cmp_byte_exec op hop lv rv
      have happ : fragOpApply op (some (FragVal.VInt lv)) (some (FragVal.VInt rv)) =
          fragOpInt op lv rv := rfl
      have E1h := ihl pre
        (codeOf r (cpre.length + (constsOf l).length) ++ (opb :: suffix))
        cpre (constsOf r ++ csuf) (f + 1 + instrNum r) st (by omega) (by omega)
      simp only [FragVMGoal, hdl] at E1h
      obtain ⟨g1, E1eq, hg1lt, hg1top⟩ := E1h
      have E2h := ihr (pre ++ codeOf l cpre.length) (opb :: suffix)
        (cpre ++ constsOf l) csuf (f + 1) ⟨g1, st.sp + 1⟩
        (by show st.sp + 1 + maxStack r ≤ STACKSIZE; omega)
        (by simp only [List.length_append]; omega)
      simp only [FragVMGoal, hdr] at E2h
      simp only [List.length_append, List.append_assoc] at E2h
      obtain ⟨g2, E2eq, hg2lt, hg2top⟩ := E2h
      have hg2l : g2 st.sp = some (Obj.integer lv) := by
        rw [hg2lt st.sp (by omega)]
        exact hg1top
      have hg2r : g2 (st.sp + 1) = some (Obj.integer rv) := hg2top
      have hshape : pre ++ (codeOf l cpre.length ++
            (codeOf r (cpre.length + (constsOf l).length) ++ (opb :: suffix)))
          = ((pre ++ codeOf l cpre.length) ++
              codeOf r (cpre.length + (constsOf l).length)) ++ (opb :: suffix) := by
        simp [List.append_assoc]
      have hop3 : (pre ++ (codeOf l cpre.length ++
            (codeOf r (cpre.length + (constsOf l).length) ++ (opb :: suffix)))).getD
          (pre.length + (codeOf l cpre.length).length +
            (codeOf r (cpre.length + (constsOf l).length)).length) 0 = opb := by
        rw [hshape,
          show pre.length + (codeOf l cpre.length).length +
              (codeOf r (cpre.length + (constsOf l).length)).length
            = ((pre ++ codeOf l cpre.length) ++
                codeOf r (cpre.length + (constsOf l).length)).length from by
            simp only [List.length_append]]
        exact getD_at_len _ opb suffix
      have hip3 : pre.length + (codeOf l cpre.length).length +
            (codeOf r (cpre.length + (constsOf l).length)).length <
          (pre ++ (codeOf l cpre.length ++
            (codeOf r (cpre.length + (constsOf l).length) ++ (opb :: suffix)))).length := by
        rw [hshape]
        simp only [List.length_append, List.length_cons]
        omega
      have E3 := vmStep_cmpInt
        (pre ++ (codeOf l cpre.length ++
          (codeOf r (cpre.length + (constsOf l).length) ++ (opb :: suffix))))
        (cpre ++ (constsOf l ++ (constsOf r ++ csuf))) f
        (pre.length + (codeOf l cpre.length).length +
          (codeOf r (cpre.length + (constsOf l).length)).length)
        ⟨g2, st.sp + 1 + 1⟩ opb st.sp lv rv (.inl (nativeBoolToBooleanObjectVM b))
        hop3 hbmem hip3 (by show st.sp + 1 + 1 = st.sp + 2; omega) (by omega) hg2l hg2r hexec
      have E3v : vmLoop
          (pre ++ (codeOf l cpre.length ++
            (codeOf r (cpre.length + (constsOf l).length) ++ (opb :: suffix))))
          (cpre ++ (constsOf l ++ (constsOf r ++ csuf))) (f + 1)
          (pre.length + (codeOf l cpre.length).length +
            (codeOf r (cpre.length + (constsOf l).length)).length)
          ⟨g2, st.sp + 1 + 1⟩
        = vmLoop
          (pre ++ (codeOf l cpre.length ++
            (codeOf r (cpre.length + (constsOf l).length) ++ (opb :: suffix))))
          (cpre ++ (constsOf l ++ (constsOf r ++ csuf))) f
          (pre.length + (codeOf l cpre.length).length +
            (codeOf r (cpre.length + (constsOf l).length)).length + 1)
          ⟨fun i => if i = st.sp then some (nativeBoolToBooleanObjectVM b) else g2 i,
            st.sp + 1⟩ := E3
      simp only [FragVMGoal, denoteFrag_infixStep, hdl, hdr, happ, hfi]
      rw [codeOf_arith op l r cpre.length hne, htail, hcl, instrNum_infixStep,
        show f + (instrNum l + instrNum r + 1) = f + 1 + instrNum r + instrNum l from by omega]
      simp only [List.append_assoc, List.singleton_append, List.length_append,
        List.length_cons, List.length_nil, Nat.zero_add] at E1eq ⊢
      rw [show pre.length + ((codeOf l cpre.length).length +
            ((codeOf r (cpre.length + (constsOf l).length)).length + 1))
          = pre.length + (codeOf l cpre.length).length +
            (codeOf r (cpre.length + (constsOf l).length)).length + 1 from by omega]
      refine ⟨fun i => if i = st.sp then some (nativeBoolToBooleanObjectVM b) else g2 i,
        ?_, ?_, ?_⟩
      · rw [E1eq, E2eq, E3v]
      · intro i hi
        show (if i = st.sp then some (nativeBoolToBooleanObjectVM b) else g2 i) = st.stack i
        rw [if_neg (by omega), hg2lt i (by omega), hg1lt i hi]
      · show (if st.sp = st.sp then some (nativeBoolToBooleanObjectVM b) else g2 st.sp) =
          some (fragObj (.VBool b))
        rw [if_pos rfl, nativeVM_eq_fragObj]
    · exact absurd habs (by decide)
  · exact absurd habs (by decide)

lemma vmExec_lt (l r : Expr)
    (ihl : ∀ (pre suffix : List Nat) (cpre csuf : List Obj) (f : Nat) (st : VMState),
      st.sp + maxStack l ≤ STACKSIZE → cpre.length + (constsOf l).length ≤ 65536 →
      FragVMGoal l pre suffix cpre csuf f st)
    (ihr : ∀ (pre suffix : List Nat) (cpre csuf : List Obj) (f : Nat) (st : VMState),
      st.sp + maxStack r ≤ STACKSIZE → cpre.length + (constsOf r).length ≤ 65536 →
      FragVMGoal r pre suffix cpre csuf f st)
    (hl : FragP true l) (hr : FragP true r)
    (pre suffix : List Nat) (cpre csuf : List Obj) (f : Nat) (st : VMState)
    (hstack : st.sp + maxStack (.infixExpression "<" l r) ≤ STACKSIZE)
    (hconsts : cpre.length + (constsOf (.infixExpression "<" l r)).length ≤ 65536) :
    FragVMGoal (.infixExpression "<" l r) pre suffix cpre csuf f st := by
  have hms := maxStack_infixStep "<" l r
  rw [if_pos rfl] at hms
  rw [hms] at hstack
  have hcl : constsOf (Expr.infixExpression "<" l r) = constsOf r ++ constsOf l := by
    rw [constsOf_infixStep, if_pos rfl]
  rw [hcl, List.length_append] at hconsts
  have htail : makeIns OpGreaterThan [] = [OpGreaterThan] := rfl
  rcases denoteFrag_typed true r hr with hdr | ⟨rv, -, hdr⟩ | ⟨b, habs, -⟩
  · -- right operand (compiled first) panics
    simp only [FragVMGoal, denoteFrag_infixStep, hdr, fragOpApply_none_right]
    have E1h := ihr pre
      (codeOf l (cpre.length + (constsOf r).length) ++ makeIns OpGreaterThan [] ++ suffix)
      cpre (constsOf l ++ csuf) (f + 1 + instrNum l) st (by omega) (by omega)
    simp only [FragVMGoal, hdr] at E1h
    rw [codeOf_lt l r cpre.length, hcl, instrNum_infixStep,
      show f + (instrNum l + instrNum r + 1) = f + 1 + instrNum l + instrNum r from by omega]
    simp only [List.append_assoc] at E1h ⊢
    exact E1h
  · rcases denoteFrag_typed true l hl with hdl | ⟨lv, -, hdl⟩ | ⟨b, habs, -⟩
    · -- left operand (compiled second) panics
      simp only [FragVMGoal, denoteFrag_infixStep, hdl, fragOpApply_none_left]
      have E1h := ihr pre
        (codeOf l (cpre.length + (constsOf r).length) ++ makeIns OpGreaterThan [] ++ suffix)
        cpre (constsOf l ++ csuf) (f + 1 + instrNum l) st (by omega) (by omega)
      simp only [FragVMGoal, hdr] at E1h
      obtain ⟨g1, E1eq, hg1lt, hg1top⟩ := E1h
      have E2h := ihl (pre ++ codeOf r cpre.length) (makeIns OpGreaterThan [] ++ suffix)
        (cpre ++ constsOf r) csuf (f + 1) ⟨g1, st.sp + 1⟩
        (by show st.sp + 1 + maxStack l ≤ STACKSIZE; omega)
        (by simp only [List.length_append]; omega)
      simp only [FragVMGoal, hdl] at E2h
      simp only [List.length_append, List.append_assoc] at E2h
      rw [codeOf_lt l r cpre.length, hcl, instrNum_infixStep,
        show f + (instrNum l + instrNum r + 1) = f + 1 + instrNum l + instrNum r from by omega]
      simp only [List.append_assoc] at E1eq ⊢
      rw [E1eq]
      exact E2h
    · -- both operands evaluate
      have happ : fragOpApply "<" (some (FragVal.VInt lv)) (some (FragVal.VInt rv)) =
          fragOpInt "<" lv rv := rfl
      have hfi := (lt_byte_exec lv rv).1
      have hexec := (lt_byte_exec lv rv).2
      have E1h := ihr pre
        (codeOf l (cpre.length + (constsOf r).length) ++ (OpGreaterThan :: suffix))
        cpre (constsOf l ++ csuf) (f + 1 + instrNum l) st (by omega) (by omega)
      simp only [FragVMGoal, hdr] at E1h
      obtain ⟨g1, E1eq, hg1lt, hg1top⟩ := E1h
      have E2h := ihl (pre ++ codeOf r cpre.length) (OpGreaterThan :: suffix)
        (cpre ++ constsOf r) csuf (f + 1) ⟨g1, st.sp + 1⟩
        (by show st.sp + 1 + maxStack l ≤ STACKSIZE; omega)
        (by simp only [List.length_append]; omega)
      simp only [FragVMGoal, hdl] at E2h
      simp only [List.length_append, List.append_assoc] at E2h
      obtain ⟨g2, E2eq, hg2lt, hg2top⟩ := E2h
      have hg2r : g2 st.sp = some (Obj.integer rv) := by
        rw [hg2lt st.sp (by omega)]
        exact hg1top
      have hg2l : g2 (st.sp + 1) = some (Obj.integer lv) := hg2top
      have hshape : pre ++ (codeOf r cpre.length ++
            (codeOf l (cpre.length + (constsOf r).length) ++ (OpGreaterThan :: suffix)))
          = ((pre ++ codeOf r cpre.length) ++
              codeOf l (cpre.length + (constsOf r).length)) ++ (OpGreaterThan :: suffix) := by
        simp [List.append_assoc]
      have hop3 : (pre ++ (codeOf r cpre.length ++
            (codeOf l (cpre.length + (constsOf r).length) ++ (OpGreaterThan :: suffix)))).getD
          (pre.length + (codeOf r cpre.length).length +
            (codeOf l (cpre.length + (constsOf r).length)).length) 0 = OpGreaterThan := by
        rw [hshape,
          show pre.length + (codeOf r cpre.length).length +
              (codeOf l (cpre.length + (constsOf r).length)).length
            = ((pre ++ codeOf r cpre.length) ++
                codeOf l (cpre.length + (constsOf r).length)).length from by
            simp only [List.length_append]]
        exact getD_at_len _ OpGreaterThan suffix
      have hip3 : pre.length + (codeOf r cpre.length).length +
            (codeOf l (cpre.length + (constsOf r).length)).length <
          (pre ++ (codeOf r cpre.length ++
            (codeOf l (cpre.length + (constsOf r).length) ++ (OpGreaterThan :: suffix)))).length := by
        rw [hshape]
        simp only [List.length_append, List.length_cons]
        omega
      have E3 := vmStep_cmpInt
        (pre ++ (codeOf r cpre.length ++
          (codeOf l (cpre.length + (constsOf r).length) ++ (OpGreaterThan :: suffix))))
        (cpre ++ (constsOf r ++ (constsOf l ++ csuf))) f
        (pre.length + (codeOf r cpre.length).length +
          (codeOf l (cpre.length + (constsOf r).length)).length)
        ⟨g2, st.sp + 1 + 1⟩ OpGreaterThan st.sp rv lv
        (.inl (nativeBoolToBooleanObjectVM (decide (lv < rv))))
        hop3 (by decide) hip3 (by show st.sp + 1 + 1 = st.sp + 2; omega) (by omega)
        hg2r hg2l hexec
      have E3v : vmLoop
          (pre ++ (codeOf r cpre.length ++
            (codeOf l (cpre.length + (constsOf r).length) ++ (OpGreaterThan :: suffix))))
          (cpre ++ (constsOf r ++ (constsOf l ++ csuf))) (f + 1)
          (pre.length + (codeOf r cpre.length).length +
            (codeOf l (cpre.length + (constsOf r).length)).length)
          ⟨g2, st.sp + 1 + 1⟩
        = vmLoop
          (pre ++ (codeOf r cpre.length ++
            (codeOf l (cpre.length + (constsOf r).length) ++ (OpGreaterThan :: suffix))))
          (cpre ++ (constsOf r ++ (constsOf l ++ csuf))) f
          (pre.length + (codeOf r cpre.length).length +
            (codeOf l (cpre.length + (constsOf r).length)).length + 1)
          ⟨fun i => if i = st.sp then
              some (nativeBoolToBooleanObjectVM (decide (lv < rv))) else g2 i,
            st.sp + 1⟩ := E3
      simp only [FragVMGoal, denoteFrag_infixStep, hdl, hdr, happ, hfi]
      rw [codeOf_lt l r cpre.length, htail, hcl, instrNum_infixStep,
        show f + (instrNum l + instrNum r + 1) = f + 1 + instrNum l + instrNum r from by omega]
      simp only [List.append_assoc, List.singleton_append, List.length_append,
        List.length_cons, List.length_nil, Nat.zero_add] at E1eq ⊢
      rw [show pre.length + ((codeOf r cpre.length).length +
            ((codeOf l (cpre.length + (constsOf r).length)).length + 1))
          = pre.length + (codeOf r cpre.length).length +
            (codeOf l (cpre.length + (constsOf r).length)).length + 1 from by omega]
      refine ⟨fun i => if i = st.sp then
          some (nativeBoolToBooleanObjectVM (decide (lv < rv))) else g2 i, ?_, ?_, ?_⟩
      · rw [E1eq, E2eq, E3v]
      · intro i hi
        show (if i = st.sp then
            some (nativeBoolToBooleanObjectVM (decide (lv < rv))) else g2 i) = st.stack i
        rw [if_neg (by omega), hg2lt i (by omega), hg1lt i hi]
      · show (if st.sp = st.sp then
            some (nativeBoolToBooleanObjectVM (decide (lv < rv))) else g2 st.sp) =
          some (fragObj (.VBool (decide (lv < rv))))
        rw [if_pos rfl, nativeVM_eq_fragObj]
    · exact absurd habs (by decide)
  · exact absurd habs (by decide)

lemma vmExec_beq (op : String) (l r : Expr)
    (hop : op = "==" ∨ op = "!=")
    (ihl : ∀ (pre suffix : List Nat) (cpre csuf : List Obj) (f : Nat) (st : VMState),
      st.sp + maxStack l ≤ STACKSIZE → cpre.length + (constsOf l).length ≤ 65536 →
      FragVMGoal l pre suffix cpre csuf f st)
    (ihr : ∀ (pre suffix : List Nat) (cpre csuf : List Obj) (f : Nat) (st : VMState),
      st.sp + maxStack r ≤ STACKSIZE → cpre.length + (constsOf r).length ≤ 65536 →
      FragVMGoal r pre suffix cpre csuf f st)
    (hl : FragP false l) (hr : FragP false r)
    (pre suffix : List Nat) (cpre csuf : List Obj) (f : Nat) (st : VMState)
    (hstack : st.sp + maxStack (.infixExpression op l r) ≤ STACKSIZE)
    (hconsts : cpre.length + (constsOf (.infixExpression op l r)).length ≤ 65536) :
    FragVMGoal (.infixExpression op l r) pre suffix cpre csuf f st := by
  have hne : ¬ op = "<" := by rcases hop with rfl | rfl <;> decide
  have hms := maxStack_infixStep op l r
  rw [if_neg hne] at hms
  rw [hms] at hstack
  have hcl : constsOf (Expr.infixExpression op l r) = constsOf l ++ constsOf r := by
    rw [constsOf_infixStep, if_neg hne]
  rw [hcl, List.length_append] at hconsts
  rcases denoteFrag_typed false l hl with hdl | ⟨b, habs, -⟩ | ⟨lb, -, hdl⟩
  · simp only [FragVMGoal, denoteFrag_infixStep, hdl, fragOpApply_none_left]
    have E1h := ihl pre (codeOf r (cpre.length + (constsOf l).length) ++ opTail op ++ suffix)
      cpre (constsOf r ++ csuf) (f + 1 + instrNum r) st (by omega) (by omega)
    simp only [FragVMGoal, hdl] at E1h
    rw [codeOf_arith op l r cpre.length hne, hcl, instrNum_infixStep,
      show f + (instrNum l + instrNum r + 1) = f + 1 + instrNum r + instrNum l from by omega]
    simp only [List.append_assoc] at E1h ⊢
    exact E1h
  · exact absurd habs (by decide)
  · rcases denoteFrag_typed false r hr with hdr | ⟨b, habs, -⟩ | ⟨rb, -, hdr⟩
    · simp only [FragVMGoal, denoteFrag_infixStep, hdl, hdr, fragOpApply_none_right]
      have E1h := ihl pre (codeOf r (cpre.length + (constsOf l).length) ++ opTail op ++ suffix)
        cpre (constsOf r ++ csuf) (f + 1 + instrNum r) st (by omega) (by omega)
      simp only [FragVMGoal, hdl] at E1h
      obtain ⟨g1, E1eq, hg1lt, hg1top⟩ := E1h
      have E2h := ihr (pre ++ codeOf l cpre.length) (opTail op ++ suffix)
        (cpre ++ constsOf l) csuf (f + 1) ⟨g1, st.sp + 1⟩
        (by show st.sp + 1 + maxStack r ≤ STACKSIZE; omega)
        (by simp only [List.length_append]; omega)
      simp only [FragVMGoal, hdr] at E2h
      simp only [List.length_append, List.append_assoc] at E2h
      rw [codeOf_arith op l r cpre.length hne, hcl, instrNum_infixStep,
        show f + (instrNum l + instrNum r + 1) = f + 1 + instrNum r + instrNum l from by omega]
      simp only [List.append_assoc] at E1eq ⊢
      rw [E1eq]
      exact E2h
    · exact absurd habs (by decide)
    · -- both operands evaluate to booleans
      obtain ⟨opb, b, htail, hbmem, hfi, hnat⟩ := beq_byte_exec op hop lb rb
      have happ : fragOpApply op (some (FragVal.VBool lb)) (some (FragVal.VBool rb)) =
          fragOpBool op lb rb := rfl
      have E1h := ihl pre
        (codeOf r (cpre.length + (constsOf l).length) ++ (opb :: suffix))
        cpre (constsOf r ++ csuf) (f + 1 + instrNum r) st (by omega) (by omega)
      simp only [FragVMGoal, hdl] at E1h
      obtain ⟨g1, E1eq, hg1lt, hg1top⟩ := E1h
      have E2h := ihr (pre ++ codeOf l cpre.length) (opb :: suffix)
        (cpre ++ constsOf l) csuf (f + 1) ⟨g1, st.sp + 1⟩
        (by show st.sp + 1 + maxStack r ≤ STACKSIZE; omega)
        (by simp only [List.length_append]; omega)
      simp only [FragVMGoal, hdr] at E2h
      simp only [List.length_append, List.append_assoc] at E2h
      obtain ⟨g2, E2eq, hg2lt, hg2top⟩ := E2h
      have hg2l : g2 st.sp = some (Obj.boolean lb) := by
        rw [hg2lt st.sp (by omega)]
        exact hg1top
      have hg2r : g2 (st.sp + 1) = some (Obj.boolean rb) := hg2top
      have hshape : pre ++ (codeOf l cpre.length ++
            (codeOf r (cpre.length + (constsOf l).length) ++ (opb :: suffix)))
          = ((pre ++ codeOf l cpre.length) ++
              codeOf r (cpre.length + (constsOf l).length)) ++ (opb :: suffix) := by
        simp [List.append_assoc]
      have hop3 : (pre ++ (codeOf l cpre.length ++
            (codeOf r (cpre.length + (constsOf l).length) ++ (opb :: suffix)))).getD
          (pre.length + (codeOf l cpre.length).length +
            (codeOf r (cpre.length + (constsOf l).length)).length) 0 = opb := by
        rw [hshape,
          show pre.length + (codeOf l cpre.length).length +
              (codeOf r (cpre.length + (constsOf l).length)).length
            = ((pre ++ codeOf l cpre.length) ++
                codeOf r (cpre.length + (constsOf l).length)).length from by
            simp only [List.length_append]]
        exact getD_at_len _ opb suffix
      have hip3 : pre.length + (codeOf l cpre.length).length +
            (codeOf r (cpre.length + (constsOf l).length)).length <
          (pre ++ (codeOf l cpre.length ++
            (codeOf r (cpre.length + (constsOf l).length) ++ (opb :: suffix)))).length := by
        rw [hshape]
        simp only [List.length_append, List.length_cons]
        omega
      have E3 := vmStep_cmpBool
        (pre ++ (codeOf l cpre.length ++
          (codeOf r (cpre.length + (constsOf l).length) ++ (opb :: suffix))))
        (cpre ++ (constsOf l ++ (constsOf r ++ csuf))) f
        (pre.length + (codeOf l cpre.length).length +
          (codeOf r (cpre.length + (constsOf l).length)).length)
        ⟨g2, st.sp + 1 + 1⟩ opb st.sp lb rb
        hop3 hbmem hip3 (by show st.sp + 1 + 1 = st.sp + 2; omega) (by omega) hg2l hg2r
      have E3v : vmLoop
          (pre ++ (codeOf l cpre.length ++
            (codeOf r (cpre.length + (constsOf l).length) ++ (opb :: suffix))))
          (cpre ++ (constsOf l ++ (constsOf r ++ csuf))) (f + 1)
          (pre.length + (codeOf l cpre.length).length +
            (codeOf r (cpre.length + (constsOf l).length)).length)
          ⟨g2, st.sp + 1 + 1⟩
        = vmLoop
          (pre ++ (codeOf l cpre.length ++
            (codeOf r (cpre.length + (constsOf l).length) ++ (opb :: suffix))))
          (cpre ++ (constsOf l ++ (constsOf r ++ csuf))) f
          (pre.length + (codeOf l cpre.length).length +
            (codeOf r (cpre.length + (constsOf l).length)).length + 1)
          ⟨fun i => if i = st.sp then
              some (nativeBoolToBooleanObjectVM
                (if opb = OpEqual then rb == lb else !(rb == lb))) else g2 i,
            st.sp + 1⟩ := E3
      simp only [FragVMGoal, denoteFrag_infixStep, hdl, hdr, happ, hfi]
      rw [codeOf_arith op l r cpre.length hne, htail, hcl, instrNum_infixStep,
        show f + (instrNum l + instrNum r + 1) = f + 1 + instrNum r + instrNum l from by omega]
      simp only [List.append_assoc, List.singleton_append, List.length_append,
        List.length_cons, List.length_nil, Nat.zero_add] at E1eq ⊢
      rw [show pre.length + ((codeOf l cpre.length).length +
            ((codeOf r (cpre.length + (constsOf l).length)).length + 1))
          = pre.length + (codeOf l cpre.length).length +
            (codeOf r (cpre.length + (constsOf l).length)).length + 1 from by omega]
      refine ⟨fun i => if i = st.sp then
          some (nativeBoolToBooleanObjectVM
            (if opb = OpEqual then rb == lb else !(rb == lb))) else g2 i, ?_, ?_, ?_⟩
      · rw [E1eq, E2eq, E3v]
      · intro i hi
        show (if i = st.sp then
            some (nativeBoolToBooleanObjectVM
              (if opb = OpEqual then rb == lb else !(rb == lb))) else g2 i) = st.stack i
        rw [if_neg (by omega), hg2lt i (by omega), hg1lt i hi]
      · show (if st.sp = st.sp then
            some (nativeBoolToBooleanObjectVM
              (if opb = OpEqual then rb == lb else !(rb == lb))) else g2 st.sp) =
          some (fragObj (.VBool b))
        rw [if_pos rfl, hnat]
        rfl

/-- Compiled fragment code executes correctly from any VM state with
enough stack room: the induction over the fragment grammar. -/
lemma vmExec_frag : ∀ (t : Bool) (e : Expr), FragP t e →
    ∀ (pre suffix : List Nat) (cpre csuf : List Obj) (f : Nat) (st : VMState),
      st.sp + maxStack e ≤ STACKSIZE → cpre.length + (constsOf e).length ≤ 65536 →
      FragVMGoal e pre suffix cpre csuf f st := by
  intro t e h
  induction h with
  | intLit v =>
    intro pre suffix cpre csuf f st h1 h2
    exact vmExec_intLit v pre suffix cpre csuf f st h1 h2
  | boolLit b =>
    intro pre suffix cpre csuf f st h1 h2
    exact vmExec_boolLit b pre suffix cpre csuf f st h1 h2
  | arith op l r hop hl hr ihl ihr =>
    intro pre suffix cpre csuf f st h1 h2
    exact vmExec_arith op l r hop ihl ihr hl hr pre suffix cpre csuf f st h1 h2
  | cmp op l r hop hl hr ihl ihr =>
    intro pre suffix cpre csuf f st h1 h2
    rcases hop with rfl | hop2
    · exact vmExec_lt l r ihl ihr hl hr pre suffix cpre csuf f st h1 h2
    · exact vmExec_cmp op l r hop2 ihl ihr hl hr pre suffix cpre csuf f st h1 h2
  | beq op l r hop hl hr ihl ihr =>
    intro pre suffix cpre csuf f st h1 h2
    exact vmExec_beq op l r hop ihl ihr hl hr pre suffix cpre csuf f st h1 h2

/-- Evaluating the one-statement program around a fragment expression. -/
lemma evalProgram_frag (t : Bool) (e : Expr) (hfrag : FragP t e) :
    evalProgram (exprFuel e + 2) [Stmt.expressionStatement e] 0 initialHeap
      = (fragEOut (denoteFrag e), initialHeap) := by
  have hex := evalExpr_frag t e hfrag (exprFuel e) 0 initialHeap (le_refl _)
  have hstep : evalProgram (exprFuel e + 2) [Stmt.expressionStatement e] 0 initialHeap
      = evalProgram (exprFuel e + 1 + 1) [Stmt.expressionStatement e] 0 initialHeap := rfl
  rcases hd : denoteFrag e with - | v
  · rw [hd] at hex
    rw [hstep]
    simp only [evalProgram, evalStmt, hex, fragEOut_none]
  · rcases v with v | b
    · rw [hd] at hex
      rw [hstep]
      simp only [evalProgram, evalStmt, hex, fragEOut_int]
    · rw [hd] at hex
      rw [hstep]
      have hb : nativeToBooleanObject b = Obj.boolean b := by cases b <;> rfl
      simp only [evalProgram, evalStmt, hex, fragEOut_bool, hb]

/-- Compiling the one-statement program around a fragment expression. -/
lemma compile_frag (t : Bool) (e : Expr) (hfrag : FragP t e) :
    compile [Stmt.expressionStatement e]
      = .ok ⟨codeOf e 0 ++ makeIns OpPop [], constsOf e⟩ := by
  have hce := compileExpr_frag t e hfrag [] []
  simp only [List.nil_append, List.length_nil] at hce
  simp [compile, compileProgramGo, compileStmt, hce, Bind.bind, Except.bind]

/-- Running the compiled one-statement program: the fragment code then
`OpPop`, from the initial VM state. -/
lemma vmRun_frag (t : Bool) (e : Expr) (hfrag : FragP t e)
    (hstack : maxStack e ≤ STACKSIZE) (hconsts : (constsOf e).length ≤ 65536) :
    (match denoteFrag e with
     | some v => ∃ g : Nat → Option Obj,
         vmRun ⟨codeOf e 0 ++ makeIns OpPop [], constsOf e⟩ (instrNum e + 2)
           = .ok ⟨g, 0⟩ ∧ g 0 = some (fragObj v)
     | none =>
         vmRun ⟨codeOf e 0 ++ makeIns OpPop [], constsOf e⟩ (instrNum e + 2)
           = .panicked) := by
  have hfg := vmExec_frag t e hfrag [] (makeIns OpPop []) [] [] 2 initialVMState
    (by show 0 + maxStack e ≤ STACKSIZE; omega)
    (by show ([] : List Obj).length + (constsOf e).length ≤ 65536; simp; omega)
  rcases hd : denoteFrag e with - | v
  · simp only [FragVMGoal, hd, List.nil_append, List.length_nil, List.append_nil,
      Nat.zero_add, initialVMState] at hfg
    show vmLoop (codeOf e 0 ++ makeIns OpPop []) (constsOf e) (instrNum e + 2) 0
      initialVMState = .panicked
    rw [show instrNum e + 2 = 2 + instrNum e from by omega]
    exact hfg
  · simp only [FragVMGoal, hd, List.nil_append, List.length_nil, List.append_nil,
      Nat.zero_add, initialVMState] at hfg
    obtain ⟨g, heq, -, htop⟩ := hfg
    have hmk : makeIns OpPop [] = [OpPop] := rfl
    have hopP : (codeOf e 0 ++ makeIns OpPop []).getD (codeOf e 0).length 0 = OpPop := by
      rw [hmk]
      exact getD_at_len (codeOf e 0) OpPop []
    have hipP : (codeOf e 0).length < (codeOf e 0 ++ makeIns OpPop []).length := by
      rw [hmk]
      simp only [List.length_append, List.length_cons, List.length_nil]
      omega
    have hpop : vmLoop (codeOf e 0 ++ makeIns OpPop []) (constsOf e) 2
        (codeOf e 0).length ⟨g, 1⟩
      = vmLoop (codeOf e 0 ++ makeIns OpPop []) (constsOf e) 1
        ((codeOf e 0).length + 1) ⟨g, 0⟩ :=
      vmStep_pop (codeOf e 0 ++ makeIns OpPop []) (constsOf e) 1
        ((codeOf e 0).length) ⟨g, 1⟩ 0 hopP hipP rfl
    have hdone : vmLoop (codeOf e 0 ++ makeIns OpPop []) (constsOf e) 1
        ((codeOf e 0).length + 1) ⟨g, 0⟩ = .ok ⟨g, 0⟩ :=
      vmStep_done (codeOf e 0 ++ makeIns OpPop []) (constsOf e) 0
        ((codeOf e 0).length + 1) ⟨g, 0⟩
        (by rw [hmk]; simp only [List.length_append, List.length_cons, List.length_nil]; omega)
    refine ⟨g, ?_, htop⟩
    show vmLoop (codeOf e 0 ++ makeIns OpPop []) (constsOf e) (instrNum e + 2) 0
      initialVMState = .ok ⟨g, 0⟩
    rw [show instrNum e + 2 = 2 + instrNum e from by omega]
    exact heq.trans (hpop.trans hdone)

/-- C1: the claimed Eval-vs-VM equivalence fails on `!(true)`: it parses,
the tree walker yields FALSE (Inspect "false"), but the VM run loop has
no case for `OpBang`, skips it, and leaves TRUE on the stack (Inspect
"true"). -/
theorem C1_counterexample :
    parsedProgram 99 "!(true)"
      = some [Stmt.expressionStatement (.prefixExpression "!" (.booleanLiteral true))] ∧
    (evalProgram 99 [Stmt.expressionStatement (.prefixExpression "!" (.booleanLiteral true))]
        0 initialHeap).1 = .ret (some (Obj.boolean false)) none ∧
    compileAndRun 99 [Stmt.expressionStatement (.prefixExpression "!" (.booleanLiteral true))]
      = some (some (Obj.boolean true)) ∧
    (Obj.boolean false).inspect = some "false" ∧
    (Obj.boolean true).inspect = some "true" ∧
    some "false" ≠ some "true" :=
  ⟨rfl, rfl, rfl, rfl, rfl, by decide⟩

/-- C1 (amended): on the straight-line arithmetic/boolean fragment the
equivalence does hold.  For a fragment expression `e`, the compiler
emits `codeOf e 0` plus `OpPop`; when the denotation is a value both
the tree walker and the VM produce that same object (hence the same
Inspect output), and when the denotation panics (division by zero)
both panic. -/
theorem C1_fragment_equivalence (t : Bool) (e : Expr) (hfrag : FragP t e)
    (hstack : maxStack e ≤ STACKSIZE) (hconsts : (constsOf e).length ≤ 65536) :
    compile [Stmt.expressionStatement e]
      = .ok ⟨codeOf e 0 ++ makeIns OpPop [], constsOf e⟩ ∧
    (∀ v, denoteFrag e = some v →
      (evalProgram (exprFuel e + 2) [Stmt.expressionStatement e] 0 initialHeap).1
          = .ret (some (fragObj v)) none ∧
      compileAndRun (instrNum e + 2) [Stmt.expressionStatement e]
          = some (some (fragObj v))) ∧
    (denoteFrag e = none →
      (evalProgram (exprFuel e + 2) [Stmt.expressionStatement e] 0 initialHeap).1
          = .panicked ∧
      vmRun ⟨codeOf e 0 ++ makeIns OpPop [], constsOf e⟩ (instrNum e + 2)
          = .panicked) := by
  have hc := compile_frag t e hfrag
  have he := evalProgram_frag t e hfrag
  have hvm := vmRun_frag t e hfrag hstack hconsts
  refine ⟨hc, ?_, ?_⟩
  · intro v hv
    simp only [hv] at hvm
    obtain ⟨g, hok, htop⟩ := hvm
    constructor
    · rw [he, hv]
      rcases v with v | b
      · rfl
      · cases b <;> rfl
    · simp only [compileAndRun, hc, hok, lastPopped, htop]
  · intro hnone
    simp only [hnone] at hvm
    refine ⟨?_, hvm⟩
    rw [he, hnone]
    rfl

/-- The amended C1 theorem at the concrete input `1 + 2`: both engines
compute the Integer 3. -/
theorem C1_fragment_equivalence_witness :
    (evalProgram
        (exprFuel (Expr.infixExpression "+" (.integerLiteral 1) (.integerLiteral 2)) + 2)
        [Stmt.expressionStatement
          (Expr.infixExpression "+" (.integerLiteral 1) (.integerLiteral 2))]
        0 initialHeap).1 = .ret (some (Obj.integer 3)) none ∧
    compileAndRun
        (instrNum (Expr.infixExpression "+" (.integerLiteral 1) (.integerLiteral 2)) + 2)
        [Stmt.expressionStatement
          (Expr.infixExpression "+" (.integerLiteral 1) (.integerLiteral 2))]
      = some (some (Obj.integer 3)) :=
  (C1_fragment_equivalence true
    (Expr.infixExpression "+" (.integerLiteral 1) (.integerLiteral 2))
    (FragP.arith "+" (.integerLiteral 1) (.integerLiteral 2) (Or.inl rfl)
      (FragP.intLit 1) (FragP.intLit 2))
    (by decide) (by decide)).2.1 (FragVal.VInt 3) (by decide)

end Monkey
